import Mathlib

/-!
Verification of the qbsp geometric-compiler core (plane registry, vertex
hashing, coplanar face merging, portal bookkeeping, T-junction repair)
against its natural-language specification.

Modelling conventions:
* `vec_t` (C `double`) is modelled by `ℚ`; floating-point rounding is not
  modelled, but the two IEEE constants that the minimum-weight triangulation
  compares against (`std::numeric_limits<vec_t>::max()` and its
  `nexttoward(max, 0)` predecessor) are modelled by their exact rational
  values.
* square roots (`qv::length`, `qv::normalize`, `qv::distance`) are irrational
  in general; where a claim depends only on the control structure around them
  they are passed as an oracle parameter `vsqrt`, and where a concrete
  evaluation is needed the rational approximation `ratSqrt` (exact on perfect
  squares) is used.
* fatal errors (`FError`, `Q_assert`) are modelled by `Except`/`Option`
  error results.
-/

set_option maxHeartbeats 4000000

/-- 3D vector of rationals, modelling `qvec3d`. -/
structure Vec3 where
  x : ℚ
  y : ℚ
  z : ℚ
deriving DecidableEq, Repr

instance : Inhabited Vec3 := ⟨⟨0, 0, 0⟩⟩

def vadd (a b : Vec3) : Vec3 := ⟨a.x + b.x, a.y + b.y, a.z + b.z⟩

def vsub (a b : Vec3) : Vec3 := ⟨a.x - b.x, a.y - b.y, a.z - b.z⟩

def vneg (a : Vec3) : Vec3 := ⟨-a.x, -a.y, -a.z⟩

def smul (c : ℚ) (a : Vec3) : Vec3 := ⟨c * a.x, c * a.y, c * a.z⟩

def dot (a b : Vec3) : ℚ := a.x * b.x + a.y * b.y + a.z * b.z

def cross (a b : Vec3) : Vec3 :=
  ⟨a.y * b.z - a.z * b.y, a.z * b.x - a.x * b.z, a.x * b.y - a.y * b.x⟩

/-- Kernel-reducible absolute value on ℚ (the `|·|` of Mathlib is not
reducible by `decide`). -/
def qabs (q : ℚ) : ℚ := if q < 0 then -q else q

lemma qabs_eq_abs (q : ℚ) : qabs q = |q| := by
  unfold qabs
  rcases lt_trichotomy q 0 with h | h | h
  · rw [if_pos h, abs_of_neg h]
  · simp [h]
  · rw [if_neg (by linarith), abs_of_pos h]

lemma qabs_neg (q : ℚ) : qabs (-q) = qabs q := by
  rw [qabs_eq_abs, qabs_eq_abs, abs_neg]

/-- Bit length of a natural number, fuel-bounded (structural recursion so
that concrete evaluations reduce in the kernel). -/
def bitLenAux : ℕ → ℕ → ℕ
  | 0, _ => 0
  | fuel + 1, n => if n = 0 then 0 else bitLenAux fuel (n / 2) + 1

/-- Restoring-method integer square root, one candidate bit per step. -/
def isqrtAux (n : ℕ) : ℕ → ℕ → ℕ
  | 0, acc => acc
  | b + 1, acc =>
    let t := acc + 2 ^ b
    if t * t ≤ n then isqrtAux n b t else isqrtAux n b acc

/-- Floor integer square root (kernel-reducible). -/
def isqrt (n : ℕ) : ℕ := isqrtAux n (bitLenAux n n) 0

/-- Rational stand-in for the double-precision square root: exact on perfect
squares (which is all the concrete evaluations below use). -/
def ratSqrt (q : ℚ) : ℚ := (isqrt q.num.toNat : ℚ) / (isqrt q.den : ℚ)

/-- `qv::length`. -/
def vlen (v : Vec3) : ℚ := ratSqrt (dot v v)

/-- `qv::normalize` (division by a zero length gives the zero vector in ℚ;
the C code would produce non-finite components there, a case none of the
claims exercises). -/
def qnormalize (v : Vec3) : Vec3 := smul (1 / vlen v) v

/-- Oriented plane `qplane3d`: unit normal and signed distance. -/
structure QPlane where
  normal : Vec3
  dist : ℚ
deriving DecidableEq, Repr

instance : Inhabited QPlane := ⟨⟨⟨0, 0, 1⟩, 0⟩⟩

def pneg (p : QPlane) : QPlane := ⟨vneg p.normal, -p.dist⟩

/-! ## Plane registry (`mapdata_t::add_plane`, map.hh)

`qbsp_plane_t::get_type` lives in qbsp.hh which is not among the sources.
Modelled from the spec: the type of a plane, taken mod 3, is the dominant
axis of its normal — the axis with the largest absolute component (first
axis wins ties, matching the strict comparisons of the plane classifier). -/

def axisComp (v : Vec3) : Fin 3 → ℚ
  | 0 => v.x
  | 1 => v.y
  | 2 => v.z

/-- Modelled from the spec: dominant axis of a normal
(`static_cast<int32_t>(get_type()) % 3` on a `qbsp_plane_t`). -/
def dominantAxis (v : Vec3) : Fin 3 :=
  if qabs v.y > qabs v.x then (if qabs v.z > qabs v.y then 2 else 1)
  else (if qabs v.z > qabs v.x then 2 else 0)

structure AddPlaneResult where
  planes : List QPlane
  ret : Nat
deriving DecidableEq, Repr

/-- `mapdata_t::add_plane` (map.hh:152-165): appends the plane and its
negation; if the plane as passed has a negative component along the dominant
axis the two stored entries are swapped and the odd id is returned, else the
even id is returned. -/
def add_plane (planes : List QPlane) (p : QPlane) : AddPlaneResult :=
  let positive := p
  let negative := pneg p
  if axisComp positive.normal (dominantAxis positive.normal) < 0 then
    { planes := planes ++ [negative, positive], ret := planes.length + 1 }
  else
    { planes := planes ++ [positive, negative], ret := planes.length }

/-! ## Vertex hashing (`mapdata_t::add_hash_vector` / `find_emitted_hash_vector`, map.hh) -/

/-- Bucket key: integer-floor coordinates. -/
abbrev HashKey := ℤ × ℤ × ℤ

structure HashVert where
  point : Vec3
  num : Nat
deriving DecidableEq, Repr

/-- `map.hashverts`: a `std::map` from bucket key to a list of entries,
modelled as a total function (absent key = empty list). -/
def HashVerts := HashKey → List HashVert

def hvEmpty : HashVerts := fun _ => []

/-- push_front into one bucket. -/
def hvPush (h : HashVerts) (k : HashKey) (v : HashVert) : HashVerts :=
  fun k' => if k' = k then v :: h k else h k'

/-- `qv::epsilonEqual` on points, modelled from the spec (two vertices within
a small ε are identified): componentwise absolute difference at most ε. -/
def epsilonEqual (a b : Vec3) (eps : ℚ) : Bool :=
  qabs (a.x - b.x) ≤ eps && qabs (a.y - b.y) ≤ eps && qabs (a.z - b.z) ≤ eps

def floorKey (v : Vec3) : HashKey := (⌊v.x⌋, ⌊v.y⌋, ⌊v.z⌋)

/-- `mapdata_t::find_emitted_hash_vector` (map.hh:217-228): look only in the
bucket of the query point and return the first entry within ε. -/
def find_emitted_hash_vector (h : HashVerts) (eps : ℚ) (v : Vec3) : Option Nat :=
  ((h (floorKey v)).find? fun hv => epsilonEqual hv.point v eps).map HashVert.num

def hashOffsets : List ℤ := [-1, 0, 1]

/-- `mapdata_t::add_hash_vector` (map.hh:231-244): record the point under all
27 neighbouring integer-floor buckets, most recent first. -/
def add_hash_vector (h : HashVerts) (point : Vec3) (num : Nat) : HashVerts :=
  hashOffsets.foldl (fun h x =>
    hashOffsets.foldl (fun h y =>
      hashOffsets.foldl (fun h z =>
        hvPush h (⌊point.x⌋ + x, ⌊point.y⌋ + y, ⌊point.z⌋ + z) ⟨point, num⟩) h) h) h

/-! ### Facts about the plane registry -/

lemma two_mul_xor_one (k : ℕ) : (2 * k) ^^^ 1 = 2 * k + 1 := by
  apply Nat.eq_of_testBit_eq
  intro i
  cases i with
  | zero => simp [Nat.testBit_zero, Nat.mul_add_mod, Nat.xor_mod_two_eq]
  | succ j =>
    rw [Nat.testBit_xor]
    simp [Nat.testBit_succ, Nat.mul_add_div]

lemma two_mul_add_one_xor_one (k : ℕ) : (2 * k + 1) ^^^ 1 = 2 * k := by
  apply Nat.eq_of_testBit_eq
  intro i
  cases i with
  | zero =>
    simp [Nat.testBit_zero, Nat.xor_mod_two_eq]
    omega
  | succ j =>
    rw [Nat.testBit_xor]
    simp [Nat.testBit_succ, Nat.mul_add_div]

lemma dominantAxis_vneg (v : Vec3) : dominantAxis (vneg v) = dominantAxis v := by
  simp [dominantAxis, vneg, qabs_neg]

lemma axisComp_vneg (v : Vec3) (i : Fin 3) : axisComp (vneg v) i = -(axisComp v i) := by
  fin_cases i <;> simp [axisComp, vneg]

/-- C4 (amended): `add_plane` appends both orientations of `p` as a
consecutive pair with the positive orientation (non-negative component along
its dominant axis) at the even id and its negation at the following odd id,
so that `planes[id ^^^ 1] = -planes[id]` for the returned id; the returned id
is the id at which the input plane itself is stored — the even id exactly
when the input is positively oriented, the odd id otherwise. -/
theorem add_plane_spec (planes : List QPlane) (p : QPlane) (he : Even planes.length) :
    ((add_plane planes p).planes.length = planes.length + 2) ∧
    (∀ i, i < planes.length →
      (add_plane planes p).planes.getD i default = planes.getD i default) ∧
    (0 ≤ axisComp ((add_plane planes p).planes.getD planes.length default).normal
        (dominantAxis ((add_plane planes p).planes.getD planes.length default).normal)) ∧
    ((add_plane planes p).planes.getD (planes.length + 1) default
      = pneg ((add_plane planes p).planes.getD planes.length default)) ∧
    ((add_plane planes p).planes.getD (add_plane planes p).ret default = p) ∧
    ((add_plane planes p).planes.getD ((add_plane planes p).ret ^^^ 1) default = pneg p) ∧
    ((add_plane planes p).ret = planes.length ∨ (add_plane planes p).ret = planes.length + 1) ∧
    ((add_plane planes p).ret = planes.length ↔
      ¬ axisComp p.normal (dominantAxis p.normal) < 0) := by
  obtain ⟨k, hk⟩ := he
  have hk2 : planes.length = 2 * k := by omega
  by_cases hneg : axisComp p.normal (dominantAxis p.normal) < 0
  · simp only [add_plane, if_pos hneg]
    have h0 : (planes ++ [pneg p, p]).getD planes.length default = pneg p := by
      rw [List.getD_append_right _ _ _ _ (le_refl _)]
      simp
    have h1 : (planes ++ [pneg p, p]).getD (planes.length + 1) default = p := by
      rw [List.getD_append_right _ _ _ _ (by omega)]
      simp [Nat.add_sub_cancel_left]
    refine ⟨by simp, ?_, ?_, ?_, ?_, ?_, ?_, ?_⟩
    · intro i hi
      exact List.getD_append _ _ _ _ hi
    · rw [h0]
      rw [show (pneg p).normal = vneg p.normal from rfl, dominantAxis_vneg, axisComp_vneg]
      linarith
    · rw [h0, h1]
      show p = pneg (pneg p)
      simp [pneg, vneg]
    · exact h1
    · rw [hk2, two_mul_add_one_xor_one, ← hk2, h0]
    · simp
    · simp [hneg]
  · simp only [add_plane, if_neg hneg]
    have h0 : (planes ++ [p, pneg p]).getD planes.length default = p := by
      rw [List.getD_append_right _ _ _ _ (le_refl _)]
      simp
    have h1 : (planes ++ [p, pneg p]).getD (planes.length + 1) default = pneg p := by
      rw [List.getD_append_right _ _ _ _ (by omega)]
      simp [Nat.add_sub_cancel_left]
    refine ⟨by simp, ?_, ?_, ?_, ?_, ?_, ?_, ?_⟩
    · intro i hi
      exact List.getD_append _ _ _ _ hi
    · rw [h0]; linarith
    · rw [h0, h1]
    · exact h0
    · rw [hk2, two_mul_xor_one, ← hk2, h1]
    · simp
    · simp [hneg]

/-- Witness for `add_plane_spec` at a concrete positively-oriented plane and
the empty registry. -/
theorem add_plane_spec_witness :
    ((add_plane [] ⟨⟨1, 0, 0⟩, 7⟩).planes.length = 0 + 2) ∧
    (∀ i, i < ([] : List QPlane).length →
      (add_plane [] ⟨⟨1, 0, 0⟩, 7⟩).planes.getD i default = ([] : List QPlane).getD i default) ∧
    (0 ≤ axisComp ((add_plane [] ⟨⟨1, 0, 0⟩, 7⟩).planes.getD 0 default).normal
        (dominantAxis ((add_plane [] ⟨⟨1, 0, 0⟩, 7⟩).planes.getD 0 default).normal)) ∧
    ((add_plane [] ⟨⟨1, 0, 0⟩, 7⟩).planes.getD (0 + 1) default
      = pneg ((add_plane [] ⟨⟨1, 0, 0⟩, 7⟩).planes.getD 0 default)) ∧
    ((add_plane [] ⟨⟨1, 0, 0⟩, 7⟩).planes.getD (add_plane [] ⟨⟨1, 0, 0⟩, 7⟩).ret default
      = ⟨⟨1, 0, 0⟩, 7⟩) ∧
    ((add_plane [] ⟨⟨1, 0, 0⟩, 7⟩).planes.getD ((add_plane [] ⟨⟨1, 0, 0⟩, 7⟩).ret ^^^ 1) default
      = pneg ⟨⟨1, 0, 0⟩, 7⟩) ∧
    ((add_plane [] ⟨⟨1, 0, 0⟩, 7⟩).ret = 0 ∨ (add_plane [] ⟨⟨1, 0, 0⟩, 7⟩).ret = 0 + 1) ∧
    ((add_plane [] ⟨⟨1, 0, 0⟩, 7⟩).ret = 0 ↔
      ¬ axisComp (⟨1, 0, 0⟩ : Vec3) (dominantAxis ⟨1, 0, 0⟩) < 0) :=
  add_plane_spec [] ⟨⟨1, 0, 0⟩, 7⟩ (by decide)

/-- C4 counterexample: adding the negatively-oriented plane with normal
(-1,0,0) returns id 1, at which the input (negative) orientation is stored;
the positive orientation of the pair sits at id 0, so the returned id is not
the id of the positive orientation as the claim states. -/
theorem add_plane_counterexample :
    (add_plane [] ⟨⟨-1, 0, 0⟩, 5⟩).ret = 1 ∧
    (add_plane [] ⟨⟨-1, 0, 0⟩, 5⟩).planes.getD 1 default = ⟨⟨-1, 0, 0⟩, 5⟩ ∧
    axisComp ((add_plane [] ⟨⟨-1, 0, 0⟩, 5⟩).planes.getD 1 default).normal
      (dominantAxis ((add_plane [] ⟨⟨-1, 0, 0⟩, 5⟩).planes.getD 1 default).normal) < 0 ∧
    (add_plane [] ⟨⟨-1, 0, 0⟩, 5⟩).planes.getD 0 default = ⟨⟨1, 0, 0⟩, -5⟩ := by
  decide

/-! ### Vertex hashing round trip -/

/-- C9: immediately after `add_hash_vector v n`, a lookup of `v` returns `n`:
the insertion put `(v, n)` at the front of the bucket of `⌊v⌋` (among the 27
buckets written), and the lookup scans exactly that bucket front-first. -/
theorem hash_roundtrip (h : HashVerts) (v : Vec3) (n : Nat) (eps : ℚ) (he : 0 ≤ eps) :
    find_emitted_hash_vector (add_hash_vector h v n) eps v = some n := by
  simp only [add_hash_vector, hashOffsets, List.foldl_cons, List.foldl_nil,
    find_emitted_hash_vector, floorKey, hvPush]
  simp only [Prod.mk.injEq, self_eq_add_right, add_zero, and_true, true_and, and_self,
    if_true, if_false, reduceCtorEq, one_ne_zero, neg_eq_zero, if_neg, ite_false, ite_true,
    and_false, false_and]
  norm_num [List.find?_cons, epsilonEqual, qabs, he]

/-- Witness for `hash_roundtrip` on a concrete table, point and epsilon. -/
theorem hash_roundtrip_witness :
    find_emitted_hash_vector (add_hash_vector hvEmpty ⟨1/2, 3, -2⟩ 11) (1/20) ⟨1/2, 3, -2⟩
      = some 11 :=
  hash_roundtrip hvEmpty ⟨1/2, 3, -2⟩ 11 (1/20) (by norm_num)

/-! ## Coplanar face merging (`TryMerge`, merge.cc)

`EQUAL_EPSILON` and `MAXEDGES` live in qbsp.hh which is not among the
sources; the spec fixes `EQUAL_EPSILON = 1e-4` and leaves `MAXEDGES` and
`CONTINUOUS_EPSILON` per-game, so the latter two are parameters. -/

def EQUAL_EPSILON : ℚ := 1/10000

/-- The fields of `face_t` that `TryMerge` reads (`contents` is an opaque
equality-comparable token here, as `TryMerge` only compares it). -/
structure MFace where
  w : List Vec3
  planenum : Nat
  planeside : Bool
  texinfo : ℤ
  contents : ℤ
  lmshift : ℕ
deriving DecidableEq, Repr

/-- The per-coordinate shared-edge test of merge.cc:81-84: vertices `p1,p4`
and `p2,p3` must agree within `EQUAL_EPSILON` on every coordinate. -/
def edgeMatch (p1 p2 p3 p4 : Vec3) : Bool :=
  qabs (p1.x - p4.x) ≤ EQUAL_EPSILON && qabs (p1.y - p4.y) ≤ EQUAL_EPSILON &&
  qabs (p1.z - p4.z) ≤ EQUAL_EPSILON && qabs (p2.x - p3.x) ≤ EQUAL_EPSILON &&
  qabs (p2.y - p3.y) ≤ EQUAL_EPSILON && qabs (p2.z - p3.z) ≤ EQUAL_EPSILON

/-- The edge-scan loops of merge.cc:75-90: first `i` (outer) with a matching
`j` (inner, first match). -/
def findSharedEdge (w1 w2 : List Vec3) : Option (Nat × Nat) :=
  (List.range w1.length).findSome? fun i =>
    ((List.range w2.length).find? fun j =>
      edgeMatch (w1.getD i default) (w1.getD ((i + 1) % w1.length) default)
        (w2.getD j default) (w2.getD ((j + 1) % w2.length) default)).map fun j => (i, j)

/-- The polygon-copy loops of merge.cc:137-148: push `w[k]`, advance
`k := (k+1) % size`, stop at `stop` (fuel-bounded; `w.length` steps suffice). -/
def cycleTake (w : List Vec3) : Nat → Nat → Nat → List Vec3
  | _, _, 0 => []
  | k, stop, fuel + 1 =>
    if k = stop then [] else w.getD k default :: cycleTake w ((k + 1) % w.length) stop fuel

/-- The plane normal used by the convexity tests of `TryMerge`
(merge.cc:97-100): the face plane normal, flipped when `planeside` is set. -/
def mergePlaneNormal (planes : Nat → QPlane) (f1 : MFace) : Vec3 :=
  if f1.planeside then vneg (planes f1.planenum).normal else (planes f1.planenum).normal

/-- First bend test of `TryMerge` (merge.cc:102-109): signed offset of the
vertex of `f2` beyond the shared edge against the edge entering `p1`. -/
def mergeDotA (planes : Nat → QPlane) (f1 f2 : MFace) (i j : Nat) : ℚ :=
  dot (vsub (f2.w.getD ((j + 2) % f2.w.length) default) (f1.w.getD i default))
    (qnormalize (cross (mergePlaneNormal planes f1)
      (vsub (f1.w.getD i default) (f1.w.getD ((i + f1.w.length - 1) % f1.w.length) default))))

/-- Second bend test of `TryMerge` (merge.cc:113-119), at `p2`. -/
def mergeDotB (planes : Nat → QPlane) (f1 f2 : MFace) (i j : Nat) : ℚ :=
  dot (vsub (f2.w.getD ((j + f2.w.length - 1) % f2.w.length) default)
        (f1.w.getD ((i + 1) % f1.w.length) default))
    (qnormalize (cross (mergePlaneNormal planes f1)
      (vsub (f1.w.getD ((i + 2) % f1.w.length) default)
        (f1.w.getD ((i + 1) % f1.w.length) default))))

/-- `TryMerge` (merge.cc:57-153). `UpdateFaceSphere` only refreshes the
cached bounding sphere of the new face (a field the model does not carry);
`keep1 = mergeDotA < -ε`, `keep2 = mergeDotB < -ε` appear inline. -/
def TryMerge (planes : Nat → QPlane) (MAXEDGES : Nat) (CONTINUOUS_EPSILON : ℚ)
    (f1 f2 : MFace) : Option MFace :=
  if f1.w.length = 0 ∨ f2.w.length = 0 ∨ f1.planeside ≠ f2.planeside ∨
      f1.texinfo ≠ f2.texinfo ∨ f1.contents ≠ f2.contents ∨ f1.lmshift ≠ f2.lmshift then
    none
  else
    match findSharedEdge f1.w f2.w with
    | none => none
    | some (i, j) =>
      if mergeDotA planes f1 f2 i j > CONTINUOUS_EPSILON then none
      else if mergeDotB planes f1 f2 i j > CONTINUOUS_EPSILON then none
      else if f1.w.length + f2.w.length > MAXEDGES then none
      else
        some { f1 with w :=
          (cycleTake f1.w (if mergeDotB planes f1 f2 i j < -CONTINUOUS_EPSILON
              then (i + 1) % f1.w.length else (i + 2) % f1.w.length) i f1.w.length ++
            cycleTake f2.w (if mergeDotA planes f1 f2 i j < -CONTINUOUS_EPSILON
              then (j + 1) % f2.w.length else (j + 2) % f2.w.length) j f2.w.length) }

lemma cycleTake_length_le (w : List Vec3) :
    ∀ fuel k stop, (cycleTake w k stop fuel).length ≤ fuel := by
  intro fuel
  induction fuel with
  | zero => intro k stop; simp [cycleTake]
  | succ m ih =>
    intro k stop
    rw [cycleTake]
    split
    · simp
    · simpa using Nat.succ_le_succ (ih _ _)

lemma findSharedEdge_spec {w1 w2 : List Vec3} {i j : Nat}
    (h : findSharedEdge w1 w2 = some (i, j)) :
    i < w1.length ∧ j < w2.length ∧
      edgeMatch (w1.getD i default) (w1.getD ((i + 1) % w1.length) default)
        (w2.getD j default) (w2.getD ((j + 1) % w2.length) default) = true := by
  obtain ⟨a, ha, hfa⟩ := List.exists_of_findSome?_eq_some h
  rw [List.mem_range] at ha
  cases hj : (List.range w2.length).find? fun j =>
      edgeMatch (w1.getD a default) (w1.getD ((a + 1) % w1.length) default)
        (w2.getD j default) (w2.getD ((j + 1) % w2.length) default) with
  | none => rw [hj] at hfa; exact absurd hfa (by simp)
  | some jv =>
    rw [hj] at hfa
    have hij : a = i ∧ jv = j := by
      have h1 := congrArg (fun o => (o.map Prod.fst).getD 0) hfa
      have h2 := congrArg (fun o => (o.map Prod.snd).getD 0) hfa
      simp at h1 h2
      exact ⟨h1, h2⟩
    obtain ⟨rfl, rfl⟩ := hij
    have hp := List.find?_some hj
    refine ⟨ha, ?_, by simpa using hp⟩
    have := List.mem_of_find?_eq_some hj
    rwa [List.mem_range] at this

/-- C3 (amended): `TryMerge` returns a merged face only if the two faces have
the same `planeside`, `texinfo`, `contents` and `lmshift`, share an edge (the
same vertex pair in opposite orientation, per-coordinate within
`EQUAL_EPSILON`) and the result has at most `MAXEDGES` vertices.  (`planenum`
is not compared by the code — see the counterexample.) -/
theorem tryMerge_necessary (planes : Nat → QPlane) (MAXEDGES : Nat)
    (CONTINUOUS_EPSILON : ℚ) (f1 f2 g : MFace)
    (h : TryMerge planes MAXEDGES CONTINUOUS_EPSILON f1 f2 = some g) :
    f1.planeside = f2.planeside ∧ f1.texinfo = f2.texinfo ∧
    f1.contents = f2.contents ∧ f1.lmshift = f2.lmshift ∧
    (∃ i j, i < f1.w.length ∧ j < f2.w.length ∧
      edgeMatch (f1.w.getD i default) (f1.w.getD ((i + 1) % f1.w.length) default)
        (f2.w.getD j default) (f2.w.getD ((j + 1) % f2.w.length) default) = true) ∧
    g.w.length ≤ MAXEDGES := by
  rw [TryMerge] at h
  split at h
  · simp at h
  · rename_i hguard
    push_neg at hguard
    obtain ⟨-, -, hps, hti, hco, hlm⟩ := hguard
    refine ⟨hps, hti, hco, hlm, ?_⟩
    cases he : findSharedEdge f1.w f2.w with
    | none => rw [he] at h; simp at h
    | some ij =>
      obtain ⟨i, j⟩ := ij
      simp only [he] at h
      obtain ⟨hi, hj, hmatch⟩ := findSharedEdge_spec he
      refine ⟨⟨i, j, hi, hj, hmatch⟩, ?_⟩
      split at h
      · simp at h
      split at h
      · simp at h
      split at h
      · simp at h
      rename_i hle
      have hg := (Option.some.inj h).symm
      have hlen : g.w.length ≤ f1.w.length + f2.w.length := by
        rw [hg]
        simp only [List.length_append]
        exact Nat.add_le_add (cycleTake_length_le _ _ _ _) (cycleTake_length_le _ _ _ _)
      omega

/-- Left unit square on the z = 0 plane (plane id 0). -/
def sqA : MFace := ⟨[⟨0,0,0⟩, ⟨1,0,0⟩, ⟨1,1,0⟩, ⟨0,1,0⟩], 0, false, 0, 0, 4⟩

/-- Right unit square, same plane id. -/
def sqB : MFace := ⟨[⟨1,0,0⟩, ⟨2,0,0⟩, ⟨2,1,0⟩, ⟨1,1,0⟩], 0, false, 0, 0, 4⟩

/-- Right unit square carrying a different plane id. -/
def sqBalt : MFace := ⟨[⟨1,0,0⟩, ⟨2,0,0⟩, ⟨2,1,0⟩, ⟨1,1,0⟩], 2, false, 0, 0, 4⟩

/-- The merged 1x2 rectangle. -/
def sqMerged : MFace := ⟨[⟨0,1,0⟩, ⟨0,0,0⟩, ⟨2,0,0⟩, ⟨2,1,0⟩], 0, false, 0, 0, 4⟩

def planesZ : Nat → QPlane := fun _ => ⟨⟨0,0,1⟩, 0⟩

unseal Rat.add Rat.mul Rat.inv Rat.sub in
/-- C3 counterexample: two faces that differ in `planenum` (0 vs 2) but agree
in everything else and share an edge are merged by `TryMerge` — it never
compares `planenum` — refuting the claim that a merged face is returned only
when the faces have the same `planenum`. -/
theorem tryMerge_planenum_counterexample :
    sqA.planenum ≠ sqBalt.planenum ∧
    TryMerge planesZ 64 (1/1000) sqA sqBalt = some sqMerged := by
  constructor
  · decide
  · decide

unseal Rat.add Rat.mul Rat.inv Rat.sub in
/-- Witness for `tryMerge_necessary` on the two concrete unit squares. -/
theorem tryMerge_necessary_witness :
    sqA.planeside = sqB.planeside ∧ sqA.texinfo = sqB.texinfo ∧
    sqA.contents = sqB.contents ∧ sqA.lmshift = sqB.lmshift ∧
    (∃ i j, i < sqA.w.length ∧ j < sqB.w.length ∧
      edgeMatch (sqA.w.getD i default) (sqA.w.getD ((i + 1) % sqA.w.length) default)
        (sqB.w.getD j default) (sqB.w.getD ((j + 1) % sqB.w.length) default) = true) ∧
    sqMerged.w.length ≤ 64 :=
  tryMerge_necessary planesZ 64 (1/1000) sqA sqB sqMerged (by decide)

/-! ## Portal bookkeeping (portals.cc)

The portal graph is an intrusive doubly-keyed linked structure: each portal
carries two endpoint nodes `nodes0/nodes1` and two list links `next0/next1`;
a node points at the head of its portal list and the list of node `n` is
chased by following `next0` when `nodes0 = n` and `next1` otherwise.
Windings are an abstract type `W`; clipping and the tiny test are oracles in
`PCtx` since they rest on floating-point geometry (winding.hh is not among
the sources).  `FError` is modelled by `Except.error`. -/

/-- `PLANENUM_LEAF` (qbsp.hh, not among the sources; modelled from the spec:
a sentinel plane id marking leaves). -/
def PLANENUM_LEAF : ℤ := -1

def SPLIT_WINDING_EPSILON : ℚ := 1/1000

structure PortalRec (W : Type) where
  planenum : Nat := 0
  onnode : Option Nat := none
  winding : Option W := none
  nodes0 : Option Nat := none
  nodes1 : Option Nat := none
  next0 : Option Nat := none
  next1 : Option Nat := none
deriving DecidableEq

/-- The static per-node data the portal routines read (`node_t` fields that
these routines never mutate). -/
structure PNodeData where
  planenum : ℤ
  children0 : Nat
  children1 : Nat
  contents : Nat
deriving DecidableEq, Repr

/-- Static context: tree shape, plane registry, winding oracles and the
game contents predicate. -/
structure PCtx (W : Type) where
  nodes : Nat → PNodeData
  planes : Nat → QPlane
  clip : W → QPlane → ℚ → Bool → Option W × Option W
  tiny : W → Bool
  isAnySolid : Nat → Bool

/-- The mutable state of the portal phase: the portal store, the bump
allocator for portal ids, each node's portal-list head, and the tiny-portal
statistic. -/
structure PState (W : Type) where
  portals : Nat → PortalRec W
  nportals : Nat
  nodeportals : Nat → Option Nat
  c_tinyportals : Nat

def initPState (W : Type) : PState W :=
  { portals := fun _ => {}, nportals := 0, nodeportals := fun _ => none, c_tinyportals := 0 }

def setP (s : PState W) (i : Nat) (r : PortalRec W) : PState W :=
  { s with portals := fun j => if j = i then r else s.portals j }

def setHead (s : PState W) (n : Nat) (v : Option Nat) : PState W :=
  { s with nodeportals := fun m => if m = n then v else s.nodeportals m }

/-- `AddPortalToNodes` (portals.cc:103-115); the two halves run in order, so
a second read of the portal record between them is explicit. -/
def AddPortalToNodes (s : PState W) (pid front back : Nat) : Except String (PState W) :=
  let p := s.portals pid
  if p.nodes0.isSome || p.nodes1.isSome then
    .error "portal already included"
  else
    let s1 := setP s pid { p with nodes0 := some front, next0 := s.nodeportals front }
    let s2 := setHead s1 front (some pid)
    let q := s2.portals pid
    let s3 := setP s2 pid { q with nodes1 := some back, next1 := s2.nodeportals back }
    let s4 := setHead s3 back (some pid)
    .ok s4

/-- The slot the walking pointer-to-pointer `pp` of `RemovePortalFromNode`
designates: either a node-list head or one of a portal's two next links. -/
inductive Slot where
  | head (l : Nat)
  | link0 (q : Nat)
  | link1 (q : Nat)
deriving DecidableEq, Repr

def writeSlot (s : PState W) : Slot → Option Nat → PState W
  | .head l, v => setHead s l v
  | .link0 q, v => setP s q { s.portals q with next0 := v }
  | .link1 q, v => setP s q { s.portals q with next1 := v }

def slotGet (s : PState W) : Slot → Option Nat
  | .head l => s.nodeportals l
  | .link0 q => (s.portals q).next0
  | .link1 q => (s.portals q).next1

/-- The search loop of `RemovePortalFromNode` (portals.cc:127-142): walk the
list of `l` until the portal is found, returning the slot that points at it;
`FError` on a null link or a portal not bounding `l`. -/
def findPrevSlot (s : PState W) (portal l : Nat) :
    Option Nat → Slot → Nat → Except String Slot
  | _, _, 0 => .error "out of fuel"
  | none, _, _ + 1 => .error "Portal not in leaf"
  | some t, slot, fuel + 1 =>
    if t = portal then .ok slot
    else
      let tr := s.portals t
      if tr.nodes0 = some l then findPrevSlot s portal l tr.next0 (.link0 t) fuel
      else if tr.nodes1 = some l then findPrevSlot s portal l tr.next1 (.link1 t) fuel
      else .error "Portal not bounding leaf"

/-- `RemovePortalFromNode` (portals.cc:122-151): splice the found slot past
the portal and clear the matching endpoint (nothing is changed when neither
endpoint matches, as in the C code). -/
def RemovePortalFromNode (s : PState W) (portal l : Nat) (fuel : Nat) :
    Except String (PState W) := do
  let slot ← findPrevSlot s portal l (s.nodeportals l) (.head l) fuel
  let p := s.portals portal
  if p.nodes0 = some l then
    let s1 := writeSlot s slot p.next0
    pure (setP s1 portal { s1.portals portal with nodes0 := none })
  else if p.nodes1 = some l then
    let s1 := writeSlot s slot p.next1
    pure (setP s1 portal { s1.portals portal with nodes1 := none })
  else
    pure s

/-- `Portal_EntityFlood` (portals.cc:81-96).  The side argument `sside` is
unused by the body, exactly as in the source. -/
def Portal_EntityFlood (ctx : PCtx W) (s : PState W) (pid : Nat) (_sside : Nat) :
    Except String Bool :=
  match (s.portals pid).nodes0, (s.portals pid).nodes1 with
  | some n0, some n1 =>
    if (ctx.nodes n0).planenum ≠ PLANENUM_LEAF ∨ (ctx.nodes n1).planenum ≠ PLANENUM_LEAF then
      .error "Portal_EntityFlood: not a leaf"
    else if ctx.isAnySolid (ctx.nodes n0).contents || ctx.isAnySolid (ctx.nodes n1).contents then
      .ok false
    else
      .ok true
  | _, _ => .error "null portal node"

/-- C8: with both endpoints set, `Portal_EntityFlood` errors out exactly when
one of them is not a leaf; otherwise it returns `false` exactly when one of
the two leaf contents is solid, and the result never depends on the side
argument. -/
theorem portal_entityFlood_spec (ctx : PCtx W) (s : PState W) (pid sside n0 n1 : Nat)
    (h0 : (s.portals pid).nodes0 = some n0) (h1 : (s.portals pid).nodes1 = some n1) :
    ((∃ e, Portal_EntityFlood ctx s pid sside = .error e) ↔
      ((ctx.nodes n0).planenum ≠ PLANENUM_LEAF ∨ (ctx.nodes n1).planenum ≠ PLANENUM_LEAF)) ∧
    (∀ b, Portal_EntityFlood ctx s pid sside = .ok b →
      (b = false ↔ (ctx.isAnySolid (ctx.nodes n0).contents = true ∨
        ctx.isAnySolid (ctx.nodes n1).contents = true))) ∧
    (∀ sside2, Portal_EntityFlood ctx s pid sside2 = Portal_EntityFlood ctx s pid sside) := by
  simp only [Portal_EntityFlood, h0, h1]
  refine ⟨?_, ?_, fun _ => trivial⟩
  · by_cases hleaf : (ctx.nodes n0).planenum ≠ PLANENUM_LEAF ∨ (ctx.nodes n1).planenum ≠ PLANENUM_LEAF
    · rw [if_pos hleaf]
      simp [hleaf]
    · rw [if_neg hleaf]
      constructor
      · intro ⟨e, he⟩
        split at he <;> simp at he
      · intro hc
        exact absurd hc hleaf
  · intro b hb
    split at hb
    · exact absurd hb (by simp)
    · split at hb
      · rename_i hsolid
        have hbf : b = false := (Except.ok.inj hb).symm
        subst hbf
        simp only [Bool.or_eq_true] at hsolid
        exact ⟨fun _ => hsolid, fun _ => rfl⟩
      · rename_i hsolid
        have hbt : b = true := (Except.ok.inj hb).symm
        subst hbt
        constructor
        · intro h; exact absurd h (by simp)
        · intro h
          exact absurd (by simpa using h) hsolid

/-- Concrete context for the entity-flood witness: every node is a leaf and
contents code 5 is solid. -/
def efCtx : PCtx Unit where
  nodes := fun n => ⟨-1, 0, 0, n⟩
  planes := fun _ => default
  clip := fun _ _ _ _ => (none, none)
  tiny := fun _ => false
  isAnySolid := fun c => c == 5

/-- Concrete state for the entity-flood witness: one portal between leaves
1 and 2. -/
def efState : PState Unit where
  portals := fun _ => { nodes0 := some 1, nodes1 := some 2 }
  nportals := 1
  nodeportals := fun _ => none
  c_tinyportals := 0

/-- Witness for `portal_entityFlood_spec` on a concrete two-leaf state. -/
theorem portal_entityFlood_spec_witness :
    ((∃ e, Portal_EntityFlood efCtx efState 0 0 = .error e) ↔
      ((efCtx.nodes 1).planenum ≠ PLANENUM_LEAF ∨ (efCtx.nodes 2).planenum ≠ PLANENUM_LEAF)) ∧
    (∀ b, Portal_EntityFlood efCtx efState 0 0 = .ok b →
      (b = false ↔ (efCtx.isAnySolid (efCtx.nodes 1).contents = true ∨
        efCtx.isAnySolid (efCtx.nodes 2).contents = true))) ∧
    (∀ sside2, Portal_EntityFlood efCtx efState 0 sside2 = Portal_EntityFlood efCtx efState 0 0) :=
  portal_entityFlood_spec efCtx efState 0 0 1 2 rfl rfl

/-- Drop a clipped fragment when it is present but tiny, counting it in
`c_tinyportals` (portals.cc:332-342). -/
def dropTiny (ctx : PCtx W) (w : Option W) (s : PState W) : Option W × PState W :=
  match w with
  | some wv =>
    if ctx.tiny wv then (none, { s with c_tinyportals := s.c_tinyportals + 1 }) else (some wv, s)
  | none => (none, s)

/-- The duplication step of the split loop (portals.cc:364-368): allocate the
copy with the back winding, then store the front winding in the original;
returns the new state and the copy's id. -/
def splitBoth (s : PState W) (pid : Nat) (fwv bwv : W) : PState W × Nat :=
  let pcur := s.portals pid
  let nid := s.nportals
  let s := setP s nid { pcur with winding := some bwv }
  let s := { s with nportals := nid + 1 }
  let s := setP s pid { s.portals pid with winding := some fwv }
  (s, nid)

/-- One iteration of the loop of `SplitNodePortals` (portals.cc:312-381):
process portal `pid`, returning the updated state and the captured
`next_portal`; `side` is `false` for SIDE_FRONT. -/
def splitStep (ctx : PCtx W) (node f b : Nat) (plane : QPlane) (s : PState W) (pid : Nat) :
    Except String (PState W × Option Nat) := do
  let p := s.portals pid
  let side ←
    if p.nodes0 = some node then pure false
    else if p.nodes1 = some node then pure true
    else Except.error "CutNodePortals_r: mislinked portal"
  let next_portal := if side then p.next1 else p.next0
  let other ← match (if side then p.nodes0 else p.nodes1) with
    | some o => pure o
    | none => Except.error "null other node"
  let n0 ← match p.nodes0 with
    | some n => pure n
    | none => Except.error "null node"
  let n1 ← match p.nodes1 with
    | some n => pure n
    | none => Except.error "null node"
  let s ← RemovePortalFromNode s pid n0 (s.nportals + 1)
  let s ← RemovePortalFromNode s pid n1 (s.nportals + 1)
  let w ← match p.winding with
    | some w => pure w
    | none => Except.error "null winding"
  let clipped := ctx.clip w plane SPLIT_WINDING_EPSILON true
  let fws := dropTiny ctx clipped.1 s
  let bws := dropTiny ctx clipped.2 fws.2
  let s := bws.2
  match fws.1, bws.1 with
  | none, none => pure (s, next_portal)
  | some _, none => do
    let s ← if side then AddPortalToNodes s pid other f else AddPortalToNodes s pid f other
    pure (s, next_portal)
  | none, some _ => do
    let s ← if side then AddPortalToNodes s pid other b else AddPortalToNodes s pid b other
    pure (s, next_portal)
  | some fwv, some bwv => do
    let r := splitBoth s pid fwv bwv
    let nid := r.2
    let s := r.1
    let s ← if side then AddPortalToNodes s pid other f else AddPortalToNodes s pid f other
    let s ← if side then AddPortalToNodes s nid other b else AddPortalToNodes s nid b other
    pure (s, next_portal)

/-- The loop of `SplitNodePortals` (portals.cc:312-381), fuel-bounded on the
number of portals still linked on `node`. -/
def splitLoop (ctx : PCtx W) (node f b : Nat) (plane : QPlane) :
    PState W → Option Nat → Nat → Except String (PState W)
  | s, none, _ => .ok s
  | _, some _, 0 => .error "out of fuel"
  | s, some pid, fuel + 1 => do
    let r ← splitStep ctx node f b plane s pid
    splitLoop ctx node f b plane r.1 r.2 fuel

/-- `SplitNodePortals` (portals.cc:305-384). -/
def SplitNodePortals (ctx : PCtx W) (s : PState W) (node : Nat) : Except String (PState W) := do
  let plane := ctx.planes (ctx.nodes node).planenum.toNat
  let f := (ctx.nodes node).children0
  let b := (ctx.nodes node).children1
  let s2 ← splitLoop ctx node f b plane s (s.nodeportals node) (s.nportals + 1)
  pure (setHead s2 node none)

/-! ### Portal-list representation and the structural invariant -/

/-- The link followed when chasing the portal list of node `n` through a
portal record (the `t->nodes[0] == l` tests of portals.cc:136-139, 397, 583,
815). -/
def chaseLink (r : PortalRec W) (n : Nat) : Option Nat :=
  if r.nodes0 = some n then r.next0 else r.next1

/-- Node `n` is one of the record's endpoints. -/
def hasEnd (r : PortalRec W) (n : Nat) : Prop :=
  r.nodes0 = some n ∨ r.nodes1 = some n

/-- `PRep s n cur L`: chasing the portal list of node `n` from link `cur`
visits exactly the portals `L` and terminates. -/
inductive PRep (s : PState W) (n : Nat) : Option Nat → List Nat → Prop where
  | nil : PRep s n none []
  | cons {pid : Nat} {L : List Nat} :
      PRep s n (chaseLink (s.portals pid) n) L → PRep s n (some pid) (pid :: L)

/-- C2 invariant: every node's portal list is finite and duplicate-free and
holds exactly the portals of which the node is an endpoint; no portal has
its two endpoints equal; ids at or above the bump allocator are unused. -/
structure PInv (s : PState W) : Prop where
  lists : ∀ n : Nat, ∃ L, PRep s n (s.nodeportals n) L ∧ L.Nodup ∧
    ∀ pid, pid ∈ L ↔ hasEnd (s.portals pid) n
  distinct : ∀ pid : Nat,
    (s.portals pid).nodes0 = none ∨ (s.portals pid).nodes0 ≠ (s.portals pid).nodes1
  fresh : ∀ pid, s.nportals ≤ pid →
    (s.portals pid).nodes0 = none ∧ (s.portals pid).nodes1 = none

lemma rep_unique {s : PState W} {n : Nat} {c : Option Nat} {L1 L2 : List Nat}
    (h1 : PRep s n c L1) (h2 : PRep s n c L2) : L1 = L2 := by
  induction h1 generalizing L2 with
  | nil => cases h2; rfl
  | cons _ ih =>
    cases h2 with
    | cons h2' => rw [ih h2']

lemma rep_congr {s s' : PState W} {n : Nat} {c : Option Nat} {L : List Nat}
    (h : PRep s n c L)
    (hag : ∀ pid ∈ L, chaseLink (s'.portals pid) n = chaseLink (s.portals pid) n) :
    PRep s' n c L := by
  induction h with
  | nil => exact PRep.nil
  | cons hrec ih =>
    rename_i pid L'
    refine PRep.cons ?_
    rw [hag pid (by simp)]
    exact ih fun q hq => hag q (by simp [hq])

lemma inv_mem_lt {s : PState W} (hPInv : PInv s) {n pid : Nat} {L : List Nat}
    (hL : PRep s n (s.nodeportals n) L ∧ L.Nodup ∧
      ∀ q, q ∈ L ↔ hasEnd (s.portals q) n)
    (hmem : pid ∈ L) : pid < s.nportals := by
  by_contra hge
  have hfr := hPInv.fresh pid (by omega)
  have := (hL.2.2 pid).mp hmem
  rcases this with h | h
  · rw [hfr.1] at h; exact absurd h (by simp)
  · rw [hfr.2] at h; exact absurd h (by simp)

lemma inv_initPState (W : Type) : PInv (initPState W) := by
  refine ⟨fun n => ⟨[], PRep.nil, List.nodup_nil, fun pid => ?_⟩, fun pid => ?_, fun pid _ => ?_⟩
  · simp [initPState, hasEnd]
  · left; rfl
  · exact ⟨rfl, rfl⟩

lemma rep_none_nil {s : PState W} {n : Nat} {L : List Nat} (h : PRep s n none L) : L = [] := by
  cases h; rfl

lemma rep_some_cons {s : PState W} {n pid : Nat} {L : List Nat} (h : PRep s n (some pid) L) :
    ∃ L', L = pid :: L' ∧ PRep s n (chaseLink (s.portals pid) n) L' := by
  cases h with
  | cons h' => exact ⟨_, rfl, h'⟩

/-- The fields of a portal record other than the intrusive `next` links. -/
def absP (r : PortalRec W) : Nat × Option Nat × Option W × Option Nat × Option Nat :=
  (r.planenum, r.onnode, r.winding, r.nodes0, r.nodes1)

/-- The portal record as `AddPortalToNodes` leaves it. -/
def addedRec (s : PState W) (pid front back : Nat) : PortalRec W :=
  { s.portals pid with nodes0 := some front, nodes1 := some back, next0 := s.nodeportals front, next1 := s.nodeportals back }

/-- The state as `AddPortalToNodes` leaves it (for `front ≠ back`). -/
def addedState (s : PState W) (pid front back : Nat) : PState W where
  portals := fun j => if j = pid then addedRec s pid front back else s.portals j
  nportals := s.nportals
  nodeportals := fun m => if m = back then some pid else if m = front then some pid else s.nodeportals m
  c_tinyportals := s.c_tinyportals

lemma PState.extL {a b : PState W} (h1 : ∀ j, a.portals j = b.portals j)
    (h2 : a.nportals = b.nportals) (h3 : ∀ m, a.nodeportals m = b.nodeportals m)
    (h4 : a.c_tinyportals = b.c_tinyportals) : a = b := by
  cases a; cases b
  simp only [PState.mk.injEq]
  exact ⟨funext h1, h2, funext h3, h4⟩

lemma AddPortalToNodes_eq {s : PState W} {pid front back : Nat}
    (h0 : (s.portals pid).nodes0 = none) (h1 : (s.portals pid).nodes1 = none)
    (hbf : back ≠ front) :
    AddPortalToNodes s pid front back = .ok (addedState s pid front back) := by
  simp only [AddPortalToNodes, h0, h1, Option.isSome_none, Bool.or_self, Bool.false_eq_true,
    if_false]
  congr 1
  apply PState.extL
  · intro j
    by_cases hj : j = pid
    · subst hj
      simp [setP, setHead, addedState, addedRec, if_neg hbf]
    · simp [setP, setHead, addedState, hj]
  · simp [setP, setHead, addedState]
  · intro m
    by_cases hmb : m = back <;> by_cases hmf : m = front <;>
      simp [setP, setHead, addedState, hmb, hmf]
  · simp [setP, setHead, addedState]

lemma addedState_rep {s : PState W} {pid front back : Nat}
    (hfb : front ≠ back) :
    ∀ n L, PRep s n (s.nodeportals n) L → pid ∉ L →
      PRep (addedState s pid front back) n ((addedState s pid front back).nodeportals n)
        (if n = front ∨ n = back then pid :: L else L) := by
  intro n L hrep hnotin
  have hcongr : PRep (addedState s pid front back) n (s.nodeportals n) L :=
    rep_congr hrep (fun q hq => by
      have hqp : q ≠ pid := fun h => hnotin (h ▸ hq)
      simp [addedState, hqp])
  by_cases hnf : n = front
  · subst hnf
    rw [if_pos (Or.inl rfl)]
    have hhead : (addedState s pid n back).nodeportals n = some pid := by
      simp [addedState, hfb]
    rw [hhead]
    refine PRep.cons ?_
    have hcl : chaseLink ((addedState s pid n back).portals pid) n = s.nodeportals n := by
      simp [addedState, addedRec, chaseLink]
    rw [hcl]
    exact hcongr
  · by_cases hnb : n = back
    · subst hnb
      rw [if_pos (Or.inr rfl)]
      have hhead : (addedState s pid front n).nodeportals n = some pid := by
        simp [addedState]
      rw [hhead]
      refine PRep.cons ?_
      have hcl : chaseLink ((addedState s pid front n).portals pid) n = s.nodeportals n := by
        simp [addedState, addedRec, chaseLink, hfb]
      rw [hcl]
      exact hcongr
    · rw [if_neg (by tauto)]
      have hhead : (addedState s pid front back).nodeportals n = s.nodeportals n := by
        simp [addedState, hnf, hnb]
      rw [hhead]
      exact hcongr

lemma addedState_inv {s : PState W} {pid front back : Nat}
    (hInv : PInv s) (hpid : pid < s.nportals)
    (h0 : (s.portals pid).nodes0 = none) (h1 : (s.portals pid).nodes1 = none)
    (hfb : front ≠ back) :
    PInv (addedState s pid front back) := by
  refine ⟨?_, ?_, ?_⟩
  · intro n
    obtain ⟨L, hL, hnd, hmem⟩ := hInv.lists n
    have hnotin : pid ∉ L := fun hm => by
      rcases (hmem pid).mp hm with h | h
      · rw [h0] at h; cases h
      · rw [h1] at h; cases h
    refine ⟨if n = front ∨ n = back then pid :: L else L,
      addedState_rep hfb n L hL hnotin, ?_, ?_⟩
    · split
      · exact List.nodup_cons.mpr ⟨hnotin, hnd⟩
      · exact hnd
    · intro q
      by_cases hq : q = pid
      · subst hq
        have hrq : (addedState s q front back).portals q = addedRec s q front back := by
          simp [addedState]
        rw [hrq]
        split
        · rename_i hor
          simp only [List.mem_cons]
          constructor
          · intro _
            rcases hor with rfl | rfl
            · left; simp [addedRec]
            · right; simp [addedRec]
          · intro _; exact Or.inl trivial
        · rename_i hor
          push_neg at hor
          constructor
          · intro hm; exact absurd hm hnotin
          · intro hEnd
            exfalso
            rcases hEnd with h | h
            · simp only [addedRec, Option.some.injEq] at h
              exact hor.1 h.symm
            · simp only [addedRec, Option.some.injEq] at h
              exact hor.2 h.symm
      · have hrq : (addedState s pid front back).portals q = s.portals q := by
          simp [addedState, hq]
        rw [hrq]
        split
        · simp only [List.mem_cons]
          rw [← hmem q]
          constructor
          · intro hm
            rcases hm with hm | hm
            · exact absurd hm hq
            · exact hm
          · intro hm; right; exact hm
        · exact hmem q
  · intro q
    by_cases hq : q = pid
    · subst hq
      right
      have hrq : (addedState s q front back).portals q = addedRec s q front back := by
        simp [addedState]
      rw [hrq]
      simp only [addedRec, ne_eq, Option.some.injEq]
      exact hfb
    · have hrq : (addedState s pid front back).portals q = s.portals q := by
        simp [addedState, hq]
      rw [hrq]
      exact hInv.distinct q
  · intro q hge
    have hnp : (addedState s pid front back).nportals = s.nportals := by
      simp [addedState]
    rw [hnp] at hge
    have hq : q ≠ pid := by omega
    have hrq : (addedState s pid front back).portals q = s.portals q := by
      simp [addedState, hq]
    rw [hrq]
    exact hInv.fresh q hge

/-! ### Removal machinery: explicit post-state of `RemovePortalFromNode` -/

/-- The link slot of portal `t` that belongs to node `l`'s list (the branch
order of portals.cc:136-139: `nodes[0]` is tested first). -/
def linkSlot (s : PState W) (t l : Nat) : Slot :=
  if (s.portals t).nodes0 = some l then .link0 t else .link1 t

/-- Clear the endpoint of `r` that equals `l`, `nodes[0]` first
(portals.cc:144-150). -/
def clearEnd (r : PortalRec W) (l : Nat) : PortalRec W :=
  if r.nodes0 = some l then { r with nodes0 := none }
  else if r.nodes1 = some l then { r with nodes1 := none }
  else r

/-- The state `RemovePortalFromNode` leaves when the walk stopped at `slot`:
the slot is spliced past the portal and the matching endpoint is cleared. -/
def removedState (s : PState W) (portal l : Nat) (slot : Slot) : PState W :=
  setP (writeSlot s slot (chaseLink (s.portals portal) l)) portal
    (clearEnd (s.portals portal) l)

lemma slotGet_writeSlot (s : PState W) (x y : Slot) (v : Option Nat) :
    slotGet (writeSlot s y v) x = if x = y then v else slotGet s x := by
  cases x <;> cases y <;>
    simp only [writeSlot, slotGet, setHead, setP, Slot.link0.injEq, Slot.link1.injEq,
      Slot.head.injEq] <;>
    try (split <;> simp_all)

lemma absP_writeSlot (s : PState W) (y : Slot) (v : Option Nat) (q : Nat) :
    absP ((writeSlot s y v).portals q) = absP (s.portals q) := by
  cases y with
  | head m => rfl
  | link0 t =>
    simp only [writeSlot, setP]
    by_cases hq : q = t
    · subst hq; simp [absP]
    · simp [hq]
  | link1 t =>
    simp only [writeSlot, setP]
    by_cases hq : q = t
    · subst hq; simp [absP]
    · simp [hq]

lemma absP_eq_iff {a b : PortalRec W} :
    absP a = absP b ↔ (a.planenum = b.planenum ∧ a.onnode = b.onnode ∧
      a.winding = b.winding ∧ a.nodes0 = b.nodes0 ∧ a.nodes1 = b.nodes1) := by
  simp [absP, Prod.ext_iff]

lemma hasEnd_of_absP {a b : PortalRec W} (h : absP a = absP b) (n : Nat) :
    hasEnd a n ↔ hasEnd b n := by
  rw [absP_eq_iff] at h
  simp [hasEnd, h.2.2.2.1, h.2.2.2.2]

lemma removedState_portals_self (s : PState W) (portal l : Nat) (slot : Slot) :
    (removedState s portal l slot).portals portal = clearEnd (s.portals portal) l := by
  simp [removedState, setP]

lemma removedState_portals_other (s : PState W) {q portal : Nat} (l : Nat) (slot : Slot)
    (hq : q ≠ portal) :
    (removedState s portal l slot).portals q =
      (writeSlot s slot (chaseLink (s.portals portal) l)).portals q := by
  simp [removedState, setP, hq]

lemma removedState_absP (s : PState W) {q portal : Nat} (l : Nat) (slot : Slot)
    (hq : q ≠ portal) :
    absP ((removedState s portal l slot).portals q) = absP (s.portals q) := by
  rw [removedState_portals_other s l slot hq, absP_writeSlot]

lemma slotGet_removedState (s : PState W) (portal l : Nat) (slot : Slot)
    (h0 : slot ≠ .link0 portal) (h1 : slot ≠ .link1 portal) (x : Slot) :
    slotGet (removedState s portal l slot) x =
      if x = slot then chaseLink (s.portals portal) l else slotGet s x := by
  have hw := slotGet_writeSlot s x slot (chaseLink (s.portals portal) l)
  by_cases hx : x = slot
  · subst hx
    rw [if_pos rfl]
    rw [if_pos rfl] at hw
    rw [← hw]
    cases x with
    | head m => simp [removedState, slotGet, setP]
    | link0 q =>
      have hq : q ≠ portal := fun h => h0 (by rw [h])
      simp [removedState, slotGet, setP, hq]
    | link1 q =>
      have hq : q ≠ portal := fun h => h1 (by rw [h])
      simp [removedState, slotGet, setP, hq]
  · rw [if_neg hx]
    rw [if_neg hx] at hw
    rw [← hw]
    cases x with
    | head m => simp [removedState, slotGet, setP]
    | link0 q =>
      by_cases hq : q = portal
      · subst hq
        simp only [removedState, slotGet, setP, if_pos rfl]
        have : (writeSlot s slot (chaseLink (s.portals q) l)).portals q = s.portals q := by
          cases slot with
          | head m => rfl
          | link0 r =>
            have hr : q ≠ r := fun h => h0 (by rw [h])
            simp [writeSlot, setP, hr]
          | link1 r =>
            have hr : q ≠ r := fun h => h1 (by rw [h])
            simp [writeSlot, setP, hr]
        rw [this]
        simp [clearEnd]
        split <;> try split
        all_goals rfl
      · simp [removedState, slotGet, setP, hq]
    | link1 q =>
      by_cases hq : q = portal
      · subst hq
        simp only [removedState, slotGet, setP, if_pos rfl]
        have : (writeSlot s slot (chaseLink (s.portals q) l)).portals q = s.portals q := by
          cases slot with
          | head m => rfl
          | link0 r =>
            have hr : q ≠ r := fun h => h0 (by rw [h])
            simp [writeSlot, setP, hr]
          | link1 r =>
            have hr : q ≠ r := fun h => h1 (by rw [h])
            simp [writeSlot, setP, hr]
        rw [this]
        simp [clearEnd]
        split <;> try split
        all_goals rfl
      · simp [removedState, slotGet, setP, hq]

lemma removedState_nportals (s : PState W) (portal l : Nat) (slot : Slot) :
    (removedState s portal l slot).nportals = s.nportals := by
  cases slot <;> simp [removedState, setP, setHead, writeSlot]

lemma removedState_ctiny (s : PState W) (portal l : Nat) (slot : Slot) :
    (removedState s portal l slot).c_tinyportals = s.c_tinyportals := by
  cases slot <;> simp [removedState, setP, setHead, writeSlot]

lemma clearEnd_absques (r : PortalRec W) (l : Nat) :
    (clearEnd r l).planenum = r.planenum ∧ (clearEnd r l).onnode = r.onnode ∧
      (clearEnd r l).winding = r.winding ∧
      (clearEnd r l).next0 = r.next0 ∧ (clearEnd r l).next1 = r.next1 := by
  simp only [clearEnd]
  split <;> try split
  all_goals exact ⟨rfl, rfl, rfl, rfl, rfl⟩

/-- Suffix decomposition of a represented list at any of its members. -/
lemma rep_suffix {s : PState W} {n : Nat} {c : Option Nat} {L : List Nat}
    (h : PRep s n c L) {u : Nat} (hu : u ∈ L) :
    ∃ A B, L = A ++ u :: B ∧ PRep s n (chaseLink (s.portals u) n) B := by
  induction h with
  | nil => cases hu
  | cons hrec ih =>
    rename_i pid L'
    rcases List.mem_cons.mp hu with rfl | hu'
    · exact ⟨[], L', rfl, hrec⟩
    · obtain ⟨A, B, hAB, hB⟩ := ih hu'
      exact ⟨pid :: A, B, by rw [hAB]; rfl, hB⟩

lemma nodup_lt_length_le {L : List Nat} {n : Nat} (hnd : L.Nodup)
    (hlt : ∀ x ∈ L, x < n) : L.length ≤ n := by
  have h1 : L.length = L.toFinset.card := (List.toFinset_card_of_nodup hnd).symm
  rw [h1]
  have h2 : L.toFinset ⊆ Finset.range n := by
    intro x hx
    rw [List.mem_toFinset] at hx
    exact Finset.mem_range.mpr (hlt x hx)
  calc L.toFinset.card ≤ (Finset.range n).card := Finset.card_le_card h2
    _ = n := Finset.card_range n

lemma removedState_nodes (s : PState W) {q portal : Nat} (l : Nat) (slot : Slot)
    (hq : q ≠ portal) :
    ((removedState s portal l slot).portals q).nodes0 = (s.portals q).nodes0 ∧
      ((removedState s portal l slot).portals q).nodes1 = (s.portals q).nodes1 := by
  have h := absP_eq_iff.mp (removedState_absP s l slot hq)
  exact ⟨h.2.2.2.1, h.2.2.2.2⟩

lemma slotGet_linkSlot_eq_chase {s : PState W} {u l : Nat}
    (_hu : hasEnd (s.portals u) l) :
    slotGet s (linkSlot s u l) = chaseLink (s.portals u) l := by
  by_cases h0 : (s.portals u).nodes0 = some l
  · simp [linkSlot, slotGet, chaseLink, h0]
  · simp [linkSlot, slotGet, chaseLink, h0]

lemma linkSlot_ne_links {s : PState W} {u portal : Nat} (l : Nat) (hu : u ≠ portal) :
    linkSlot s u l ≠ .link0 portal ∧ linkSlot s u l ≠ .link1 portal := by
  unfold linkSlot
  split <;> exact ⟨by simp [hu], by simp [hu]⟩

lemma chase_not_mem {s : PState W} {l portal u : Nat} {c : Option Nat} {K : List Nat}
    (hK : PRep s l c K) (hnp : portal ∉ K)
    (hchase : chaseLink (s.portals u) l = some portal) (hu : u ∈ K) : False := by
  obtain ⟨A, B, hAB, hB⟩ := rep_suffix hK hu
  rw [hchase] at hB
  obtain ⟨B', rfl, _⟩ := rep_some_cons hB
  apply hnp
  rw [hAB]
  simp

/-- The walk of `RemovePortalFromNode` finds the slot that points at the
portal, and splicing that slot past the portal removes exactly its occurrence
from the represented list. -/
lemma findPrevSlot_removes {s : PState W} {portal l : Nat} :
    ∀ (K : List Nat) (cur : Option Nat) (slot0 : Slot) (fuel : Nat),
    PRep s l cur K → portal ∈ K → K.Nodup →
    (∀ t ∈ K, hasEnd (s.portals t) l) →
    K.length ≤ fuel →
    slotGet s slot0 = cur →
    (slot0 = Slot.head l ∨ ∃ u, u ≠ portal ∧ hasEnd (s.portals u) l ∧ slot0 = linkSlot s u l) →
    ∃ slot,
      findPrevSlot s portal l cur slot0 fuel = .ok slot ∧
      slotGet s slot = some portal ∧
      (slot = slot0 ∨ ∃ t, t ∈ K ∧ t ≠ portal ∧ slot = linkSlot s t l) ∧
      PRep (removedState s portal l slot) l
        (slotGet (removedState s portal l slot) slot0) (K.erase portal) := by
  intro K
  induction K with
  | nil => intro cur slot0 fuel _ hmem; cases hmem
  | cons t K' ih =>
    intro cur slot0 fuel hrep hmem hnd hend hfuel hget hs0
    obtain ⟨hcur, htail⟩ : cur = some t ∧ PRep s l (chaseLink (s.portals t) l) K' := by
      cases hrep with
      | cons h' => exact ⟨rfl, h'⟩
    subst hcur
    cases fuel with
    | zero => simp at hfuel
    | succ fuel =>
      have hs0ne : slot0 ≠ Slot.link0 portal ∧ slot0 ≠ Slot.link1 portal := by
        rcases hs0 with rfl | ⟨u, hu, _, rfl⟩
        · exact ⟨by simp, by simp⟩
        · exact linkSlot_ne_links l hu
      by_cases htp : t = portal
      · subst htp
        refine ⟨slot0, ?_, ?_, Or.inl rfl, ?_⟩
        · simp [findPrevSlot]
        · exact hget
        · have hnp : t ∉ K' := (List.nodup_cons.mp hnd).1
          have herase : (t :: K').erase t = K' := by simp
          rw [herase]
          have hsg : slotGet (removedState s t l slot0) slot0 =
              chaseLink (s.portals t) l := by
            rw [slotGet_removedState s t l slot0 hs0ne.1 hs0ne.2, if_pos rfl]
          rw [hsg]
          refine rep_congr htail ?_
          intro q hq
          have hqp : q ≠ t := fun h => hnp (h ▸ hq)
          rw [removedState_portals_other s l slot0 hqp]
          rcases hs0 with rfl | ⟨u, hu, huend, hueq⟩
          · simp [writeSlot, setHead, chaseLink]
          · have hqu : q ≠ u := by
              intro h
              subst h
              have hcq : chaseLink (s.portals q) l = some t := by
                rw [← slotGet_linkSlot_eq_chase huend, ← hueq, hget]
              exact chase_not_mem htail hnp hcq hq
            rw [hueq]
            unfold linkSlot
            split <;> simp [writeSlot, setP, chaseLink, hqu]
      · have hmem' : portal ∈ K' := by
          rcases List.mem_cons.mp hmem with h | h
          · exact absurd h.symm htp
          · exact h
        have hendt : hasEnd (s.portals t) l := hend t (by simp)
        have hfuel' : K'.length ≤ fuel := by simp at hfuel; omega
        have hnd' : K'.Nodup := (List.nodup_cons.mp hnd).2
        have hend' : ∀ q ∈ K', hasEnd (s.portals q) l := fun q hq => hend q (by simp [hq])
        have hcur : slotGet s (linkSlot s t l) = chaseLink (s.portals t) l :=
          slotGet_linkSlot_eq_chase hendt
        obtain ⟨slot, heq, hsg, hshape, hrm⟩ :=
          ih (chaseLink (s.portals t) l) (linkSlot s t l) fuel htail hmem' hnd' hend'
            hfuel' hcur (Or.inr ⟨t, htp, hendt, rfl⟩)
        have hslotne : slot ≠ Slot.link0 portal ∧ slot ≠ Slot.link1 portal := by
          rcases hshape with rfl | ⟨u, _, hu, rfl⟩
          · exact linkSlot_ne_links l htp
          · exact linkSlot_ne_links l hu
        have heq' : findPrevSlot s portal l (some t) slot0 (fuel + 1) = .ok slot := by
          rw [findPrevSlot, if_neg htp]
          by_cases h0 : (s.portals t).nodes0 = some l
          · rw [if_pos h0]
            have : (s.portals t).next0 = chaseLink (s.portals t) l := by
              simp [chaseLink, h0]
            rw [this]
            have hls : (Slot.link0 t) = linkSlot s t l := by simp [linkSlot, h0]
            rw [hls]
            exact heq
          · rcases hendt with h | h1
            · exact absurd h h0
            · rw [if_neg h0, if_pos h1]
              have : (s.portals t).next1 = chaseLink (s.portals t) l := by
                simp [chaseLink, h0]
              rw [this]
              have hls : (Slot.link1 t) = linkSlot s t l := by simp [linkSlot, h0]
              rw [hls]
              exact heq
        refine ⟨slot, heq', hsg, ?_, ?_⟩
        · rcases hshape with rfl | ⟨u, humem, hu, rfl⟩
          · exact Or.inr ⟨t, by simp, htp, rfl⟩
          · exact Or.inr ⟨u, by simp [humem], hu, rfl⟩
        · have herase : (t :: K').erase portal = t :: K'.erase portal := by
            rw [List.erase_cons]
            simp [htp]
          rw [herase]
          have hslot0 : slot0 ≠ slot := by
            intro h
            rw [h, hsg] at hget
            exact htp (Option.some.inj hget).symm
          have hsg0 : slotGet (removedState s portal l slot) slot0 = some t := by
            rw [slotGet_removedState s portal l slot hslotne.1 hslotne.2, if_neg hslot0, hget]
          rw [hsg0]
          refine PRep.cons ?_
          have hchτ : chaseLink ((removedState s portal l slot).portals t) l =
              slotGet (removedState s portal l slot) (linkSlot s t l) := by
            have hn := removedState_nodes s l slot htp
            by_cases h0 : (s.portals t).nodes0 = some l
            · have hsl : linkSlot s t l = Slot.link0 t := by simp [linkSlot, h0]
              rw [hsl]
              simp [chaseLink, slotGet, hn.1, h0]
            · have hsl : linkSlot s t l = Slot.link1 t := by simp [linkSlot, h0]
              rw [hsl]
              simp [chaseLink, slotGet, hn.1, h0]
          rw [hchτ]
          exact hrm

lemma portals_writeSlot_ne (s : PState W) {slot : Slot} {portal : Nat} (v : Option Nat)
    (h0 : slot ≠ .link0 portal) (h1 : slot ≠ .link1 portal) :
    (writeSlot s slot v).portals portal = s.portals portal := by
  cases slot with
  | head m => rfl
  | link0 q =>
    have hq : portal ≠ q := fun h => h0 (by rw [h])
    simp [writeSlot, setP, hq]
  | link1 q =>
    have hq : portal ≠ q := fun h => h1 (by rw [h])
    simp [writeSlot, setP, hq]

lemma chase_clearEnd_ne {r : PortalRec W} {l n : Nat} (hn : n ≠ l) :
    chaseLink (clearEnd r l) n = chaseLink r n := by
  unfold clearEnd
  by_cases h0 : r.nodes0 = some l
  · rw [if_pos h0]
    have : r.nodes0 ≠ some n := by rw [h0]; simp [Ne.symm hn]
    simp [chaseLink, this]
  · rw [if_neg h0]
    by_cases h1 : r.nodes1 = some l
    · rw [if_pos h1]
      simp [chaseLink]
    · rw [if_neg h1]

lemma hasEnd_clearEnd_ne {r : PortalRec W} {l n : Nat} (hn : n ≠ l) :
    hasEnd (clearEnd r l) n ↔ hasEnd r n := by
  unfold clearEnd
  by_cases h0 : r.nodes0 = some l
  · rw [if_pos h0]
    have : r.nodes0 ≠ some n := by rw [h0]; simp [Ne.symm hn]
    simp [hasEnd, this]
  · rw [if_neg h0]
    by_cases h1 : r.nodes1 = some l
    · rw [if_pos h1]
      have : r.nodes1 ≠ some n := by rw [h1]; simp [Ne.symm hn]
      simp [hasEnd, this]
    · rw [if_neg h1]

lemma hasEnd_clearEnd_self {r : PortalRec W} {l : Nat}
    (hd : r.nodes0 = none ∨ r.nodes0 ≠ r.nodes1) :
    ¬ hasEnd (clearEnd r l) l := by
  unfold clearEnd
  by_cases h0 : r.nodes0 = some l
  · rw [if_pos h0]
    have h1 : r.nodes1 ≠ some l := by
      rcases hd with h | h
      · rw [h0] at h; cases h
      · rw [h0] at h; exact fun hc => h hc.symm
    simp [hasEnd, h1]
  · rw [if_neg h0]
    by_cases h1 : r.nodes1 = some l
    · rw [if_pos h1]
      simp [hasEnd, h0]
    · rw [if_neg h1]
      simp [hasEnd, h0, h1]

lemma distinct_clearEnd {r : PortalRec W} {l : Nat}
    (hd : r.nodes0 = none ∨ r.nodes0 ≠ r.nodes1) :
    (clearEnd r l).nodes0 = none ∨ (clearEnd r l).nodes0 ≠ (clearEnd r l).nodes1 := by
  unfold clearEnd
  by_cases h0 : r.nodes0 = some l
  · rw [if_pos h0]
    left
    rfl
  · rw [if_neg h0]
    by_cases h1 : r.nodes1 = some l
    · rw [if_pos h1]
      by_cases hn : r.nodes0 = none
      · left; exact hn
      · right; simpa using hn
    · rw [if_neg h1]
      exact hd

/-- Success equation for `RemovePortalFromNode` once the walk's result is
known. -/
lemma RemovePortalFromNode_eq {s : PState W} {portal l : Nat} {slot : Slot} {fuel : Nat}
    (hfind : findPrevSlot s portal l (s.nodeportals l) (.head l) fuel = .ok slot)
    (h0 : slot ≠ .link0 portal) (h1 : slot ≠ .link1 portal)
    (hEnd : hasEnd (s.portals portal) l) :
    RemovePortalFromNode s portal l fuel = .ok (removedState s portal l slot) := by
  rw [RemovePortalFromNode]
  rw [hfind]
  show (if (s.portals portal).nodes0 = some l then _ else _) = _
  by_cases hn0 : (s.portals portal).nodes0 = some l
  · rw [if_pos hn0]
    have hw : (writeSlot s slot (s.portals portal).next0).portals portal = s.portals portal :=
      portals_writeSlot_ne s (s.portals portal).next0 h0 h1
    have hch : chaseLink (s.portals portal) l = (s.portals portal).next0 := by
      simp [chaseLink, hn0]
    have hce : clearEnd (s.portals portal) l = { s.portals portal with nodes0 := none } := by
      simp [clearEnd, hn0]
    rw [removedState, hch, hce, hw]
    rfl
  · rw [if_neg hn0]
    by_cases hn1 : (s.portals portal).nodes1 = some l
    · rw [if_pos hn1]
      have hw : (writeSlot s slot (s.portals portal).next1).portals portal = s.portals portal :=
        portals_writeSlot_ne s (s.portals portal).next1 h0 h1
      have hch : chaseLink (s.portals portal) l = (s.portals portal).next1 := by
        simp [chaseLink, hn0]
      have hce : clearEnd (s.portals portal) l =
          { s.portals portal with nodes1 := none } := by
        simp [clearEnd, hn0, hn1]
      rw [removedState, hch, hce]
      simp only [hw]
      rfl
    · rw [if_neg hn1]
      rcases hEnd with h | h
      · exact absurd h hn0
      · exact absurd h hn1

/-- Full specification of `RemovePortalFromNode` with the loop fuel used by
the callers: the portal's occurrence is spliced out of `l`'s list, the
matching endpoint is cleared, every other list and every other record's
non-link fields are untouched, and the invariant is preserved. -/
lemma RemovePortalFromNode_spec {s : PState W} {portal l : Nat}
    (hInv : PInv s) (hEnd : hasEnd (s.portals portal) l) :
    ∃ s', RemovePortalFromNode s portal l (s.nportals + 1) = .ok s' ∧
      PInv s' ∧
      s'.nportals = s.nportals ∧
      s'.c_tinyportals = s.c_tinyportals ∧
      s'.portals portal = clearEnd (s.portals portal) l ∧
      (∀ q, q ≠ portal → absP (s'.portals q) = absP (s.portals q)) ∧
      (∀ n, n ≠ l → s'.nodeportals n = s.nodeportals n) ∧
      (s.nodeportals l = some portal → s'.nodeportals l = chaseLink (s.portals portal) l) ∧
      (∀ n M, n ≠ l → PRep s n (s.nodeportals n) M → PRep s' n (s'.nodeportals n) M) ∧
      (∀ M, PRep s l (s.nodeportals l) M → PRep s' l (s'.nodeportals l) (M.erase portal)) := by
  obtain ⟨L, hL, hnd, hmem⟩ := hInv.lists l
  have hmemp : portal ∈ L := (hmem portal).mpr hEnd
  have hlt : ∀ x ∈ L, x < s.nportals := fun x hx => inv_mem_lt hInv ⟨hL, hnd, hmem⟩ hx
  have hlen : L.length ≤ s.nportals + 1 := le_trans (nodup_lt_length_le hnd hlt) (by omega)
  obtain ⟨slot, hfind, hsg, hshape, hrm⟩ :=
    findPrevSlot_removes L (s.nodeportals l) (.head l) (s.nportals + 1) hL hmemp hnd
      (fun t ht => (hmem t).mp ht) hlen rfl (Or.inl rfl)
  have hslotne : slot ≠ Slot.link0 portal ∧ slot ≠ Slot.link1 portal := by
    rcases hshape with rfl | ⟨t, _, htp, rfl⟩
    · exact ⟨by simp, by simp⟩
    · exact linkSlot_ne_links l htp
  have hplt : portal < s.nportals := hlt portal hmemp
  have heads : ∀ n, n ≠ l →
      (removedState s portal l slot).nodeportals n = s.nodeportals n := by
    intro n hn
    have := slotGet_removedState s portal l slot hslotne.1 hslotne.2 (.head n)
    have hne : (Slot.head n) ≠ slot := by
      rcases hshape with rfl | ⟨t, _, _, rfl⟩
      · simp [hn]
      · unfold linkSlot
        split <;> simp
    rw [if_neg hne] at this
    exact this
  have hchaseq : ∀ q, q ≠ portal → ∀ n, n ≠ l → hasEnd (s.portals q) n →
      chaseLink ((removedState s portal l slot).portals q) n = chaseLink (s.portals q) n := by
    intro q hq n hn hqEnd
    rw [removedState_portals_other s l slot hq]
    rcases hshape with rfl | ⟨t, htL, htp, rfl⟩
    · simp [writeSlot, setHead, chaseLink]
    · have htEnd : hasEnd (s.portals t) l := (hmem t).mp htL
      by_cases hqt : q = t
      · subst hqt
        unfold linkSlot
        by_cases ht0 : (s.portals q).nodes0 = some l
        · rw [if_pos ht0]
          have hne : (s.portals q).nodes0 ≠ some n := by
            rw [ht0]; simp [Ne.symm hn]
          simp [writeSlot, setP, chaseLink, hne]
        · rw [if_neg ht0]
          have ht1 : (s.portals q).nodes1 = some l := by
            rcases htEnd with h | h
            · exact absurd h ht0
            · exact h
          have hq0 : (s.portals q).nodes0 = some n := by
            rcases hqEnd with h | h
            · exact h
            · rw [ht1] at h
              exact absurd (Option.some.inj h) (Ne.symm hn)
          simp [writeSlot, setP, chaseLink, hq0]
      · unfold linkSlot
        split <;> simp [writeSlot, setP, chaseLink, hqt]
  have hreps : ∀ n M, n ≠ l → PRep s n (s.nodeportals n) M →
      PRep (removedState s portal l slot) n
        ((removedState s portal l slot).nodeportals n) M := by
    intro n M hn hM
    obtain ⟨Mn, hMn, hndn, hmemn⟩ := hInv.lists n
    have hMeq : M = Mn := rep_unique hM hMn
    subst hMeq
    rw [heads n hn]
    refine rep_congr hM ?_
    intro q hq
    have hqEnd : hasEnd (s.portals q) n := (hmemn q).mp hq
    by_cases hqp : q = portal
    · subst hqp
      rw [removedState_portals_self]
      exact chase_clearEnd_ne (by exact hn)
    · exact hchaseq q hqp n hn hqEnd
  have hrepl : ∀ M, PRep s l (s.nodeportals l) M →
      PRep (removedState s portal l slot) l
        ((removedState s portal l slot).nodeportals l) (M.erase portal) := by
    intro M hM
    have hMeq : M = L := rep_unique hM hL
    subst hMeq
    exact hrm
  refine ⟨removedState s portal l slot,
    RemovePortalFromNode_eq hfind hslotne.1 hslotne.2 hEnd, ?_,
    removedState_nportals s portal l slot, removedState_ctiny s portal l slot,
    removedState_portals_self s portal l slot,
    fun q hq => removedState_absP s l slot hq,
    heads, ?_, hreps, hrepl⟩
  · refine ⟨?_, ?_, ?_⟩
    · intro n
      by_cases hn : n = l
      · subst hn
        refine ⟨L.erase portal, hrepl L hL, hnd.erase portal, ?_⟩
        intro q
        by_cases hq : q = portal
        · subst hq
          rw [removedState_portals_self]
          constructor
          · intro hin
            exact absurd ((hnd.mem_erase_iff.mp hin).1) (by simp)
          · intro hEnd'
            exact absurd hEnd' (hasEnd_clearEnd_self (hInv.distinct q))
        · rw [hnd.mem_erase_iff]
          rw [hasEnd_of_absP (removedState_absP s n slot hq)]
          simp [hq, hmem q]
      · obtain ⟨Mn, hMn, hndn, hmemn⟩ := hInv.lists n
        refine ⟨Mn, hreps n Mn hn hMn, hndn, ?_⟩
        intro q
        by_cases hq : q = portal
        · subst hq
          rw [removedState_portals_self]
          rw [hasEnd_clearEnd_ne hn]
          exact hmemn q
        · rw [hasEnd_of_absP (removedState_absP s l slot hq)]
          exact hmemn q
    · intro q
      by_cases hq : q = portal
      · subst hq
        rw [removedState_portals_self]
        exact distinct_clearEnd (hInv.distinct q)
      · have h := absP_eq_iff.mp (removedState_absP s l slot hq)
        rw [h.2.2.2.1, h.2.2.2.2]
        exact hInv.distinct q
    · intro q hge
      rw [removedState_nportals] at hge
      have hq : q ≠ portal := by omega
      have h := absP_eq_iff.mp (removedState_absP s l slot hq)
      rw [h.2.2.2.1, h.2.2.2.2]
      exact hInv.fresh q hge
  · intro hhd
    have hstep : findPrevSlot s portal l (s.nodeportals l) (.head l) (s.nportals + 1) =
        .ok (.head l) := by
      rw [hhd]
      simp [findPrevSlot]
    rw [hfind] at hstep
    have hslot : slot = Slot.head l := Except.ok.inj hstep
    subst hslot
    have := slotGet_removedState s portal l (Slot.head l) hslotne.1 hslotne.2 (Slot.head l)
    rw [if_pos rfl] at this
    exact this

/-! ### Split-loop machinery -/

/-- A clipped fragment after the tiny check: kept iff present and not tiny
(portals.cc:332-342). -/
def keepFrag (ctx : PCtx W) (ow : Option W) : Option W :=
  match ow with
  | some w => if ctx.tiny w then none else some w
  | none => none

/-- The `c_tinyportals` increment a fragment contributes. -/
def tinyInc (ctx : PCtx W) (ow : Option W) : Nat :=
  match ow with
  | some w => if ctx.tiny w then 1 else 0
  | none => 0

/-- Total tiny-portal count contributed by one portal's winding under the
node plane. -/
def tinyCnt (ctx : PCtx W) (plane : QPlane) (ow : Option W) : Nat :=
  match ow with
  | some w =>
    tinyInc ctx (ctx.clip w plane SPLIT_WINDING_EPSILON true).1 +
      tinyInc ctx (ctx.clip w plane SPLIT_WINDING_EPSILON true).2
  | none => 0

lemma dropTiny_eq (ctx : PCtx W) (ow : Option W) (s : PState W) :
    dropTiny ctx ow s =
      (keepFrag ctx ow, { s with c_tinyportals := s.c_tinyportals + tinyInc ctx ow }) := by
  cases ow with
  | none => simp [dropTiny, keepFrag, tinyInc]
  | some w =>
    by_cases ht : ctx.tiny w
    · simp [dropTiny, keepFrag, tinyInc, ht]
    · simp [dropTiny, keepFrag, tinyInc, ht]

/-- The per-portal outcome `SplitNodePortals` produces, phrased against the
portal's pre-call record `r` and the final state `s'`. -/
def SplitOutcome (ctx : PCtx W) (plane : QPlane) (f b node : Nat)
    (r : PortalRec W) (s' : PState W) (q : Nat) : Prop :=
  ∀ w, r.winding = some w →
    match keepFrag ctx (ctx.clip w plane SPLIT_WINDING_EPSILON true).1,
        keepFrag ctx (ctx.clip w plane SPLIT_WINDING_EPSILON true).2 with
    | none, none =>
        (s'.portals q).nodes0 = none ∧ (s'.portals q).nodes1 = none ∧
        (s'.portals q).winding = some w
    | some _, none =>
        (s'.portals q).winding = some w ∧
        (if r.nodes0 = some node
         then (s'.portals q).nodes0 = some f ∧ (s'.portals q).nodes1 = r.nodes1
         else (s'.portals q).nodes0 = r.nodes0 ∧ (s'.portals q).nodes1 = some f)
    | none, some _ =>
        (s'.portals q).winding = some w ∧
        (if r.nodes0 = some node
         then (s'.portals q).nodes0 = some b ∧ (s'.portals q).nodes1 = r.nodes1
         else (s'.portals q).nodes0 = r.nodes0 ∧ (s'.portals q).nodes1 = some b)
    | some fwv, some bwv =>
        (s'.portals q).winding = some fwv ∧
        (if r.nodes0 = some node
         then (s'.portals q).nodes0 = some f ∧ (s'.portals q).nodes1 = r.nodes1
         else (s'.portals q).nodes0 = r.nodes0 ∧ (s'.portals q).nodes1 = some f) ∧
        ∃ nid, (s'.portals nid).winding = some bwv ∧
          (s'.portals nid).planenum = r.planenum ∧
          (s'.portals nid).onnode = r.onnode ∧
          (if r.nodes0 = some node
           then (s'.portals nid).nodes0 = some b ∧ (s'.portals nid).nodes1 = r.nodes1
           else (s'.portals nid).nodes0 = r.nodes0 ∧ (s'.portals nid).nodes1 = some b)

lemma splitOutcome_congr {ctx : PCtx W} {plane : QPlane} {f b node : Nat}
    {r r' : PortalRec W} {s' : PState W} {q : Nat} (h : absP r' = absP r)
    (ho : SplitOutcome ctx plane f b node r' s' q) :
    SplitOutcome ctx plane f b node r s' q := by
  have hf := absP_eq_iff.mp h
  intro w hw
  have := ho w (by rw [hf.2.2.1, hw])
  rw [← hf.2.2.2.1, ← hf.2.2.2.2, ← hf.1, ← hf.2.1]
  exact this

lemma rep_same_portals {s s' : PState W} (hp : ∀ q, s'.portals q = s.portals q)
    {n : Nat} {c : Option Nat} {L : List Nat} (h : PRep s n c L) : PRep s' n c L :=
  rep_congr h (fun q _ => by rw [hp q])

lemma inv_tiny {s : PState W} (hInv : PInv s) (k : Nat) :
    PInv { s with c_tinyportals := k } := by
  refine ⟨?_, hInv.distinct, hInv.fresh⟩
  intro n
  obtain ⟨L, hL, hnd, hmem⟩ := hInv.lists n
  exact ⟨L, @rep_same_portals W s { s with c_tinyportals := k } (fun _ => rfl) n
    (s.nodeportals n) L hL, hnd, hmem⟩

lemma rep_cons_head {s : PState W} {n pid : Nat} {c : Option Nat} {T : List Nat}
    (h : PRep s n c (pid :: T)) :
    c = some pid ∧ PRep s n (chaseLink (s.portals pid) n) T := by
  cases h with
  | cons h' => exact ⟨rfl, h'⟩

/-- Setting only the winding of an existing record preserves the invariant:
the links and endpoints are untouched. -/
lemma inv_setWinding {s : PState W} (hInv : PInv s) (x : Nat) (w : Option W) :
    PInv (setP s x { s.portals x with winding := w }) := by
  have hch : ∀ q n, chaseLink ((setP s x { s.portals x with winding := w }).portals q) n =
      chaseLink (s.portals q) n := by
    intro q n
    by_cases hq : q = x
    · subst hq
      simp [setP, chaseLink]
    · simp [setP, chaseLink, hq]
  have hend : ∀ q n, hasEnd ((setP s x { s.portals x with winding := w }).portals q) n ↔
      hasEnd (s.portals q) n := by
    intro q n
    by_cases hq : q = x
    · subst hq
      simp [setP, hasEnd]
    · simp [setP, hasEnd, hq]
  refine ⟨?_, ?_, ?_⟩
  · intro n
    obtain ⟨L, hL, hnd, hmem⟩ := hInv.lists n
    refine ⟨L, rep_congr hL (fun q _ => hch q n), hnd, fun q => ?_⟩
    rw [hend q n]
    exact hmem q
  · intro q
    by_cases hq : q = x
    · subst hq
      simpa [setP] using hInv.distinct q
    · simpa [setP, hq] using hInv.distinct q
  · intro q hge
    simp only [setP] at hge ⊢
    by_cases hq : q = x
    · subst hq
      simpa using hInv.fresh q hge
    · simpa [hq] using hInv.fresh q hge

/-- Allocating a fresh record with both endpoints clear preserves the
invariant. -/
lemma inv_alloc {s : PState W} (hInv : PInv s) {r : PortalRec W}
    (h0 : r.nodes0 = none) (h1 : r.nodes1 = none) :
    PInv { setP s s.nportals r with nportals := s.nportals + 1 } := by
  refine ⟨?_, ?_, ?_⟩
  · intro n
    obtain ⟨L, hL, hnd, hmem⟩ := hInv.lists n
    have hlt : ∀ x ∈ L, x < s.nportals := fun x hx => inv_mem_lt hInv ⟨hL, hnd, hmem⟩ hx
    refine ⟨L, rep_congr hL ?_, hnd, ?_⟩
    · intro q hq
      have : q ≠ s.nportals := by have := hlt q hq; omega
      simp [setP, this]
    · intro q
      by_cases hq : q = s.nportals
      · subst hq
        constructor
        · intro hin
          exact absurd (hlt _ hin) (by omega)
        · intro hEnd'
          exfalso
          have hr : hasEnd r n := by simpa [setP] using hEnd'
          rcases hr with h | h
          · rw [h0] at h; cases h
          · rw [h1] at h; cases h
      · simp only [setP, if_neg hq]
        exact hmem q
  · intro q
    by_cases hq : q = s.nportals
    · subst hq
      simp only [setP, if_pos rfl]
      left
      exact h0
    · simp only [setP, if_neg hq]
      exact hInv.distinct q
  · intro q hge
    simp only at hge
    have hq : q ≠ s.nportals := by omega
    simp only [setP, if_neg hq]
    exact hInv.fresh q (by omega)

/-- Combined effect of a successful `AddPortalToNodes` on the invariant, the
node list under consideration, and the record frames. -/
lemma AddPhase {u : PState W} {pid front back node : Nat} {T : List Nat}
    (hInv : PInv u) (hpid : pid < u.nportals)
    (h0 : (u.portals pid).nodes0 = none) (h1 : (u.portals pid).nodes1 = none)
    (hfb : front ≠ back) (hnf : node ≠ front) (hnb : node ≠ back)
    (hrep : PRep u node (u.nodeportals node) T) (hnotin : pid ∉ T) :
    AddPortalToNodes u pid front back = .ok (addedState u pid front back) ∧
    PInv (addedState u pid front back) ∧
    (addedState u pid front back).nodeportals node = u.nodeportals node ∧
    PRep (addedState u pid front back) node
      ((addedState u pid front back).nodeportals node) T ∧
    (addedState u pid front back).nportals = u.nportals ∧
    (addedState u pid front back).c_tinyportals = u.c_tinyportals ∧
    (∀ x, x ≠ pid → absP ((addedState u pid front back).portals x) = absP (u.portals x)) ∧
    (addedState u pid front back).portals pid = addedRec u pid front back := by
  have hhead : (addedState u pid front back).nodeportals node = u.nodeportals node := by
    simp [addedState, hnf, hnb]
  refine ⟨AddPortalToNodes_eq h0 h1 (Ne.symm hfb),
    addedState_inv hInv hpid h0 h1 hfb, hhead, ?_, rfl, rfl, ?_, ?_⟩
  · have := @addedState_rep W u pid front back hfb node T hrep hnotin
    rw [if_neg (by tauto)] at this
    exact this
  · intro x hx
    simp [addedState, hx]
  · simp [addedState]


lemma rep_tiny {s : PState W} {n : Nat} {c : Option Nat} {L : List Nat}
    (h : PRep s n c L) (k : Nat) : PRep { s with c_tinyportals := k } n c L :=
  @rep_same_portals W s { s with c_tinyportals := k } (fun _ => rfl) n c L h

lemma splitBoth_snd (s : PState W) (pid : Nat) (fwv bwv : W) :
    (splitBoth s pid fwv bwv).2 = s.nportals := rfl

lemma splitBoth_np (s : PState W) (pid : Nat) (fwv bwv : W) :
    (splitBoth s pid fwv bwv).1.nportals = s.nportals + 1 := rfl

lemma splitBoth_heads (s : PState W) (pid : Nat) (fwv bwv : W) :
    (splitBoth s pid fwv bwv).1.nodeportals = s.nodeportals := rfl

lemma splitBoth_ct (s : PState W) (pid : Nat) (fwv bwv : W) :
    (splitBoth s pid fwv bwv).1.c_tinyportals = s.c_tinyportals := rfl

lemma splitBoth_portals_pid {s : PState W} {pid : Nat} (fwv bwv : W)
    (h : pid ≠ s.nportals) :
    (splitBoth s pid fwv bwv).1.portals pid = { s.portals pid with winding := some fwv } := by
  simp [splitBoth, setP, h]

lemma splitBoth_portals_nid {s : PState W} {pid : Nat} (fwv bwv : W)
    (h : pid ≠ s.nportals) :
    (splitBoth s pid fwv bwv).1.portals s.nportals =
      { s.portals pid with winding := some bwv } := by
  simp [splitBoth, setP, Ne.symm h]

lemma splitBoth_portals_nid2 {s : PState W} {pid m : Nat} (fwv bwv : W)
    (h : pid ≠ s.nportals) (hm : m = s.nportals) :
    (splitBoth s pid fwv bwv).1.portals m = { s.portals pid with winding := some bwv } := by
  subst hm
  exact splitBoth_portals_nid fwv bwv h

lemma splitBoth_portals_other {s : PState W} {pid q : Nat} (fwv bwv : W)
    (hq : q ≠ pid) (hq2 : q ≠ s.nportals) :
    (splitBoth s pid fwv bwv).1.portals q = s.portals q := by
  simp [splitBoth, setP, hq, hq2]

lemma inv_splitBoth {s : PState W} {pid : Nat} (fwv bwv : W) (hInv : PInv s)
    (h0 : (s.portals pid).nodes0 = none) (h1 : (s.portals pid).nodes1 = none) :
    PInv (splitBoth s pid fwv bwv).1 := by
  have hA : PInv { setP s s.nportals { s.portals pid with winding := some bwv } with
      nportals := s.nportals + 1 } := inv_alloc hInv h0 h1
  exact inv_setWinding hA pid (some fwv)

lemma rep_splitBoth {s : PState W} {pid : Nat} (fwv bwv : W) {n : Nat} {c : Option Nat}
    {L : List Nat} (h : PRep s n c L) (hmem : ∀ q ∈ L, q ≠ pid ∧ q ≠ s.nportals) :
    PRep (splitBoth s pid fwv bwv).1 n c L :=
  rep_congr h (fun q hq => by rw [splitBoth_portals_other fwv bwv (hmem q hq).1 (hmem q hq).2])

theorem splitStep_spec (ctx : PCtx W) {node : Nat} (f b : Nat) (plane : QPlane)
    {s : PState W} {pid : Nat} {T' : List Nat}
    (hInv : PInv s) (hnf : node ≠ f) (hnb : node ≠ b)
    (hrep : PRep s node (s.nodeportals node) (pid :: T'))
    (hb0 : (s.portals pid).nodes0.isSome) (hb1 : (s.portals pid).nodes1.isSome)
    (hw : (s.portals pid).winding.isSome)
    (hdisj : ∀ o, ((s.portals pid).nodes0 = some o ∨ (s.portals pid).nodes1 = some o) →
      o ≠ node → o ≠ f ∧ o ≠ b) :
    ∃ s₂, splitStep ctx node f b plane s pid = .ok (s₂, chaseLink (s.portals pid) node) ∧
      PInv s₂ ∧
      s₂.nodeportals node = chaseLink (s.portals pid) node ∧
      PRep s₂ node (s₂.nodeportals node) T' ∧
      s.nportals ≤ s₂.nportals ∧
      s₂.c_tinyportals = s.c_tinyportals + tinyCnt ctx plane ((s.portals pid).winding) ∧
      (∀ x, x ≠ pid → x < s.nportals → absP (s₂.portals x) = absP (s.portals x)) ∧
      (∀ sF : PState W,
        (∀ x, (x = pid ∨ (s.nportals ≤ x ∧ x < s₂.nportals)) →
          absP (sF.portals x) = absP (s₂.portals x)) →
        SplitOutcome ctx plane f b node (s.portals pid) sF pid) := by
  -- identify the node list with the invariant list
  obtain ⟨Ln, hLn, hndn, hmemn⟩ := hInv.lists node
  have hTLn : pid :: T' = Ln := rep_unique hrep hLn
  rw [← hTLn] at hndn hmemn
  have hpidT' : pid ∉ T' := (List.nodup_cons.mp hndn).1
  have hlt : ∀ x ∈ pid :: T', x < s.nportals :=
    fun x hx => inv_mem_lt hInv ⟨hrep, hndn, hmemn⟩ hx
  have hpidlt : pid < s.nportals := hlt pid (by simp)
  have hheadpid : s.nodeportals node = some pid := (rep_cons_head hrep).1
  have hEndnode : hasEnd (s.portals pid) node := (hmemn pid).mp (by simp)
  obtain ⟨w, hwpid⟩ := Option.isSome_iff_exists.mp hw
  have htail := (rep_cons_head hrep).2
  by_cases hside : (s.portals pid).nodes0 = some node
  · -- SIDE_FRONT: the node is nodes[0], the other node is n1
    obtain ⟨n1, hn1⟩ := Option.isSome_iff_exists.mp hb1
    have hothern : n1 ≠ node := by
      rcases hInv.distinct pid with h | h
      · rw [hside] at h; cases h
      · rw [hside, hn1] at h
        intro hc
        exact h (by rw [hc])
    have hofb : n1 ≠ f ∧ n1 ≠ b := hdisj n1 (Or.inr hn1) hothern
    have hEnd0 : hasEnd (s.portals pid) node := Or.inl hside
    obtain ⟨sa, hR1eq, hInva, hnpa, hcta, hpa_pid, hpa_abs, hheada, hheadla, hrepsa, hrepla⟩ :=
      RemovePortalFromNode_spec hInv hEnd0
    have hsa_pid : sa.portals pid = { s.portals pid with nodes0 := none } := by
      rw [hpa_pid]
      simp [clearEnd, hside]
    have hEnd1 : hasEnd (sa.portals pid) n1 := by
      right
      rw [hsa_pid]
      exact hn1
    obtain ⟨sb, hR2eq, hInvb, hnpb, hctb, hpb_pid, hpb_abs, hheadb, hheadlb, hrepsb, hreplb⟩ :=
      RemovePortalFromNode_spec hInva hEnd1
    have hsb_pid : sb.portals pid = { s.portals pid with nodes0 := none, nodes1 := none } := by
      rw [hpb_pid, hsa_pid]
      simp [clearEnd, hn1]
    have hrepT'a : PRep sa node (sa.nodeportals node) T' := by
      have := hrepla (pid :: T') hrep
      simpa using this
    have hheadA : sa.nodeportals node = chaseLink (s.portals pid) node := hheadla hheadpid
    have hrepT'b : PRep sb node (sb.nodeportals node) T' :=
      hrepsb node T' (Ne.symm hothern) hrepT'a
    have hheadB : sb.nodeportals node = chaseLink (s.portals pid) node := by
      rw [hheadb node (Ne.symm hothern)]
      exact hheadA
    have habsab : ∀ x, x ≠ pid → absP (sb.portals x) = absP (s.portals x) := fun x hx => by
      rw [hpb_abs x hx, hpa_abs x hx]
    have hnpab : sb.nportals = s.nportals := by rw [hnpb, hnpa]
    have hctab : sb.c_tinyportals = s.c_tinyportals := by rw [hctb, hcta]
    cases hfr : keepFrag ctx (ctx.clip w plane SPLIT_WINDING_EPSILON true).1 with
    | none =>
      cases hbr : keepFrag ctx (ctx.clip w plane SPLIT_WINDING_EPSILON true).2 with
      | none =>
        simp only [splitStep, hside, hn1, hwpid, hR1eq, hR2eq, dropTiny_eq, hfr, hbr,
          bind, Except.bind, pure, Except.pure, if_true, if_false, Bool.false_eq_true,
          chaseLink]
        refine ⟨_, rfl, inv_tiny hInvb _, hheadB.trans (by simp [chaseLink, hside]),
          rep_tiny hrepT'b _, le_of_eq hnpab.symm, ?_, ?_, ?_⟩
        · show sb.c_tinyportals + _ + _ = _
          rw [hctab]
          simp only [tinyCnt]
          omega
        · intro x hx _
          exact habsab x hx
        · intro sF hF
          simp only [SplitOutcome]
          intro w' hw'
          rw [hwpid] at hw'
          have hww : w' = w := (Option.some.inj hw').symm
          subst hww
          simp only [hfr, hbr]
          have hsc_pid : absP (sF.portals pid) = absP (sb.portals pid) := hF pid (Or.inl rfl)
          have hfields := absP_eq_iff.mp hsc_pid
          rw [hsb_pid] at hfields
          refine ⟨?_, ?_, ?_⟩
          · simpa using hfields.2.2.2.1
          · simpa using hfields.2.2.2.2
          · rw [hfields.2.2.1]
            simpa using hwpid
      | some bwv =>
        have hpid2 : pid < sb.nportals := by rw [hnpab]; exact hpidlt
        have h0 : (sb.portals pid).nodes0 = none := by rw [hsb_pid]
        have h1 : (sb.portals pid).nodes1 = none := by rw [hsb_pid]
        obtain ⟨hAddEq, hInvd, hheadd, hrepd, hnpd, hctd, habsd, hpidd⟩ :=
          @AddPhase W { sb with c_tinyportals := (sb.c_tinyportals +
              tinyInc ctx (ctx.clip w plane SPLIT_WINDING_EPSILON true).1 +
              tinyInc ctx (ctx.clip w plane SPLIT_WINDING_EPSILON true).2) }
            pid b n1 node T' (inv_tiny hInvb _) hpid2 h0 h1 (Ne.symm hofb.2) hnb
            (Ne.symm hothern) (rep_tiny hrepT'b _) hpidT'
        simp only [splitStep, hside, hn1, hwpid, hR1eq, hR2eq, dropTiny_eq, hfr, hbr,
          bind, Except.bind, pure, Except.pure, if_true, if_false, Bool.false_eq_true,
          chaseLink, hAddEq]
        refine ⟨_, rfl, hInvd, ?_, hrepd, ?_, ?_, ?_, ?_⟩
        · rw [hheadd]
          exact hheadB.trans (by simp [chaseLink, hside])
        · rw [hnpd]
          exact le_of_eq hnpab.symm
        · rw [hctd]
          show sb.c_tinyportals + _ + _ = _
          rw [hctab]
          simp only [tinyCnt]
          omega
        · intro x hx _
          rw [habsd x hx]
          exact habsab x hx
        · intro sF hF
          simp only [SplitOutcome]
          intro w' hw'
          rw [hwpid] at hw'
          have hww : w' = w := (Option.some.inj hw').symm
          subst hww
          simp only [hfr, hbr]
          rw [if_pos hside]
          have hfields := absP_eq_iff.mp (hF pid (Or.inl rfl))
          rw [hpidd] at hfields
          refine ⟨?_, ?_, ?_⟩
          · rw [hfields.2.2.1]
            show (sb.portals pid).winding = some w'
            rw [hsb_pid]
            simpa using hwpid
          · rw [hfields.2.2.2.1]
            simp [addedRec]
          · rw [hfields.2.2.2.2, hn1]
            simp [addedRec]
    | some fwv =>
      cases hbr : keepFrag ctx (ctx.clip w plane SPLIT_WINDING_EPSILON true).2 with
      | none =>
        have hpid2 : pid < sb.nportals := by rw [hnpab]; exact hpidlt
        have h0 : (sb.portals pid).nodes0 = none := by rw [hsb_pid]
        have h1 : (sb.portals pid).nodes1 = none := by rw [hsb_pid]
        obtain ⟨hAddEq, hInvd, hheadd, hrepd, hnpd, hctd, habsd, hpidd⟩ :=
          @AddPhase W { sb with c_tinyportals := (sb.c_tinyportals +
              tinyInc ctx (ctx.clip w plane SPLIT_WINDING_EPSILON true).1 +
              tinyInc ctx (ctx.clip w plane SPLIT_WINDING_EPSILON true).2) }
            pid f n1 node T' (inv_tiny hInvb _) hpid2 h0 h1 (Ne.symm hofb.1) hnf
            (Ne.symm hothern) (rep_tiny hrepT'b _) hpidT'
        simp only [splitStep, hside, hn1, hwpid, hR1eq, hR2eq, dropTiny_eq, hfr, hbr,
          bind, Except.bind, pure, Except.pure, if_true, if_false, Bool.false_eq_true,
          chaseLink, hAddEq]
        refine ⟨_, rfl, hInvd, ?_, hrepd, ?_, ?_, ?_, ?_⟩
        · rw [hheadd]
          exact hheadB.trans (by simp [chaseLink, hside])
        · rw [hnpd]
          exact le_of_eq hnpab.symm
        · rw [hctd]
          show sb.c_tinyportals + _ + _ = _
          rw [hctab]
          simp only [tinyCnt]
          omega
        · intro x hx _
          rw [habsd x hx]
          exact habsab x hx
        · intro sF hF
          simp only [SplitOutcome]
          intro w' hw'
          rw [hwpid] at hw'
          have hww : w' = w := (Option.some.inj hw').symm
          subst hww
          simp only [hfr, hbr]
          rw [if_pos hside]
          have hfields := absP_eq_iff.mp (hF pid (Or.inl rfl))
          rw [hpidd] at hfields
          refine ⟨?_, ?_, ?_⟩
          · rw [hfields.2.2.1]
            show (sb.portals pid).winding = some w'
            rw [hsb_pid]
            simpa using hwpid
          · rw [hfields.2.2.2.1]
            simp [addedRec]
          · rw [hfields.2.2.2.2, hn1]
            simp [addedRec]
      | some bwv =>
        have hpid2 : pid < sb.nportals := by rw [hnpab]; exact hpidlt
        have h0 : (sb.portals pid).nodes0 = none := by rw [hsb_pid]
        have h1 : (sb.portals pid).nodes1 = none := by rw [hsb_pid]
        have hpn : pid ≠ sb.nportals := by omega
        simp only [splitStep, hside, hn1, hwpid, hR1eq, hR2eq, dropTiny_eq, hfr, hbr,
          bind, Except.bind, pure, Except.pure, if_true, if_false, Bool.false_eq_true,
          chaseLink, splitBoth_snd]
        set scX : PState W := { sb with c_tinyportals := (sb.c_tinyportals +
            tinyInc ctx (ctx.clip w plane SPLIT_WINDING_EPSILON true).1 +
            tinyInc ctx (ctx.clip w plane SPLIT_WINDING_EPSILON true).2) } with hscX
        have hInv3 : PInv (splitBoth scX pid fwv bwv).1 :=
          inv_splitBoth fwv bwv (inv_tiny hInvb _) h0 h1
        have hrep3 : PRep (splitBoth scX pid fwv bwv).1 node (sb.nodeportals node) T' := by
          refine rep_splitBoth fwv bwv (rep_tiny hrepT'b _) ?_
          intro q hq
          refine ⟨fun h => hpidT' (h ▸ hq), ?_⟩
          show q ≠ sb.nportals
          have h2 := hlt q (by simp [hq])
          omega
        have hpid3 : pid < (splitBoth scX pid fwv bwv).1.nportals := by
          rw [splitBoth_np]
          show pid < sb.nportals + 1
          omega
        have h03 : ((splitBoth scX pid fwv bwv).1.portals pid).nodes0 = none := by
          rw [@splitBoth_portals_pid W scX pid fwv bwv hpn]
          exact h0
        have h13 : ((splitBoth scX pid fwv bwv).1.portals pid).nodes1 = none := by
          rw [@splitBoth_portals_pid W scX pid fwv bwv hpn]
          exact h1
        obtain ⟨hAdd1, hInv4, hhead4, hrep4, hnp4, hct4, habs4, hrec4⟩ :=
          @AddPhase W (splitBoth scX pid fwv bwv).1 pid f n1 node T' hInv3 hpid3 h03 h13
            (Ne.symm hofb.1) hnf (Ne.symm hothern) hrep3 hpidT'
        have hnid_lt : sb.nportals <
            (addedState (splitBoth scX pid fwv bwv).1 pid f n1).nportals := by
          rw [hnp4, splitBoth_np]
          show sb.nportals < sb.nportals + 1
          omega
        have hu4nid : absP ((addedState (splitBoth scX pid fwv bwv).1 pid f n1).portals
            sb.nportals) = absP ((splitBoth scX pid fwv bwv).1.portals sb.nportals) :=
          habs4 sb.nportals (Ne.symm hpn)
        have hfieldsN := absP_eq_iff.mp hu4nid
        have h0N : ((addedState (splitBoth scX pid fwv bwv).1 pid f n1).portals
            sb.nportals).nodes0 = none := by
          rw [hfieldsN.2.2.2.1, @splitBoth_portals_nid2 W scX pid sb.nportals fwv bwv hpn rfl]
          simpa using h0
        have h1N : ((addedState (splitBoth scX pid fwv bwv).1 pid f n1).portals
            sb.nportals).nodes1 = none := by
          rw [hfieldsN.2.2.2.2, @splitBoth_portals_nid2 W scX pid sb.nportals fwv bwv hpn rfl]
          simpa using h1
        have hnidT' : sb.nportals ∉ T' := by
          intro h
          have h2 := hlt sb.nportals (by simp [h])
          omega
        obtain ⟨hAdd2, hInv5, hhead5, hrep5, hnp5, hct5, habs5, hrec5⟩ :=
          @AddPhase W (addedState (splitBoth scX pid fwv bwv).1 pid f n1) sb.nportals b n1
            node T' hInv4 hnid_lt h0N h1N (Ne.symm hofb.2) hnb (Ne.symm hothern) hrep4 hnidT'
        simp only [hAdd1, hAdd2]
        refine ⟨_, rfl, hInv5, ?_, hrep5, ?_, ?_, ?_, ?_⟩
        · rw [hhead5, hhead4]
          show sb.nodeportals node = (s.portals pid).next0
          exact hheadB.trans (by simp [chaseLink, hside])
        · rw [hnp5, hnp4, splitBoth_np]
          show s.nportals ≤ sb.nportals + 1
          omega
        · rw [hct5, hct4, splitBoth_ct]
          show sb.c_tinyportals + _ + _ = _
          rw [hctab]
          simp only [tinyCnt]
          omega
        · intro x hx hxlt
          have hxn : x ≠ sb.nportals := by omega
          rw [habs5 x hxn, habs4 x hx, @splitBoth_portals_other W scX pid x fwv bwv hx hxn]
          exact habsab x hx
        · intro sF hF
          simp only [SplitOutcome]
          intro w' hw'
          rw [hwpid] at hw'
          have hww : w' = w := (Option.some.inj hw').symm
          subst hww
          simp only [hfr, hbr]
          simp only [if_pos hside]
          have hpidfields := absP_eq_iff.mp ((hF pid (Or.inl rfl)).trans
            ((habs5 pid hpn).trans (by rw [hrec4])))
          have hle1 : s.nportals ≤ sb.nportals := by omega
          have hlt2 : sb.nportals <
              (addedState (addedState (splitBoth scX pid fwv bwv).1 pid f n1)
                sb.nportals b n1).nportals := by
            rw [hnp5, hnp4, splitBoth_np]
            show sb.nportals < sb.nportals + 1
            omega
          have hnidfields := absP_eq_iff.mp ((hF sb.nportals (Or.inr ⟨hle1, hlt2⟩)).trans
            (by rw [hrec5]))
          refine ⟨?_, ⟨?_, ?_⟩, sb.nportals, ?_, ?_, ?_, ?_, ?_⟩
          · rw [hpidfields.2.2.1]
            simp only [addedRec]
            rw [@splitBoth_portals_pid W scX pid fwv bwv hpn]
          · rw [hpidfields.2.2.2.1]
            simp [addedRec]
          · rw [hpidfields.2.2.2.2, hn1]
            simp [addedRec]
          · rw [hnidfields.2.2.1]
            simp only [addedRec]
            rw [hfieldsN.2.2.1, @splitBoth_portals_nid2 W scX pid sb.nportals fwv bwv hpn rfl]
          · rw [hnidfields.1]
            simp only [addedRec]
            rw [hfieldsN.1, @splitBoth_portals_nid2 W scX pid sb.nportals fwv bwv hpn rfl, hsb_pid]
          · rw [hnidfields.2.1]
            simp only [addedRec]
            rw [hfieldsN.2.1, @splitBoth_portals_nid2 W scX pid sb.nportals fwv bwv hpn rfl, hsb_pid]
          · rw [hnidfields.2.2.2.1]
            simp [addedRec]
          · rw [hnidfields.2.2.2.2, hn1]
            simp [addedRec]
  · -- SIDE_BACK: the node is nodes[1], the other node is n0
    obtain ⟨n0, hn0⟩ := Option.isSome_iff_exists.mp hb0
    have hnode1 : (s.portals pid).nodes1 = some node := by
      rcases hEndnode with h | h
      · exact absurd h hside
      · exact h
    have hothern : n0 ≠ node := fun h => hside (by rw [hn0, h])
    have hofb : n0 ≠ f ∧ n0 ≠ b := hdisj n0 (Or.inl hn0) hothern
    have hside2 : (some n0 : Option Nat) ≠ some node := fun h => hothern (Option.some.inj h)
    have hEnd0 : hasEnd (s.portals pid) n0 := Or.inl hn0
    obtain ⟨sa, hR1eq, hInva, hnpa, hcta, hpa_pid, hpa_abs, hheada, hheadla, hrepsa, hrepla⟩ :=
      RemovePortalFromNode_spec hInv hEnd0
    have hsa_pid : sa.portals pid = { s.portals pid with nodes0 := none } := by
      rw [hpa_pid]
      simp [clearEnd, hn0]
    have hEnd1 : hasEnd (sa.portals pid) node := by
      right
      rw [hsa_pid]
      exact hnode1
    obtain ⟨sb, hR2eq, hInvb, hnpb, hctb, hpb_pid, hpb_abs, hheadb, hheadlb, hrepsb, hreplb⟩ :=
      RemovePortalFromNode_spec hInva hEnd1
    have hsb_pid : sb.portals pid = { s.portals pid with nodes0 := none, nodes1 := none } := by
      rw [hpb_pid, hsa_pid]
      simp [clearEnd, hnode1]
    have hrepT'a0 : PRep sa node (sa.nodeportals node) (pid :: T') :=
      hrepsa node (pid :: T') (Ne.symm hothern) hrep
    have hheadpida : sa.nodeportals node = some pid := by
      rw [hheada node (Ne.symm hothern)]
      exact hheadpid
    have hrepT'b : PRep sb node (sb.nodeportals node) T' := by
      have := hreplb (pid :: T') hrepT'a0
      simpa using this
    have hheadB : sb.nodeportals node = chaseLink (s.portals pid) node := by
      rw [hheadlb hheadpida, hsa_pid]
      simp [chaseLink, hside]
    have habsab : ∀ x, x ≠ pid → absP (sb.portals x) = absP (s.portals x) := fun x hx => by
      rw [hpb_abs x hx, hpa_abs x hx]
    have hnpab : sb.nportals = s.nportals := by rw [hnpb, hnpa]
    have hctab : sb.c_tinyportals = s.c_tinyportals := by rw [hctb, hcta]
    cases hfr : keepFrag ctx (ctx.clip w plane SPLIT_WINDING_EPSILON true).1 with
    | none =>
      cases hbr : keepFrag ctx (ctx.clip w plane SPLIT_WINDING_EPSILON true).2 with
      | none =>
        simp only [splitStep, hside, hside2, hnode1, hn0, hwpid, hR1eq, hR2eq, dropTiny_eq, hfr, hbr,
          bind, Except.bind, pure, Except.pure, if_true, if_false, Bool.false_eq_true,
          eq_self_iff_true, chaseLink]
        refine ⟨_, rfl, inv_tiny hInvb _, hheadB.trans (by simp [chaseLink, hside]),
          rep_tiny hrepT'b _, le_of_eq hnpab.symm, ?_, ?_, ?_⟩
        · show sb.c_tinyportals + _ + _ = _
          rw [hctab]
          simp only [tinyCnt]
          omega
        · intro x hx _
          exact habsab x hx
        · intro sF hF
          simp only [SplitOutcome]
          intro w' hw'
          rw [hwpid] at hw'
          have hww : w' = w := (Option.some.inj hw').symm
          subst hww
          simp only [hfr, hbr]
          have hsc_pid : absP (sF.portals pid) = absP (sb.portals pid) := hF pid (Or.inl rfl)
          have hfields := absP_eq_iff.mp hsc_pid
          rw [hsb_pid] at hfields
          refine ⟨?_, ?_, ?_⟩
          · simpa using hfields.2.2.2.1
          · simpa using hfields.2.2.2.2
          · rw [hfields.2.2.1]
            simpa using hwpid
      | some bwv =>
        have hpid2 : pid < sb.nportals := by rw [hnpab]; exact hpidlt
        have h0 : (sb.portals pid).nodes0 = none := by rw [hsb_pid]
        have h1 : (sb.portals pid).nodes1 = none := by rw [hsb_pid]
        obtain ⟨hAddEq, hInvd, hheadd, hrepd, hnpd, hctd, habsd, hpidd⟩ :=
          @AddPhase W { sb with c_tinyportals := (sb.c_tinyportals +
              tinyInc ctx (ctx.clip w plane SPLIT_WINDING_EPSILON true).1 +
              tinyInc ctx (ctx.clip w plane SPLIT_WINDING_EPSILON true).2) }
            pid n0 b node T' (inv_tiny hInvb _) hpid2 h0 h1 hofb.2 (Ne.symm hothern)
            hnb (rep_tiny hrepT'b _) hpidT'
        simp only [splitStep, hside, hside2, hnode1, hn0, hwpid, hR1eq, hR2eq, dropTiny_eq, hfr, hbr,
          bind, Except.bind, pure, Except.pure, if_true, if_false, Bool.false_eq_true,
          eq_self_iff_true, chaseLink, hAddEq]
        refine ⟨_, rfl, hInvd, ?_, hrepd, ?_, ?_, ?_, ?_⟩
        · rw [hheadd]
          exact hheadB.trans (by simp [chaseLink, hside])
        · rw [hnpd]
          exact le_of_eq hnpab.symm
        · rw [hctd]
          show sb.c_tinyportals + _ + _ = _
          rw [hctab]
          simp only [tinyCnt]
          omega
        · intro x hx _
          rw [habsd x hx]
          exact habsab x hx
        · intro sF hF
          simp only [SplitOutcome]
          intro w' hw'
          rw [hwpid] at hw'
          have hww : w' = w := (Option.some.inj hw').symm
          subst hww
          simp only [hfr, hbr]
          rw [if_neg hside]
          have hfields := absP_eq_iff.mp (hF pid (Or.inl rfl))
          rw [hpidd] at hfields
          refine ⟨?_, ?_, ?_⟩
          · rw [hfields.2.2.1]
            show (sb.portals pid).winding = some w'
            rw [hsb_pid]
            simpa using hwpid
          · rw [hfields.2.2.2.1]
            simp [addedRec, hn0]
          · rw [hfields.2.2.2.2]
            simp [addedRec]
    | some fwv =>
      cases hbr : keepFrag ctx (ctx.clip w plane SPLIT_WINDING_EPSILON true).2 with
      | none =>
        have hpid2 : pid < sb.nportals := by rw [hnpab]; exact hpidlt
        have h0 : (sb.portals pid).nodes0 = none := by rw [hsb_pid]
        have h1 : (sb.portals pid).nodes1 = none := by rw [hsb_pid]
        obtain ⟨hAddEq, hInvd, hheadd, hrepd, hnpd, hctd, habsd, hpidd⟩ :=
          @AddPhase W { sb with c_tinyportals := (sb.c_tinyportals +
              tinyInc ctx (ctx.clip w plane SPLIT_WINDING_EPSILON true).1 +
              tinyInc ctx (ctx.clip w plane SPLIT_WINDING_EPSILON true).2) }
            pid n0 f node T' (inv_tiny hInvb _) hpid2 h0 h1 hofb.1 (Ne.symm hothern)
            hnf (rep_tiny hrepT'b _) hpidT'
        simp only [splitStep, hside, hside2, hnode1, hn0, hwpid, hR1eq, hR2eq, dropTiny_eq, hfr, hbr,
          bind, Except.bind, pure, Except.pure, if_true, if_false, Bool.false_eq_true,
          eq_self_iff_true, chaseLink, hAddEq]
        refine ⟨_, rfl, hInvd, ?_, hrepd, ?_, ?_, ?_, ?_⟩
        · rw [hheadd]
          exact hheadB.trans (by simp [chaseLink, hside])
        · rw [hnpd]
          exact le_of_eq hnpab.symm
        · rw [hctd]
          show sb.c_tinyportals + _ + _ = _
          rw [hctab]
          simp only [tinyCnt]
          omega
        · intro x hx _
          rw [habsd x hx]
          exact habsab x hx
        · intro sF hF
          simp only [SplitOutcome]
          intro w' hw'
          rw [hwpid] at hw'
          have hww : w' = w := (Option.some.inj hw').symm
          subst hww
          simp only [hfr, hbr]
          rw [if_neg hside]
          have hfields := absP_eq_iff.mp (hF pid (Or.inl rfl))
          rw [hpidd] at hfields
          refine ⟨?_, ?_, ?_⟩
          · rw [hfields.2.2.1]
            show (sb.portals pid).winding = some w'
            rw [hsb_pid]
            simpa using hwpid
          · rw [hfields.2.2.2.1]
            simp [addedRec, hn0]
          · rw [hfields.2.2.2.2]
            simp [addedRec]
      | some bwv =>
        have hpid2 : pid < sb.nportals := by rw [hnpab]; exact hpidlt
        have h0 : (sb.portals pid).nodes0 = none := by rw [hsb_pid]
        have h1 : (sb.portals pid).nodes1 = none := by rw [hsb_pid]
        have hpn : pid ≠ sb.nportals := by omega
        simp only [splitStep, hside, hside2, hnode1, hn0, hwpid, hR1eq, hR2eq, dropTiny_eq, hfr, hbr,
          bind, Except.bind, pure, Except.pure, if_true, if_false, Bool.false_eq_true,
          eq_self_iff_true, chaseLink, splitBoth_snd]
        set scX : PState W := { sb with c_tinyportals := (sb.c_tinyportals +
            tinyInc ctx (ctx.clip w plane SPLIT_WINDING_EPSILON true).1 +
            tinyInc ctx (ctx.clip w plane SPLIT_WINDING_EPSILON true).2) } with hscX
        have hInv3 : PInv (splitBoth scX pid fwv bwv).1 :=
          inv_splitBoth fwv bwv (inv_tiny hInvb _) h0 h1
        have hrep3 : PRep (splitBoth scX pid fwv bwv).1 node (sb.nodeportals node) T' := by
          refine rep_splitBoth fwv bwv (rep_tiny hrepT'b _) ?_
          intro q hq
          refine ⟨fun h => hpidT' (h ▸ hq), ?_⟩
          show q ≠ sb.nportals
          have h2 := hlt q (by simp [hq])
          omega
        have hpid3 : pid < (splitBoth scX pid fwv bwv).1.nportals := by
          rw [splitBoth_np]
          show pid < sb.nportals + 1
          omega
        have h03 : ((splitBoth scX pid fwv bwv).1.portals pid).nodes0 = none := by
          rw [@splitBoth_portals_pid W scX pid fwv bwv hpn]
          exact h0
        have h13 : ((splitBoth scX pid fwv bwv).1.portals pid).nodes1 = none := by
          rw [@splitBoth_portals_pid W scX pid fwv bwv hpn]
          exact h1
        obtain ⟨hAdd1, hInv4, hhead4, hrep4, hnp4, hct4, habs4, hrec4⟩ :=
          @AddPhase W (splitBoth scX pid fwv bwv).1 pid n0 f node T' hInv3 hpid3 h03 h13
            hofb.1 (Ne.symm hothern) hnf hrep3 hpidT'
        have hnid_lt : sb.nportals <
            (addedState (splitBoth scX pid fwv bwv).1 pid n0 f).nportals := by
          rw [hnp4, splitBoth_np]
          show sb.nportals < sb.nportals + 1
          omega
        have hu4nid : absP ((addedState (splitBoth scX pid fwv bwv).1 pid n0 f).portals
            sb.nportals) = absP ((splitBoth scX pid fwv bwv).1.portals sb.nportals) :=
          habs4 sb.nportals (Ne.symm hpn)
        have hfieldsN := absP_eq_iff.mp hu4nid
        have h0N : ((addedState (splitBoth scX pid fwv bwv).1 pid n0 f).portals
            sb.nportals).nodes0 = none := by
          rw [hfieldsN.2.2.2.1, @splitBoth_portals_nid2 W scX pid sb.nportals fwv bwv hpn rfl]
          simpa using h0
        have h1N : ((addedState (splitBoth scX pid fwv bwv).1 pid n0 f).portals
            sb.nportals).nodes1 = none := by
          rw [hfieldsN.2.2.2.2, @splitBoth_portals_nid2 W scX pid sb.nportals fwv bwv hpn rfl]
          simpa using h1
        have hnidT' : sb.nportals ∉ T' := by
          intro h
          have h2 := hlt sb.nportals (by simp [h])
          omega
        obtain ⟨hAdd2, hInv5, hhead5, hrep5, hnp5, hct5, habs5, hrec5⟩ :=
          @AddPhase W (addedState (splitBoth scX pid fwv bwv).1 pid n0 f) sb.nportals n0 b
            node T' hInv4 hnid_lt h0N h1N hofb.2 (Ne.symm hothern) hnb hrep4 hnidT'
        simp only [hAdd1, hAdd2]
        refine ⟨_, rfl, hInv5, ?_, hrep5, ?_, ?_, ?_, ?_⟩
        · rw [hhead5, hhead4]
          show sb.nodeportals node = (s.portals pid).next1
          exact hheadB.trans (by simp [chaseLink, hside])
        · rw [hnp5, hnp4, splitBoth_np]
          show s.nportals ≤ sb.nportals + 1
          omega
        · rw [hct5, hct4, splitBoth_ct]
          show sb.c_tinyportals + _ + _ = _
          rw [hctab]
          simp only [tinyCnt]
          omega
        · intro x hx hxlt
          have hxn : x ≠ sb.nportals := by omega
          rw [habs5 x hxn, habs4 x hx, @splitBoth_portals_other W scX pid x fwv bwv hx hxn]
          exact habsab x hx
        · intro sF hF
          simp only [SplitOutcome]
          intro w' hw'
          rw [hwpid] at hw'
          have hww : w' = w := (Option.some.inj hw').symm
          subst hww
          simp only [hfr, hbr]
          simp only [if_neg hside]
          have hpidfields := absP_eq_iff.mp ((hF pid (Or.inl rfl)).trans
            ((habs5 pid hpn).trans (by rw [hrec4])))
          have hle1 : s.nportals ≤ sb.nportals := by omega
          have hlt2 : sb.nportals <
              (addedState (addedState (splitBoth scX pid fwv bwv).1 pid n0 f)
                sb.nportals n0 b).nportals := by
            rw [hnp5, hnp4, splitBoth_np]
            show sb.nportals < sb.nportals + 1
            omega
          have hnidfields := absP_eq_iff.mp ((hF sb.nportals (Or.inr ⟨hle1, hlt2⟩)).trans
            (by rw [hrec5]))
          refine ⟨?_, ⟨?_, ?_⟩, sb.nportals, ?_, ?_, ?_, ?_, ?_⟩
          · rw [hpidfields.2.2.1]
            simp only [addedRec]
            rw [@splitBoth_portals_pid W scX pid fwv bwv hpn]
          · rw [hpidfields.2.2.2.1]
            simp [addedRec, hn0]
          · rw [hpidfields.2.2.2.2]
            simp [addedRec]
          · rw [hnidfields.2.2.1]
            simp only [addedRec]
            rw [hfieldsN.2.2.1, @splitBoth_portals_nid2 W scX pid sb.nportals fwv bwv hpn rfl]
          · rw [hnidfields.1]
            simp only [addedRec]
            rw [hfieldsN.1, @splitBoth_portals_nid2 W scX pid sb.nportals fwv bwv hpn rfl,
              hsb_pid]
          · rw [hnidfields.2.1]
            simp only [addedRec]
            rw [hfieldsN.2.1, @splitBoth_portals_nid2 W scX pid sb.nportals fwv bwv hpn rfl,
              hsb_pid]
          · rw [hnidfields.2.2.2.1]
            simp [addedRec, hn0]
          · rw [hnidfields.2.2.2.2]
            simp [addedRec]

/-- The loop of `SplitNodePortals` over the node's portal list: every portal
is processed as in `splitStep_spec`, the list ends empty, and the tiny
discards are summed into `c_tinyportals`. -/
lemma members_transport {s s' : PState W} {node f b : Nat} {T : List Nat}
    (habs : ∀ q ∈ T, absP (s'.portals q) = absP (s.portals q))
    (hboth : ∀ q ∈ T, (s.portals q).nodes0.isSome ∧ (s.portals q).nodes1.isSome)
    (hwind : ∀ q ∈ T, (s.portals q).winding.isSome)
    (hdisj : ∀ q ∈ T, ∀ o, ((s.portals q).nodes0 = some o ∨ (s.portals q).nodes1 = some o) →
      o ≠ node → o ≠ f ∧ o ≠ b) :
    (∀ q ∈ T, (s'.portals q).nodes0.isSome ∧ (s'.portals q).nodes1.isSome) ∧
    (∀ q ∈ T, (s'.portals q).winding.isSome) ∧
    (∀ q ∈ T, ∀ o, ((s'.portals q).nodes0 = some o ∨ (s'.portals q).nodes1 = some o) →
      o ≠ node → o ≠ f ∧ o ≠ b) := by
  refine ⟨?_, ?_, ?_⟩
  · intro q hq
    have h := absP_eq_iff.mp (habs q hq)
    rw [h.2.2.2.1, h.2.2.2.2]
    exact hboth q hq
  · intro q hq
    have h := absP_eq_iff.mp (habs q hq)
    rw [h.2.2.1]
    exact hwind q hq
  · intro q hq
    have h := absP_eq_iff.mp (habs q hq)
    rw [h.2.2.2.1, h.2.2.2.2]
    exact hdisj q hq

lemma splitLoop_ok (ctx : PCtx W) {node : Nat} (f b : Nat) (plane : QPlane)
    (hnf : node ≠ f) (hnb : node ≠ b) :
    ∀ (T : List Nat) (s : PState W) (fuel : Nat),
    PInv s →
    PRep s node (s.nodeportals node) T →
    (∀ q ∈ T, (s.portals q).nodes0.isSome ∧ (s.portals q).nodes1.isSome) →
    (∀ q ∈ T, (s.portals q).winding.isSome) →
    (∀ q ∈ T, ∀ o, ((s.portals q).nodes0 = some o ∨ (s.portals q).nodes1 = some o) →
      o ≠ node → o ≠ f ∧ o ≠ b) →
    T.length ≤ fuel →
    ∃ s', splitLoop ctx node f b plane s (s.nodeportals node) fuel = .ok s' ∧
      PInv s' ∧
      s'.nodeportals node = none ∧
      s.nportals ≤ s'.nportals ∧
      s'.c_tinyportals = s.c_tinyportals +
        (T.map (fun q => tinyCnt ctx plane ((s.portals q).winding))).sum ∧
      (∀ x, x ∉ T → x < s.nportals → absP (s'.portals x) = absP (s.portals x)) ∧
      (∀ q ∈ T, SplitOutcome ctx plane f b node (s.portals q) s' q) := by
  intro T
  induction T with
  | nil =>
    intro s fuel hInv hrep _ _ _ _
    have hc : s.nodeportals node = none := by
      cases hh : s.nodeportals node with
      | none => rfl
      | some q =>
        rw [hh] at hrep
        cases hrep
    rw [hc]
    refine ⟨s, ?_, hInv, hc, le_refl _, by simp, fun x _ _ => rfl, fun q hq => absurd hq (by simp)⟩
    cases fuel <;> rfl
  | cons pid T' ih =>
    intro s fuel hInv hrep hboth hwind hdisj hfuel
    obtain ⟨Ln, hLn, hndn, hmemn⟩ := hInv.lists node
    have hTLn : pid :: T' = Ln := rep_unique hrep hLn
    rw [← hTLn] at hndn hmemn
    have hpidT' : pid ∉ T' := (List.nodup_cons.mp hndn).1
    have hlt : ∀ x ∈ pid :: T', x < s.nportals :=
      fun x hx => inv_mem_lt hInv ⟨hrep, hndn, hmemn⟩ hx
    have hpidlt : pid < s.nportals := hlt pid (by simp)
    have hheadpid : s.nodeportals node = some pid := (rep_cons_head hrep).1
    obtain ⟨s₂, hstep, hInv₂, hhead₂, hrep₂, hnp₂, hct₂, habs₂, hout₂⟩ :=
      splitStep_spec ctx f b plane hInv hnf hnb hrep (hboth pid (by simp)).1
        (hboth pid (by simp)).2 (hwind pid (by simp)) (hdisj pid (by simp))
    cases fuel with
    | zero => simp at hfuel
    | succ fuel =>
      have hmembers : ∀ q ∈ T', absP (s₂.portals q) = absP (s.portals q) := by
        intro q hq
        exact habs₂ q (fun h => hpidT' (h ▸ hq)) (hlt q (by simp [hq]))
      obtain ⟨hboth', hwind', hdisj'⟩ :=
        members_transport hmembers (fun q hq => hboth q (by simp [hq]))
          (fun q hq => hwind q (by simp [hq])) (fun q hq => hdisj q (by simp [hq]))
      have hfuel' : T'.length ≤ fuel := by simp at hfuel; omega
      obtain ⟨s', hloop, hInv', hhead', hnple', hct', hframe', hout'⟩ :=
        ih s₂ fuel hInv₂ (hhead₂ ▸ hrep₂) hboth' hwind' hdisj' hfuel'
      have heq : splitLoop ctx node f b plane s (s.nodeportals node) (fuel + 1) = .ok s' := by
        rw [hheadpid]
        rw [splitLoop]
        rw [hstep]
        show splitLoop ctx node f b plane s₂ (chaseLink (s.portals pid) node) fuel = .ok s'
        rw [← hhead₂]
        exact hloop
      refine ⟨s', heq, hInv', hhead', le_trans hnp₂ hnple', ?_, ?_, ?_⟩
      · rw [hct']
        have hmap : T'.map (fun q => tinyCnt ctx plane ((s₂.portals q).winding)) =
            T'.map (fun q => tinyCnt ctx plane ((s.portals q).winding)) := by
          refine List.map_congr_left ?_
          intro q hq
          rw [(absP_eq_iff.mp (hmembers q hq)).2.2.1]
        rw [hmap, hct₂]
        simp only [List.map_cons, List.sum_cons]
        omega
      · intro x hx hxlt
        have hxT' : x ∉ T' := fun h => hx (by simp [h])
        have hxpid : x ≠ pid := fun h => hx (by simp [h])
        rw [hframe' x hxT' (lt_of_lt_of_le hxlt hnp₂), habs₂ x hxpid hxlt]
      · intro q hq
        rcases List.mem_cons.mp hq with rfl | hq'
        · refine hout₂ s' ?_
          intro x hcase
          rcases hcase with rfl | ⟨hge, hlt2⟩
          · exact hframe' x hpidT' (lt_of_lt_of_le hpidlt hnp₂)
          · refine hframe' x ?_ hlt2
            intro hmem
            have := hlt x (by simp [hmem])
            omega
        · exact splitOutcome_congr (hmembers q hq') (hout' q hq')

/-- Top-level effect of `SplitNodePortals` (portals.cc:305-384). -/
lemma SplitNodePortals_ok (ctx : PCtx W) {s : PState W} {node : Nat} {T : List Nat}
    (hInv : PInv s)
    (hnf : node ≠ (ctx.nodes node).children0) (hnb : node ≠ (ctx.nodes node).children1)
    (hrep : PRep s node (s.nodeportals node) T)
    (hboth : ∀ q ∈ T, (s.portals q).nodes0.isSome ∧ (s.portals q).nodes1.isSome)
    (hwind : ∀ q ∈ T, (s.portals q).winding.isSome)
    (hdisj : ∀ q ∈ T, ∀ o, ((s.portals q).nodes0 = some o ∨ (s.portals q).nodes1 = some o) →
      o ≠ node → o ≠ (ctx.nodes node).children0 ∧ o ≠ (ctx.nodes node).children1) :
    ∃ s', SplitNodePortals ctx s node = .ok s' ∧
      PInv s' ∧
      s'.nodeportals node = none ∧
      s.nportals ≤ s'.nportals ∧
      s'.c_tinyportals = s.c_tinyportals +
        (T.map (fun q => tinyCnt ctx (ctx.planes (ctx.nodes node).planenum.toNat)
          ((s.portals q).winding))).sum ∧
      (∀ x, x ∉ T → x < s.nportals → absP (s'.portals x) = absP (s.portals x)) ∧
      (∀ q ∈ T, SplitOutcome ctx (ctx.planes (ctx.nodes node).planenum.toNat)
        (ctx.nodes node).children0 (ctx.nodes node).children1 node (s.portals q) s' q) := by
  have hnd : T.Nodup := by
    obtain ⟨Ln, hLn, hndn, hmemn⟩ := hInv.lists node
    have hTLn : T = Ln := rep_unique hrep hLn
    rw [← hTLn] at hndn
    exact hndn
  have hlt : ∀ x ∈ T, x < s.nportals := by
    obtain ⟨Ln, hLn, hndn, hmemn⟩ := hInv.lists node
    have hTLn : T = Ln := rep_unique hrep hLn
    rw [← hTLn] at hndn hmemn
    exact fun x hx => inv_mem_lt hInv ⟨hrep, hndn, hmemn⟩ hx
  have hlen : T.length ≤ s.nportals + 1 := le_trans (nodup_lt_length_le hnd hlt) (by omega)
  obtain ⟨s', hloop, hInv', hhead', hnple, hct, hframe, hout⟩ :=
    splitLoop_ok ctx (ctx.nodes node).children0 (ctx.nodes node).children1
      (ctx.planes (ctx.nodes node).planenum.toNat) hnf hnb T s (s.nportals + 1)
      hInv hrep hboth hwind hdisj hlen
  have hfix : setHead s' node none = s' := by
    refine PState.extL (fun j => rfl) rfl ?_ rfl
    intro m
    by_cases hm : m = node
    · subst hm
      rw [← hhead']
      simp [setHead]
    · simp [setHead, hm]
  refine ⟨s', ?_, hInv', hhead', hnple, hct, hframe, hout⟩
  rw [SplitNodePortals]
  rw [hloop]
  show Except.ok (setHead s' node none) = Except.ok s'
  rw [hfix]

/-- C1: for every interior node processed by `SplitNodePortals` whose children
are distinct from it and from every portal's other side: the call succeeds;
every portal of the node's list is clipped by the node plane with epsilon
`SPLIT_WINDING_EPSILON`; absent or tiny fragments are discarded and the tiny
ones are counted into `c_tinyportals`; a portal with only one surviving
fragment is reattached on its departing side to the matching child with the
other side unchanged; a portal with both fragments surviving is duplicated,
the original keeping the front winding on `children[0]` and the copy the back
winding on `children[1]`; and afterwards the node's own portal list is
empty. -/
theorem splitNodePortals_spec (ctx : PCtx W) (s : PState W) (node : Nat) (T : List Nat)
    (hInv : PInv s)
    (hnf : node ≠ (ctx.nodes node).children0) (hnb : node ≠ (ctx.nodes node).children1)
    (hrep : PRep s node (s.nodeportals node) T)
    (hboth : ∀ q ∈ T, (s.portals q).nodes0.isSome ∧ (s.portals q).nodes1.isSome)
    (hwind : ∀ q ∈ T, (s.portals q).winding.isSome)
    (hdisj : ∀ q ∈ T, ∀ o, ((s.portals q).nodes0 = some o ∨ (s.portals q).nodes1 = some o) →
      o ≠ node → o ≠ (ctx.nodes node).children0 ∧ o ≠ (ctx.nodes node).children1) :
    ∃ s', SplitNodePortals ctx s node = .ok s' ∧
      PInv s' ∧
      s'.nodeportals node = none ∧
      s.nportals ≤ s'.nportals ∧
      s'.c_tinyportals = s.c_tinyportals +
        (T.map (fun q => tinyCnt ctx (ctx.planes (ctx.nodes node).planenum.toNat)
          ((s.portals q).winding))).sum ∧
      (∀ x, x ∉ T → x < s.nportals → absP (s'.portals x) = absP (s.portals x)) ∧
      (∀ q ∈ T, SplitOutcome ctx (ctx.planes (ctx.nodes node).planenum.toNat)
        (ctx.nodes node).children0 (ctx.nodes node).children1 node (s.portals q) s' q) :=
  SplitNodePortals_ok ctx hInv hnf hnb hrep hboth hwind hdisj

/-- Context for the C1 witness: node 0 is interior with children 2 and 3,
every winding clips to a whole front fragment, nothing is tiny. -/
def c1ctx : PCtx Unit where
  nodes := fun n => if n = 0 then ⟨0, 2, 3, 0⟩ else ⟨-1, 0, 0, 0⟩
  planes := fun _ => ⟨⟨1, 0, 0⟩, 0⟩
  clip := fun _ _ _ _ => (some (), none)
  tiny := fun _ => false
  isAnySolid := fun _ => false

/-- State for the C1 witness: one portal (id 0) between node 0 and leaf 1. -/
def c1s : PState Unit where
  portals := fun q => if q = 0 then
    { planenum := 0, onnode := none, winding := some (), nodes0 := some 0,
      nodes1 := some 1, next0 := none, next1 := none } else {}
  nportals := 1
  nodeportals := fun m => if m = 0 then some 0 else if m = 1 then some 0 else none
  c_tinyportals := 0

lemma c1rep0 : PRep c1s 0 (c1s.nodeportals 0) [0] := by
  have h : c1s.nodeportals 0 = some 0 := rfl
  rw [h]
  refine PRep.cons ?_
  have h2 : chaseLink (c1s.portals 0) 0 = none := rfl
  rw [h2]
  exact PRep.nil

lemma c1rep1 : PRep c1s 1 (c1s.nodeportals 1) [0] := by
  have h : c1s.nodeportals 1 = some 0 := rfl
  rw [h]
  refine PRep.cons ?_
  have h2 : chaseLink (c1s.portals 0) 1 = none := rfl
  rw [h2]
  exact PRep.nil

lemma inv_c1s : PInv c1s := by
  refine ⟨?_, ?_, ?_⟩
  · intro n
    by_cases h0 : n = 0
    · subst h0
      refine ⟨[0], c1rep0, by simp, ?_⟩
      intro q
      by_cases hq : q = 0
      · subst hq
        simp [hasEnd, c1s]
      · simp only [List.mem_singleton, hq]
        constructor
        · intro h; cases h
        · intro h
          exfalso
          rcases h with h | h <;> simp [c1s, hq] at h
    · by_cases h1 : n = 1
      · subst h1
        refine ⟨[0], c1rep1, by simp, ?_⟩
        intro q
        by_cases hq : q = 0
        · subst hq
          simp [hasEnd, c1s]
        · simp only [List.mem_singleton, hq]
          constructor
          · intro h; cases h
          · intro h
            exfalso
            rcases h with h | h <;> simp [c1s, hq] at h
      · refine ⟨[], ?_, by simp, ?_⟩
        · have h : c1s.nodeportals n = none := by
            simp [c1s, h0, h1]
          rw [h]
          exact PRep.nil
        · intro q
          simp only [List.not_mem_nil, false_iff]
          intro h
          by_cases hq : q = 0
          · subst hq
            rcases h with h | h
            · rw [show (c1s.portals 0).nodes0 = some 0 from rfl] at h
              exact h0 (Option.some.inj h).symm
            · rw [show (c1s.portals 0).nodes1 = some 1 from rfl] at h
              exact h1 (Option.some.inj h).symm
          · rcases h with h | h <;> simp [c1s, hq] at h
  · intro q
    by_cases hq : q = 0
    · subst hq
      right
      rw [show (c1s.portals 0).nodes0 = some 0 from rfl,
        show (c1s.portals 0).nodes1 = some 1 from rfl]
      simp
    · left
      simp [c1s, hq]
  · intro q hge
    have hq : q ≠ 0 := by
      intro h
      subst h
      simp [c1s] at hge
    constructor <;> simp [c1s, hq]

/-- Witness for `splitNodePortals_spec` on the one-portal state `c1s`. -/
theorem splitNodePortals_spec_witness :
    ∃ s', SplitNodePortals c1ctx c1s 0 = .ok s' ∧
      PInv s' ∧
      s'.nodeportals 0 = none ∧
      c1s.nportals ≤ s'.nportals ∧
      s'.c_tinyportals = c1s.c_tinyportals +
        (([0] : List Nat).map (fun q => tinyCnt c1ctx
          (c1ctx.planes (c1ctx.nodes 0).planenum.toNat) ((c1s.portals q).winding))).sum ∧
      (∀ x, x ∉ ([0] : List Nat) → x < c1s.nportals →
        absP (s'.portals x) = absP (c1s.portals x)) ∧
      (∀ q ∈ ([0] : List Nat), SplitOutcome c1ctx
        (c1ctx.planes (c1ctx.nodes 0).planenum.toNat)
        (c1ctx.nodes 0).children0 (c1ctx.nodes 0).children1 0 (c1s.portals q) s' q) := by
  refine splitNodePortals_spec c1ctx c1s 0 [0] inv_c1s (by decide) (by decide) c1rep0
    ?_ ?_ ?_
  · intro q hq
    have hq0 : q = 0 := by simpa using hq
    subst hq0
    exact ⟨rfl, rfl⟩
  · intro q hq
    have hq0 : q = 0 := by simpa using hq
    subst hq0
    rfl
  · intro q hq o ho hon
    have hq0 : q = 0 := by simpa using hq
    subst hq0
    rcases ho with h | h
    · rw [show (c1s.portals 0).nodes0 = some 0 from rfl] at h
      exact absurd (Option.some.inj h).symm hon
    · rw [show (c1s.portals 0).nodes1 = some 1 from rfl] at h
      have : o = 1 := (Option.some.inj h).symm
      subst this
      exact ⟨by decide, by decide⟩

/-- C2: the portal-list structural invariant — every portal with both
endpoints set occurs exactly once in each endpoint's list (read off through
`PRep`) — holds initially and is preserved by `AddPortalToNodes`,
`RemovePortalFromNode` and `SplitNodePortals`. -/
theorem portal_list_invariant (W : Type) :
    PInv (initPState W) ∧
    (∀ (s : PState W), PInv s → ∀ pid n0 n1 L0 L1,
      (s.portals pid).nodes0 = some n0 → (s.portals pid).nodes1 = some n1 →
      PRep s n0 (s.nodeportals n0) L0 → PRep s n1 (s.nodeportals n1) L1 →
      L0.count pid = 1 ∧ L1.count pid = 1) ∧
    (∀ (s : PState W) (pid front back : Nat), PInv s → pid < s.nportals →
      (s.portals pid).nodes0 = none → (s.portals pid).nodes1 = none → front ≠ back →
      AddPortalToNodes s pid front back = .ok (addedState s pid front back) ∧
      PInv (addedState s pid front back)) ∧
    (∀ (s : PState W) (portal l : Nat), PInv s → hasEnd (s.portals portal) l →
      ∃ s', RemovePortalFromNode s portal l (s.nportals + 1) = .ok s' ∧ PInv s') ∧
    (∀ (ctx : PCtx W) (s : PState W) (node : Nat) (T : List Nat), PInv s →
      node ≠ (ctx.nodes node).children0 → node ≠ (ctx.nodes node).children1 →
      PRep s node (s.nodeportals node) T →
      (∀ q ∈ T, (s.portals q).nodes0.isSome ∧ (s.portals q).nodes1.isSome) →
      (∀ q ∈ T, (s.portals q).winding.isSome) →
      (∀ q ∈ T, ∀ o, ((s.portals q).nodes0 = some o ∨ (s.portals q).nodes1 = some o) →
        o ≠ node → o ≠ (ctx.nodes node).children0 ∧ o ≠ (ctx.nodes node).children1) →
      ∃ s', SplitNodePortals ctx s node = .ok s' ∧ PInv s') := by
  refine ⟨inv_initPState W, ?_, ?_, ?_, ?_⟩
  · intro s hInv pid n0 n1 L0 L1 h0 h1 hL0 hL1
    constructor
    · obtain ⟨Ln, hLn, hndn, hmemn⟩ := hInv.lists n0
      have heq : L0 = Ln := rep_unique hL0 hLn
      subst heq
      exact List.count_eq_one_of_mem hndn ((hmemn pid).mpr (Or.inl h0))
    · obtain ⟨Ln, hLn, hndn, hmemn⟩ := hInv.lists n1
      have heq : L1 = Ln := rep_unique hL1 hLn
      subst heq
      exact List.count_eq_one_of_mem hndn ((hmemn pid).mpr (Or.inr h1))
  · intro s pid front back hInv hpid h0 h1 hfb
    exact ⟨AddPortalToNodes_eq h0 h1 (Ne.symm hfb), addedState_inv hInv hpid h0 h1 hfb⟩
  · intro s portal l hInv hEnd
    obtain ⟨s', heq, hInv', _⟩ := RemovePortalFromNode_spec hInv hEnd
    exact ⟨s', heq, hInv'⟩
  · intro ctx s node T hInv hnf hnb hrep hboth hwind hdisj
    obtain ⟨s', heq, hInv', _⟩ := SplitNodePortals_ok ctx hInv hnf hnb hrep hboth hwind hdisj
    exact ⟨s', heq, hInv'⟩

/-- A state with one unused allocated portal slot, for the C2 witness. -/
def c2s : PState Unit where
  portals := fun _ => {}
  nportals := 1
  nodeportals := fun _ => none
  c_tinyportals := 0

lemma inv_c2s : PInv c2s := by
  refine ⟨?_, ?_, ?_⟩
  · intro n
    refine ⟨[], PRep.nil, by simp, ?_⟩
    intro q
    simp [hasEnd, c2s]
  · intro q
    left
    rfl
  · intro q _
    exact ⟨rfl, rfl⟩

/-- Witness for `portal_list_invariant` at concrete states: the empty state,
the one-portal state `c1s` (counting, removal and split), and an allocation
into `c2s`. -/
theorem portal_list_invariant_witness :
    PInv (initPState Unit) ∧
    (([0] : List Nat).count 0 = 1 ∧ ([0] : List Nat).count 0 = 1) ∧
    (AddPortalToNodes c2s 0 1 2 = .ok (addedState c2s 0 1 2) ∧
      PInv (addedState c2s 0 1 2)) ∧
    (∃ s', RemovePortalFromNode c1s 0 1 (c1s.nportals + 1) = .ok s' ∧ PInv s') ∧
    (∃ s', SplitNodePortals c1ctx c1s 0 = .ok s' ∧ PInv s') := by
  refine ⟨(portal_list_invariant Unit).1, ?_, ?_, ?_, ?_⟩
  · exact (portal_list_invariant Unit).2.1 c1s inv_c1s 0 0 1 [0] [0] rfl rfl c1rep0 c1rep1
  · exact (portal_list_invariant Unit).2.2.1 c2s 0 1 2 inv_c2s (by decide) rfl rfl (by decide)
  · exact (portal_list_invariant Unit).2.2.2.1 c1s 0 1 inv_c1s (Or.inr rfl)
  · refine (portal_list_invariant Unit).2.2.2.2 c1ctx c1s 0 [0] inv_c1s (by decide) (by decide)
      c1rep0 ?_ ?_ ?_
    · intro q hq
      have hq0 : q = 0 := by simpa using hq
      subst hq0
      exact ⟨rfl, rfl⟩
    · intro q hq
      have hq0 : q = 0 := by simpa using hq
      subst hq0
      rfl
    · intro q hq o ho hon
      have hq0 : q = 0 := by simpa using hq
      subst hq0
      rcases ho with h | h
      · rw [show (c1s.portals 0).nodes0 = some 0 from rfl] at h
        exact absurd (Option.some.inj h).symm hon
      · rw [show (c1s.portals 0).nodes1 = some 1 from rfl] at h
        have ho1 : o = 1 := (Option.some.inj h).symm
        subst ho1
        exact ⟨by decide, by decide⟩

/-! ### T-junction fixing (tjunc.cc): TestEdge -/

/-- Statistics counters of the t-junction pass that `TestEdge` touches
(tjunc.cc `tjunc_stats_t`): `(degenerate, tjunctions)`. -/
def TEStats : Type := Nat × Nat

/-- The candidate search loop of `TestEdge` (tjunc.cc:93-112): find the first
candidate index `k ≥ startvert` whose vertex `j` differs from both endpoints
and lies on the open edge (`PointOnEdge`, tjunc.cc:44-76, float-dependent and
therefore an oracle `poe`); returns `(k, j, dist)`. -/
def findSplit (poe : Nat → ℚ → ℚ → Option ℚ) (edge_verts : List Nat)
    (p1 p2 : Nat) (start end_ : ℚ) (k : Nat) : Option (Nat × Nat × ℚ) :=
  if h : k < edge_verts.length then
    let j := edge_verts.get ⟨k, h⟩
    if j = p1 ∨ j = p2 then findSplit poe edge_verts p1 p2 start end_ (k + 1)
    else
      match poe j start end_ with
      | some d => some (k, j, d)
      | none => findSplit poe edge_verts p1 p2 start end_ (k + 1)
  else none
termination_by edge_verts.length - k

/-- `TestEdge` (tjunc.cc:85-117) with explicit fuel: degenerate edges count
into `stats.1`; otherwise the first interior vertex splits the edge
(counting into `stats.2`) and both halves recurse from candidate `k + 1`;
an unsplit edge appends `p1` to the superface. `none` means out of fuel. -/
def TestEdgeF (poe : Nat → ℚ → ℚ → Option ℚ) (edge_verts : List Nat) :
    Nat → ℚ → ℚ → Nat → Nat → Nat → List Nat → TEStats →
    Option (List Nat × TEStats)
  | 0, _, _, _, _, _, _, _ => none
  | fuel + 1, start, end_, p1, p2, startvert, superface, stats =>
    if p1 = p2 then
      some (superface, (stats.1 + 1, stats.2))
    else
      match findSplit poe edge_verts p1 p2 start end_ startvert with
      | some (k, j, d) =>
        match TestEdgeF poe edge_verts fuel start d p1 j (k + 1) superface
            (stats.1, stats.2 + 1) with
        | some (sf1, st1) => TestEdgeF poe edge_verts fuel d end_ j p2 (k + 1) sf1 st1
        | none => none
      | none => some (superface ++ [p1], stats)

lemma findSplit_bounds {poe : Nat → ℚ → ℚ → Option ℚ} {edge_verts : List Nat}
    {p1 p2 : Nat} {start end_ : ℚ} :
    ∀ {k0 k j d}, findSplit poe edge_verts p1 p2 start end_ k0 = some (k, j, d) →
      k0 ≤ k ∧ k < edge_verts.length := by
  suffices H : ∀ m k0, edge_verts.length - k0 = m → ∀ k j d,
      findSplit poe edge_verts p1 p2 start end_ k0 = some (k, j, d) →
      k0 ≤ k ∧ k < edge_verts.length by
    intro k0 k j d h
    exact H _ k0 rfl k j d h
  intro m
  induction m using Nat.strong_induction_on with
  | _ m ih =>
    intro k0 hm k j d h
    rw [findSplit] at h
    by_cases hlt : k0 < edge_verts.length
    · rw [dif_pos hlt] at h
      have hstep : ∀ k j d, findSplit poe edge_verts p1 p2 start end_ (k0 + 1) =
          some (k, j, d) → k0 ≤ k ∧ k < edge_verts.length := by
        intro k j d hh
        have := ih (edge_verts.length - (k0 + 1)) (by omega) (k0 + 1) rfl k j d hh
        exact ⟨by omega, this.2⟩
      by_cases hj : edge_verts.get ⟨k0, hlt⟩ = p1 ∨ edge_verts.get ⟨k0, hlt⟩ = p2
      · rw [if_pos hj] at h
        exact hstep k j d h
      · rw [if_neg hj] at h
        cases hpoe : poe (edge_verts.get ⟨k0, hlt⟩) start end_ with
        | some dv =>
          rw [hpoe] at h
          have hk : k0 = k ∧ edge_verts.get ⟨k0, hlt⟩ = j ∧ dv = d := by
            have := Option.some.inj h
            exact ⟨congrArg Prod.fst this, congrArg (fun p => p.2.1) this,
              congrArg (fun p => p.2.2) this⟩
          exact ⟨le_of_eq hk.1, hk.1 ▸ hlt⟩
        | none =>
          rw [hpoe] at h
          exact hstep k j d h
    · rw [dif_neg hlt] at h
      cases h

lemma testEdge_total {poe : Nat → ℚ → ℚ → Option ℚ} {edge_verts : List Nat} :
    ∀ fuel start end_ p1 p2 startvert superface stats,
      edge_verts.length - startvert < fuel →
      ∃ out st, TestEdgeF poe edge_verts fuel start end_ p1 p2 startvert superface stats =
        some (out, st) ∧ ∃ emitted, out = superface ++ emitted := by
  intro fuel
  induction fuel using Nat.strong_induction_on with
  | _ fuel ih =>
    intro start end_ p1 p2 startvert superface stats hfuel
    cases fuel with
    | zero => omega
    | succ f =>
      rw [TestEdgeF]
      by_cases hp : p1 = p2
      · rw [if_pos hp]
        exact ⟨superface, _, rfl, [], by simp⟩
      · rw [if_neg hp]
        cases hfs : findSplit poe edge_verts p1 p2 start end_ startvert with
        | none =>
          exact ⟨superface ++ [p1], stats, rfl, [p1], rfl⟩
        | some kjd =>
          obtain ⟨k, j, d⟩ := kjd
          obtain ⟨hk1, hk2⟩ := findSplit_bounds hfs
          have hf1 : edge_verts.length - (k + 1) < f := by omega
          obtain ⟨out1, st1, heq1, em1, hem1⟩ :=
            ih f (by omega) start d p1 j (k + 1) superface (stats.1, stats.2 + 1) hf1
          obtain ⟨out2, st2, heq2, em2, hem2⟩ :=
            ih f (by omega) d end_ j p2 (k + 1) out1 st1 hf1
          simp only [heq1, heq2]
          exact ⟨out2, st2, rfl, em1 ++ em2, by rw [hem2, hem1, List.append_assoc]⟩

lemma testEdge_fuel_indep {poe : Nat → ℚ → ℚ → Option ℚ} {edge_verts : List Nat} :
    ∀ fuel1 fuel2 start end_ p1 p2 startvert superface stats,
      edge_verts.length - startvert < fuel1 →
      edge_verts.length - startvert < fuel2 →
      TestEdgeF poe edge_verts fuel1 start end_ p1 p2 startvert superface stats =
        TestEdgeF poe edge_verts fuel2 start end_ p1 p2 startvert superface stats := by
  intro fuel1
  induction fuel1 using Nat.strong_induction_on with
  | _ fuel1 ih =>
    intro fuel2 start end_ p1 p2 startvert superface stats h1 h2
    cases fuel1 with
    | zero => omega
    | succ f1 =>
      cases fuel2 with
      | zero => omega
      | succ f2 =>
        conv_lhs => rw [TestEdgeF]
        conv_rhs => rw [TestEdgeF]
        by_cases hp : p1 = p2
        · rw [if_pos hp, if_pos hp]
        · rw [if_neg hp, if_neg hp]
          cases hfs : findSplit poe edge_verts p1 p2 start end_ startvert with
          | none => rfl
          | some kjd =>
            obtain ⟨k, j, d⟩ := kjd
            obtain ⟨hk1, hk2⟩ := findSplit_bounds hfs
            have hf1 : edge_verts.length - (k + 1) < f1 := by omega
            have hf2 : edge_verts.length - (k + 1) < f2 := by omega
            simp only [ih f1 (by omega) f2 start d p1 j (k + 1) superface (stats.1, stats.2 + 1)
              hf1 hf2]
            cases hmid : TestEdgeF poe edge_verts f2 start d p1 j (k + 1) superface
                (stats.1, stats.2 + 1) with
            | none => simp [hmid]
            | some pr =>
              simp only [hmid]
              exact ih f1 (by omega) f2 d end_ j p2 (k + 1) pr.1 pr.2 hf1 hf2

/-- C6: `TestEdge` (tjunc.cc:85-117) terminates on every input: with any fuel
exceeding the number of remaining candidates the computation completes, and
the result does not depend on the fuel (both recursive calls restart the
candidate scan at `k + 1 > k`, bounded by `edge_verts.size()`); the produced
superface only ever grows by appended endpoints; a terminal call appends
exactly `p1`, except that a degenerate call (`p1 = p2`) appends nothing and
increments the degenerate counter. -/
theorem testEdge_spec (poe : Nat → ℚ → ℚ → Option ℚ) (edge_verts : List Nat)
    (start end_ : ℚ) (p1 p2 startvert : Nat) (superface : List Nat) (stats : TEStats)
    (fuel : Nat) (hfuel : edge_verts.length - startvert < fuel) :
    (∃ out st, TestEdgeF poe edge_verts fuel start end_ p1 p2 startvert superface stats =
      some (out, st) ∧ ∃ emitted, out = superface ++ emitted) ∧
    (∀ fuel2, edge_verts.length - startvert < fuel2 →
      TestEdgeF poe edge_verts fuel2 start end_ p1 p2 startvert superface stats =
        TestEdgeF poe edge_verts fuel start end_ p1 p2 startvert superface stats) ∧
    (p1 = p2 →
      TestEdgeF poe edge_verts fuel start end_ p1 p2 startvert superface stats =
        some (superface, (stats.1 + 1, stats.2))) ∧
    (p1 ≠ p2 → findSplit poe edge_verts p1 p2 start end_ startvert = none →
      TestEdgeF poe edge_verts fuel start end_ p1 p2 startvert superface stats =
        some (superface ++ [p1], stats)) := by
  refine ⟨testEdge_total fuel start end_ p1 p2 startvert superface stats hfuel,
    fun fuel2 h2 => testEdge_fuel_indep fuel2 fuel start end_ p1 p2 startvert superface
      stats h2 hfuel, ?_, ?_⟩
  · intro hp
    cases fuel with
    | zero => omega
    | succ f =>
      rw [TestEdgeF, if_pos hp]
  · intro hp hfs
    cases fuel with
    | zero => omega
    | succ f =>
      rw [TestEdgeF, if_neg hp, hfs]

/-- Witness for `testEdge_spec`: one candidate vertex interior to the edge. -/
theorem testEdge_spec_witness :
    (∃ out st, TestEdgeF (fun j _ _ => if j = 5 then some 1 else none) [5] 2 0 2 1 2 0 [] (0, 0) =
      some (out, st) ∧ ∃ emitted, out = [] ++ emitted) ∧
    (∀ fuel2, ([5] : List Nat).length - 0 < fuel2 →
      TestEdgeF (fun j _ _ => if j = 5 then some 1 else none) [5] fuel2 0 2 1 2 0 [] (0, 0) =
        TestEdgeF (fun j _ _ => if j = 5 then some 1 else none) [5] 2 0 2 1 2 0 [] (0, 0)) ∧
    ((1 : Nat) = 2 →
      TestEdgeF (fun j _ _ => if j = 5 then some 1 else none) [5] 2 0 2 1 2 0 [] (0, 0) =
        some ([], (0 + 1, 0))) ∧
    ((1 : Nat) ≠ 2 →
      findSplit (fun j _ _ => if j = 5 then some 1 else none) [5] 1 2 0 2 0 = none →
      TestEdgeF (fun j _ _ => if j = 5 then some 1 else none) [5] 2 0 2 1 2 0 [] (0, 0) =
        some ([] ++ [1], (0, 0))) :=
  testEdge_spec (fun j _ _ => if j = 5 then some 1 else none) [5] 0 2 1 2 0 [] (0, 0) 2
    (by decide)

/-! ### Fragment splitting (tjunc.cc: SplitFaceIntoFragments and its caller) -/

/-- The while loop of `SplitFaceIntoFragments` (tjunc.cc:194-207): as long as
the face exceeds `maxedges` vertices, emit its first `maxedges` vertices as a
fragment and contract it to its first vertex followed by the tail from
position `maxedges - 1`; returns the final face, the emitted fragments in
order, and the `faceoverflows` count. -/
def splitFaceLoop (maxedges : Nat) : Nat → List Nat → List Nat × List (List Nat) × Nat
  | 0, sf => (sf, [], 0)
  | fuel + 1, sf =>
    if sf.length > maxedges then
      let r := splitFaceLoop maxedges fuel (sf.take 1 ++ sf.drop (maxedges - 1))
      (r.1, sf.take maxedges :: r.2.1, r.2.2 + 1)
    else (sf, [], 0)

/-- Identified nodes of the `std::list<std::vector<size_t>> faces` list. -/
def lookupFace : List (Nat × List Nat) → Nat → Option (List Nat)
  | [], _ => none
  | x :: xs, i => if x.1 = i then some x.2 else lookupFace xs i

def updateFace (l : List (Nat × List Nat)) (i : Nat) (v : List Nat) :
    List (Nat × List Nat) :=
  l.map (fun p => if p.1 = i then (i, v) else p)

/-- `output.splice(output.end(), output, output.begin())`
(tjunc.cc:210): the first list node moves to the end, keeping its
identity. -/
def spliceHeadToEnd : List (Nat × List Nat) → List (Nat × List Nat)
  | [] => []
  | x :: xs => xs ++ [x]

/-- The node following the node with id `i` (what `++it` yields for a
`std::list` iterator after the list was rearranged around its node). -/
def afterId : List (Nat × List Nat) → Nat → Option Nat
  | [], _ => none
  | x :: xs, i => if x.1 = i then xs.head?.map (·.1) else afterId xs i

def withIds : Nat → List (List Nat) → List (Nat × List Nat)
  | _, [] => []
  | i, f :: fs => (i, f) :: withIds (i + 1) fs

/-- The splitting phase of `FixFaceEdges` (tjunc.cc:803-810): iterate
`for (auto &face : faces) SplitFaceIntoFragments(face, faces, stats)` with
`std::list` iterator semantics: each call rewrites the current face, appends
its fragments, then splices the list head to the end; the loop continues at
the node after the current one. -/
def fragLoop (maxedges : Nat) : Nat → List (Nat × List Nat) → Nat → Nat →
    List (Nat × List Nat) × Nat
  | 0, nodes, _, _ => (nodes, 0)
  | fuel + 1, nodes, cur, fresh =>
    match lookupFace nodes cur with
    | none => (nodes, 0)
    | some face =>
      let r := splitFaceLoop maxedges face.length face
      let nodes3 := spliceHeadToEnd (updateFace nodes cur r.1 ++ withIds fresh r.2.1)
      match afterId nodes3 cur with
      | none => (nodes3, r.2.2)
      | some nid =>
        let rr := fragLoop maxedges fuel nodes3 nid (fresh + r.2.1.length)
        (rr.1, r.2.2 + rr.2)

/-- The maxedges post-processing of `FixFaceEdges` on its `faces` list. -/
def fragPhase (maxedges : Nat) (faces : List (List Nat)) : List (List Nat) :=
  if maxedges = 0 then faces
  else
    match faces with
    | [] => []
    | _ =>
      (fragLoop maxedges (faces.length + 1) (withIds 0 faces) 0 faces.length).1.map (·.2)

/-- C5: the single-face behaviour matches the claim — a 12-vertex polygon
with `maxedges = 8` yields exactly the 8-vertex fragment `[0..7]` and the
6-vertex remainder `[0,7,8,9,10,11]`, consecutive fragments sharing the two
vertices 0 and 7 — but when the `faces` list holds more than one polygon the
`for` loop stops after its first iteration, because `SplitFaceIntoFragments`
splices the list head (the node the iterator is on) to the end, so `++it`
reaches `end()`: with faces `[[0,1,2], [0..11]]` and `maxedges = 8` the
12-vertex polygon is stored unsplit, exceeding maxedges. -/
theorem fixFaceEdges_fragment_overflow :
    fragPhase 8 [[0, 1, 2, 3, 4, 5, 6, 7, 8, 9, 10, 11]] =
      [[0, 1, 2, 3, 4, 5, 6, 7], [0, 7, 8, 9, 10, 11]] ∧
    ∃ face ∈ fragPhase 8 [[0, 1, 2], [0, 1, 2, 3, 4, 5, 6, 7, 8, 9, 10, 11]],
      8 < face.length := by
  constructor
  · decide
  · exact ⟨[0, 1, 2, 3, 4, 5, 6, 7, 8, 9, 10, 11], by decide, by decide⟩

/-! ### Minimum-weight triangulation (tjunc.cc:440-514) -/

/-- `std::numeric_limits<double>::max()` as an exact rational. -/
def DBL_MAX : ℚ := ((2 ^ 53 - 1) * 2 ^ 971 : ℕ)

/-- `std::nexttoward(DBL_MAX, 0.0)` — the largest double below `DBL_MAX` —
as an exact rational: the penalty weight of an invalid triangle
(tjunc.cc:467). -/
def DBL_PENALTY : ℚ := DBL_MAX - ((2 ^ 971 : ℕ) : ℚ)

/-- Bit length rounded up to a multiple of 64, tail-recursively (shallow
kernel recursion even on 2000-bit inputs). -/
def blen64 : ℕ → ℕ → ℕ → ℕ
  | 0, _, acc => acc
  | f + 1, n, acc => if n = 0 then acc else blen64 f (n / 18446744073709551616) (acc + 64)

/-- Integer Newton iteration for the floor square root, monotonically
decreasing from an upper seed. -/
def newtonSqrt : ℕ → ℕ → ℕ → ℕ
  | 0, _, x => x
  | f + 1, n, x =>
    let x2 := (x + n / x) / 2
    if x2 < x then newtonSqrt f n x2 else x

/-- Floor square root with shallow recursion depth (kernel-friendly on
2000-bit inputs). -/
def isqrtN (n : ℕ) : ℕ := if n = 0 then 0 else newtonSqrt 64 n (2 ^ (blen64 n n 0 / 2 + 1))

/-- Rational stand-in for the double `sqrt` used by `qv::distance`; exact on
perfect squares (all concrete evaluations below use only those). -/
def ratSqrtF (q : ℚ) : ℚ := ((isqrtN q.num.toNat : ℕ) : ℚ) / ((isqrtN q.den : ℕ) : ℚ)

/-- `qv::distance` on the projected 2-D vertices. -/
def dist2 (a b : ℚ × ℚ) : ℚ :=
  ratSqrtF ((b.1 - a.1) * (b.1 - a.1) + (b.2 - a.2) * (b.2 - a.2))

def getV (vertices : List (ℚ × ℚ)) (i : Nat) : ℚ × ℚ := vertices.getD i (0, 0)

def getI (indices : List Nat) (i : Nat) : Nat := indices.getD i 0

/-- The inner `k` loop of the DP fill (tjunc.cc:461-481): scan
`k = i+1 .. j-1`, giving invalid triangles (`TriangleIsValid`, float- and
`acos`-dependent, hence the oracle `valid` on the global vertex ids
`indices[·]`) the penalty weight, and keep the minimising `k`; the cell
starts at `DBL_MAX` with no chooser. -/
def candWeight (valid : Nat → Nat → Nat → Bool) (indices : List Nat)
    (vertices : List (ℚ × ℚ)) (T : Nat → Nat → ℚ) (i j k : Nat) : ℚ :=
  if valid (getI indices i) (getI indices j) (getI indices k) then
    dist2 (getV vertices i) (getV vertices j) +
      dist2 (getV vertices j) (getV vertices k) +
      dist2 (getV vertices k) (getV vertices i) + T i k + T k j
  else DBL_PENALTY

def cellFold (valid : Nat → Nat → Nat → Bool) (indices : List Nat)
    (vertices : List (ℚ × ℚ)) (T : Nat → Nat → ℚ) (i j : Nat) : ℚ × Option Nat :=
  (List.range' (i + 1) (j - i - 1)).foldl
    (fun acc k =>
      if candWeight valid indices vertices T i j k < acc.1 then
        (candWeight valid indices vertices T i j k, some k)
      else acc)
    (DBL_MAX, none)

/-- The diagonal fill of the `T`/`K` tables (tjunc.cc:452-483): the table
after all diagonals up to width `d` are done; cells with `j < i + 2` keep
`T = 0`, `K = none`. -/
def mwtTables (valid : Nat → Nat → Nat → Bool) (indices : List Nat)
    (vertices : List (ℚ × ℚ)) : Nat → (Nat → Nat → ℚ) × (Nat → Nat → Option Nat)
  | 0 => (fun _ _ => 0, fun _ _ => none)
  | d + 1 =>
    let TK := mwtTables valid indices vertices d
    if d + 1 < 2 then TK
    else
      (fun i j => if j - i = d + 1 ∧ i < j then
          (cellFold valid indices vertices TK.1 i j).1 else TK.1 i j,
       fun i j => if j - i = d + 1 ∧ i < j then
          (cellFold valid indices vertices TK.1 i j).2 else TK.2 i j)

/-- `std::sort` of the three indices of an emitted triangle
(tjunc.cc:504-505). -/
def sortTri (a b c : Nat) : Nat × Nat × Nat :=
  let l := min a (min b c)
  let h := max a (max b c)
  (l, a + b + c - l - h, h)

/-- The queue-driven reconstruction (tjunc.cc:485-510): FIFO of edges
starting from `(0, n-1)`; an edge with equal endpoints or an unset chooser is
dropped, otherwise the chosen triangle is emitted and both sub-edges are
enqueued. -/
def mwtRecon (K : Nat → Nat → Option Nat) :
    Nat → List (Nat × Nat) → List (Nat × Nat × Nat) → List (Nat × Nat × Nat)
  | 0, _, acc => acc
  | _ + 1, [], acc => acc
  | fuel + 1, (a, b) :: rest, acc =>
    if a = b then mwtRecon K fuel rest acc
    else
      match K a b with
      | none => mwtRecon K fuel rest acc
      | some c => mwtRecon K fuel (rest ++ [(a, c), (c, b)]) (acc ++ [sortTri a b c])

/-- `minimum_weight_triangulation` (tjunc.cc:440-514), returning the
reconstructed triangle list (the `Q_assert(triangles.size() == n - 2)` is the
property under study, so the function returns the list unchecked). -/
def minimum_weight_triangulation (valid : Nat → Nat → Nat → Bool)
    (indices : List Nat) (vertices : List (ℚ × ℚ)) : List (Nat × Nat × Nat) :=
  let n := vertices.length
  let K := (mwtTables valid indices vertices n).2
  mwtRecon K (2 * n) [(0, n - 1)] []

/-- Vertices for the C10 counterexample: a 3-4-5-scaled quadrilateral with
coordinates of magnitude `2^1021`, whose pairwise distances are all exact
(multiples of `2^1021`); vertex 1 lies on the segment from vertex 0 to
vertex 2, so the triangle (0,2,1) is degenerate. -/
def mwtBadVerts : List (ℚ × ℚ) :=
  [(0, 0), (((3 * 2 ^ 1021 : ℕ) : ℚ), 0), (((6 * 2 ^ 1021 : ℕ) : ℚ), 0),
   (((3 * 2 ^ 1021 : ℕ) : ℚ), ((4 * 2 ^ 1021 : ℕ) : ℚ))]

/-- Validity oracle consistent with that geometry: only the degenerate
triangle queried as (0,2,1) is invalid (zero angle); all other queried
triangles are 3-4-5 or 5-5-6 shaped, far from the 0.01-degree threshold. -/
def mwtBadValid : Nat → Nat → Nat → Bool := fun a b c => !(a == 0 && b == 2 && c == 1)

set_option maxRecDepth 8000 in
set_option exponentiation.threshold 5000 in
unseal Rat.add Rat.mul Rat.inv Rat.sub in
/-- At huge coordinates the DP can leave a chooser cell unset: cell (1,3)
has the single candidate weight `12·2^1021 ≥ DBL_MAX`, so `K[1,3]` stays
empty and `T[1,3] = DBL_MAX`; both candidates of the root cell (0,3) then
weigh at least `DBL_MAX` and `K[0,3]` stays empty, the reconstruction emits
no triangle, and `Q_assert(triangles.size() == n - 2)` fires. -/
theorem mwt_assert_counterexample :
    (minimum_weight_triangulation mwtBadValid [0, 1, 2, 3] mwtBadVerts).length ≠
      mwtBadVerts.length - 2 := by decide

lemma foldMin_spec (wf : Nat → ℚ) (l : List Nat) :
    ∀ init : ℚ × Option Nat,
    (l.foldl (fun acc k => if wf k < acc.1 then (wf k, some k) else acc) init).1 ≤ init.1 ∧
    (∀ k ∈ l,
      (l.foldl (fun acc k => if wf k < acc.1 then (wf k, some k) else acc) init).1 ≤ wf k) ∧
    ((l.foldl (fun acc k => if wf k < acc.1 then (wf k, some k) else acc) init).2 = none →
      (l.foldl (fun acc k => if wf k < acc.1 then (wf k, some k) else acc) init).1 = init.1 ∧
        init.2 = none) ∧
    (∀ k, (l.foldl (fun acc k => if wf k < acc.1 then (wf k, some k) else acc) init).2 = some k →
      k ∈ l ∨ init.2 = some k) := by
  induction l with
  | nil =>
    intro init
    exact ⟨le_refl _, fun k hk => absurd hk (by simp), fun h => ⟨rfl, h⟩, fun k h => Or.inr h⟩
  | cons x xs ih =>
    intro init
    simp only [List.foldl_cons]
    by_cases hx : wf x < init.1
    · rw [if_pos hx]
      obtain ⟨h1, h2, h3, h4⟩ := ih (wf x, some x)
      refine ⟨le_trans h1 (le_of_lt hx), ?_, ?_, ?_⟩
      · intro k hk
        rcases List.mem_cons.mp hk with rfl | hk'
        · exact h1
        · exact h2 k hk'
      · intro heq
        exact absurd (h3 heq).2 (by simp)
      · intro k heq
        rcases h4 k heq with h | h
        · exact Or.inl (by simp [h])
        · exact Or.inl (by simp [Option.some.inj h])
    · rw [if_neg hx]
      obtain ⟨h1, h2, h3, h4⟩ := ih init
      refine ⟨h1, ?_, h3, ?_⟩
      · intro k hk
        rcases List.mem_cons.mp hk with rfl | hk'
        · exact le_trans h1 (not_lt.mp hx)
        · exact h2 k hk'
      · intro k heq
        rcases h4 k heq with h | h
        · exact Or.inl (by simp [h])
        · exact Or.inr h

lemma mwtTables_lt (valid : Nat → Nat → Nat → Bool) (indices : List Nat)
    (vertices : List (ℚ × ℚ)) :
    ∀ d i j, j < i + 2 →
      (mwtTables valid indices vertices d).1 i j = 0 ∧
      (mwtTables valid indices vertices d).2 i j = none := by
  intro d
  induction d with
  | zero => intro i j _; exact ⟨rfl, rfl⟩
  | succ d ih =>
    intro i j hj
    by_cases h2 : d + 1 < 2
    · simp only [mwtTables, if_pos h2]
      exact ih i j hj
    · have hcond : ¬(j - i = d + 1 ∧ i < j) := by omega
      simp only [mwtTables, if_neg h2, if_neg hcond]
      exact ih i j hj

lemma mwtTables_stable (valid : Nat → Nat → Nat → Bool) (indices : List Nat)
    (vertices : List (ℚ × ℚ)) :
    ∀ e d i j, j - i ≤ d → d ≤ e →
      (mwtTables valid indices vertices e).1 i j =
        (mwtTables valid indices vertices d).1 i j ∧
      (mwtTables valid indices vertices e).2 i j =
        (mwtTables valid indices vertices d).2 i j := by
  intro e
  induction e with
  | zero =>
    intro d i j _ hde
    have : d = 0 := by omega
    subst this
    exact ⟨rfl, rfl⟩
  | succ e ih =>
    intro d i j hw hde
    rcases Nat.lt_or_ge d (e + 1) with hlt | hge
    · have hde' : d ≤ e := by omega
      by_cases h2 : e + 1 < 2
      · simp only [mwtTables, if_pos h2]
        exact ih d i j hw hde'
      · have hcond : ¬(j - i = e + 1 ∧ i < j) := by omega
        simp only [mwtTables, if_neg h2, if_neg hcond]
        exact ih d i j hw hde'
    · have : d = e + 1 := by omega
      subst this
      exact ⟨rfl, rfl⟩

lemma mwtTables_cell (valid : Nat → Nat → Nat → Bool) (indices : List Nat)
    (vertices : List (ℚ × ℚ)) (w i j : Nat) (h2 : 2 ≤ w) (hw : j - i = w)
    (hij : i < j) :
    (mwtTables valid indices vertices w).1 i j =
      (cellFold valid indices vertices
        (mwtTables valid indices vertices (w - 1)).1 i j).1 ∧
    (mwtTables valid indices vertices w).2 i j =
      (cellFold valid indices vertices
        (mwtTables valid indices vertices (w - 1)).1 i j).2 := by
  obtain ⟨d, rfl⟩ : ∃ d, w = d + 1 := ⟨w - 1, by omega⟩
  have h2' : ¬(d + 1 < 2) := by omega
  have hcond : j - i = d + 1 ∧ i < j := ⟨hw, hij⟩
  simp only [mwtTables, if_neg h2', if_pos hcond, Nat.add_sub_cancel]
  exact ⟨trivial, trivial⟩

set_option exponentiation.threshold 1100 in
lemma dbl_penalty_nonneg : 0 ≤ DBL_PENALTY := by
  unfold DBL_PENALTY DBL_MAX
  rw [sub_nonneg]
  exact_mod_cast Nat.le_mul_of_pos_left (2 ^ 971) (by norm_num)

set_option exponentiation.threshold 1100 in
lemma dbl_penalty_lt_max : DBL_PENALTY < DBL_MAX := by
  unfold DBL_PENALTY
  exact sub_lt_self _ (by exact_mod_cast Nat.pos_pow_of_pos 971 (by norm_num))

lemma dist2_nonneg (a b : ℚ × ℚ) : 0 ≤ dist2 a b :=
  div_nonneg (Nat.cast_nonneg _) (Nat.cast_nonneg _)

lemma mwt_good (valid : Nat → Nat → Nat → Bool) (indices : List Nat)
    (vertices : List (ℚ × ℚ)) (D : ℚ)
    (hD : ∀ i j, i < vertices.length → j < vertices.length →
      dist2 (getV vertices i) (getV vertices j) ≤ D)
    (hD0 : 0 ≤ D)
    (hbound : DBL_PENALTY +
      3 * ((vertices.length - 2 : ℕ) : ℚ) * D < DBL_MAX) :
    ∀ w, 2 ≤ w → ∀ i j, j - i = w → j < vertices.length →
      (∃ k, (mwtTables valid indices vertices vertices.length).2 i j = some k ∧
        i < k ∧ k < j) ∧
      (mwtTables valid indices vertices vertices.length).1 i j ≤
        DBL_PENALTY + 3 * ((w - 1 : ℕ) : ℚ) * D := by
  intro w
  induction w using Nat.strong_induction_on with
  | _ w ih =>
  intro h2 i j hw hjn
  have hij : i < j := by omega
  have hwn : w ≤ vertices.length := by omega
  have hstab := mwtTables_stable valid indices vertices vertices.length w i j
    (by omega) hwn
  have hcell := mwtTables_cell valid indices vertices w i j h2 hw hij
  set T := (mwtTables valid indices vertices (w - 1)).1 with hT
  have hfold := foldMin_spec (candWeight valid indices vertices T i j)
    (List.range' (i + 1) (j - i - 1)) (DBL_MAX, none)
  have hmem : i + 1 ∈ List.range' (i + 1) (j - i - 1) := by
    rw [List.mem_range'_1]
    omega
  -- bound the weight of the candidate k = i + 1
  have hTlow : T i (i + 1) = 0 :=
    (mwtTables_lt valid indices vertices (w - 1) i (i + 1) (by omega)).1
  have hcw : candWeight valid indices vertices T i j (i + 1) ≤
      DBL_PENALTY + 3 * ((w - 1 : ℕ) : ℚ) * D := by
    unfold candWeight
    by_cases hv : valid (getI indices i) (getI indices j) (getI indices (i + 1))
    · rw [if_pos hv]
      have hd1 := hD i j (by omega) hjn
      have hd2 := hD j (i + 1) hjn (by omega)
      have hd3 := hD (i + 1) i (by omega) (by omega)
      rw [hTlow]
      rcases Nat.lt_or_ge w 3 with h3 | h3
      · have hw2 : w = 2 := by omega
        have hThigh : T (i + 1) j = 0 :=
          (mwtTables_lt valid indices vertices (w - 1) (i + 1) j (by omega)).1
        rw [hThigh]
        have hc1 : ((w - 1 : ℕ) : ℚ) = 1 := by rw [hw2]; norm_num
        rw [hc1]
        have := dbl_penalty_nonneg
        linarith
      · have hih := ih (w - 1) (by omega) (by omega) (i + 1) j (by omega) hjn
        have hstab2 := mwtTables_stable valid indices vertices
          vertices.length (w - 1) (i + 1) j (by omega) (by omega)
        have hThigh : T (i + 1) j ≤
            DBL_PENALTY + 3 * ((w - 1 - 1 : ℕ) : ℚ) * D := by
          rw [hT, ← hstab2.1]
          exact hih.2
        have hc1 : ((w - 1 : ℕ) : ℚ) = ((w - 1 - 1 : ℕ) : ℚ) + 1 := by
          rw [← @Nat.cast_one ℚ _, ← Nat.cast_add]
          exact congrArg Nat.cast (by omega)
        rw [hc1]
        linarith
    · rw [if_neg hv]
      have : 0 ≤ 3 * ((w - 1 : ℕ) : ℚ) * D :=
        mul_nonneg (mul_nonneg (by norm_num) (Nat.cast_nonneg _)) hD0
      linarith
  have hcwlt : candWeight valid indices vertices T i j (i + 1) < DBL_MAX := by
    have hmono : 3 * ((w - 1 : ℕ) : ℚ) * D ≤
        3 * ((vertices.length - 2 : ℕ) : ℚ) * D := by
      have hle : ((w - 1 : ℕ) : ℚ) ≤ ((vertices.length - 2 : ℕ) : ℚ) :=
        Nat.cast_le.mpr (by omega)
      nlinarith
    linarith
  obtain ⟨hle_init, hle_cand, hnone, hsome⟩ := hfold
  have hreslt : (cellFold valid indices vertices T i j).1 < DBL_MAX :=
    lt_of_le_of_lt (hle_cand (i + 1) hmem) hcwlt
  constructor
  · rcases hK : (cellFold valid indices vertices T i j).2 with _ | k
    · exact absurd ((hnone hK).1 ▸ hreslt) (lt_irrefl _)
    · refine ⟨k, ?_, ?_⟩
      · rw [hstab.2, hcell.2, hK]
      · rcases hsome k hK with hm | hm
        · rw [List.mem_range'_1] at hm
          omega
        · exact absurd hm (by simp)
  · rw [hstab.1, hcell.1]
    exact le_trans (hle_cand (i + 1) hmem) hcw

def qpot (queue : List (Nat × Nat)) : Nat :=
  (queue.map (fun e => e.2 - e.1 - 1)).sum

lemma qpot_nil : qpot [] = 0 := rfl

lemma qpot_cons (a b : Nat) (rest : List (Nat × Nat)) :
    qpot ((a, b) :: rest) = (b - a - 1) + qpot rest := by
  simp [qpot]

lemma qpot_append (l1 l2 : List (Nat × Nat)) :
    qpot (l1 ++ l2) = qpot l1 + qpot l2 := by
  simp [qpot]

lemma mwtRecon_count (K : Nat → Nat → Option Nat) (n : Nat)
    (hgood : ∀ a b, a + 2 ≤ b → b < n → ∃ k, K a b = some k ∧ a < k ∧ k < b)
    (hnone : ∀ a b, b < a + 2 → K a b = none) :
    ∀ fuel queue acc,
      (∀ e ∈ queue, e.1 ≤ e.2 ∧ e.2 < n) →
      queue.length + 2 * qpot queue ≤ fuel →
      (mwtRecon K fuel queue acc).length = acc.length + qpot queue := by
  intro fuel
  induction fuel with
  | zero =>
    intro queue acc _ hm
    have : queue = [] := by
      cases queue with
      | nil => rfl
      | cons x xs => simp at hm
    subst this
    simp [mwtRecon, qpot_nil]
  | succ fuel ih =>
    intro queue acc hb hm
    cases queue with
    | nil => simp [mwtRecon, qpot_nil]
    | cons e rest =>
      obtain ⟨a, b⟩ := e
      have hab := hb (a, b) (List.mem_cons_self _ _)
      rw [qpot_cons] at hm ⊢
      by_cases heq : a = b
      · rw [mwtRecon, if_pos heq]
        have : b - a - 1 = 0 := by omega
        rw [this, Nat.zero_add]
        exact ih rest acc (fun e he => hb e (List.mem_cons_of_mem _ he))
          (by simp at hm; omega)
      · have hab' : a < b := lt_of_le_of_ne hab.1 heq
        rcases Nat.lt_or_ge b (a + 2) with hsm | hbig
        · rw [mwtRecon, if_neg heq, hnone a b hsm]
          have : b - a - 1 = 0 := by omega
          rw [this, Nat.zero_add]
          exact ih rest acc (fun e he => hb e (List.mem_cons_of_mem _ he))
            (by simp at hm; omega)
        · obtain ⟨k, hk, hak, hkb⟩ := hgood a b hbig hab.2
          rw [mwtRecon, if_neg heq, hk]
          have hrec := ih (rest ++ [(a, k), (k, b)]) (acc ++ [sortTri a b k])
            (by
              intro e he
              rcases List.mem_append.mp he with he' | he'
              · exact hb e (List.mem_cons_of_mem _ he')
              · simp only [List.mem_cons, List.not_mem_nil, or_false] at he'
                rcases he' with rfl | rfl
                · exact ⟨by omega, by omega⟩
                · exact ⟨by omega, hab.2⟩)
            (by
              rw [List.length_append, qpot_append, qpot_cons, qpot_cons,
                qpot_nil]
              simp only [List.length_cons, List.length_nil] at hm ⊢
              omega)
          rw [hrec, List.length_append, qpot_append, qpot_cons, qpot_cons,
            qpot_nil]
          simp only [List.length_cons, List.length_nil]
          omega

/-- C10 (amended): minimum_weight_triangulation does return exactly n-2
triangles — so the Q_assert(triangles.size() == n - 2) at tjunc.cc:513
holds — provided the polygon has at least 3 vertices and every pairwise
vertex distance is bounded by some D with
DBL_PENALTY + 3*(n-2)*D < DBL_MAX, so that no accumulated candidate weight
can reach the DBL_MAX sentinel; without such a bound the assertion can
fail (see the counterexample). -/
theorem mwt_spec (valid : Nat → Nat → Nat → Bool) (indices : List Nat)
    (vertices : List (ℚ × ℚ)) (D : ℚ)
    (hn : 3 ≤ vertices.length)
    (hD : ∀ i j, i < vertices.length → j < vertices.length →
      dist2 (getV vertices i) (getV vertices j) ≤ D)
    (hbound : DBL_PENALTY +
      3 * ((vertices.length - 2 : ℕ) : ℚ) * D < DBL_MAX) :
    (minimum_weight_triangulation valid indices vertices).length =
      vertices.length - 2 := by
  have hD0 : 0 ≤ D :=
    le_trans (dist2_nonneg (getV vertices 0) (getV vertices 0))
      (hD 0 0 (by omega) (by omega))
  have hgood := mwt_good valid indices vertices D hD hD0 hbound
  have hcount := mwtRecon_count
    (mwtTables valid indices vertices vertices.length).2 vertices.length
    (fun a b h2 hb =>
      (hgood (b - a) (by omega) a b rfl hb).1)
    (fun a b hsm =>
      (mwtTables_lt valid indices vertices vertices.length a b hsm).2)
    (2 * vertices.length) [(0, vertices.length - 1)] []
    (by
      intro e he
      simp only [List.mem_cons, List.not_mem_nil, or_false] at he
      subst he
      exact ⟨by omega, by omega⟩)
    (by
      rw [qpot_cons, qpot_nil]
      simp only [List.length_cons, List.length_nil]
      omega)
  show (mwtRecon (mwtTables valid indices vertices vertices.length).2
    (2 * vertices.length) [(0, vertices.length - 1)] []).length =
      vertices.length - 2
  rw [hcount, qpot_cons, qpot_nil]
  simp only [List.length_nil]
  omega

set_option maxRecDepth 8000 in
set_option exponentiation.threshold 5000 in
unseal Rat.add Rat.mul Rat.inv Rat.sub in
/-- Witness for mwt_spec: a unit right triangle, D = 2. -/
theorem mwt_spec_witness :
    (minimum_weight_triangulation (fun _ _ _ => true) [0, 1, 2]
      [((0 : ℚ), (0 : ℚ)), (1, 0), (0, 1)]).length =
      ([((0 : ℚ), (0 : ℚ)), (1, 0), (0, 1)] : List (ℚ × ℚ)).length - 2 := by
  apply mwt_spec (fun _ _ _ => true) [0, 1, 2]
    [((0 : ℚ), (0 : ℚ)), (1, 0), (0, 1)] 2
  · decide
  · intro i j hi hj
    simp only [List.length_cons, List.length_nil] at hi hj
    interval_cases i <;> interval_cases j <;> decide
  · decide

/-! ### FixFaceEdges determinism (tjunc.cc:706-822, TJunc 853-884) -/

/-- The statistics counters shared by the parallel T-junction pass
(`tjunc_stats_t`, tjunc.cc:28-60): the `TestEdge` pair (degenerate,
tjunctions) plus the per-face counters touched by `FixFaceEdges`. -/
structure TJStats where
  te : TEStats
  facecollapse : Nat
  faceoverflows : Nat
  rotates : Nat
  norotates : Nat
  retopology : Nat
  faceretopology : Nat
  mwt : Nat
  facemwt : Nat

def initTJStats : TJStats := ⟨(0, 0), 0, 0, 0, 0, 0, 0, 0, 0⟩

/-- `stats` enter `TestEdge` only through `+=` increments: running from any
initial pair equals running from `(0,0)` and adding the deltas; in
particular the superface component never depends on the counters. -/
lemma testEdgeF_shift (poe : Nat → ℚ → ℚ → Option ℚ) (edge_verts : List Nat) :
    ∀ fuel (start end_ : ℚ) (p1 p2 k : Nat) (sf : List Nat) (st : TEStats),
      TestEdgeF poe edge_verts fuel start end_ p1 p2 k sf st =
        (TestEdgeF poe edge_verts fuel start end_ p1 p2 k sf
            ((0 : Nat), (0 : Nat))).map
          (fun r => (r.1, (st.1 + r.2.1, st.2 + r.2.2))) := by
  intro fuel
  induction fuel with
  | zero => intro start end_ p1 p2 k sf st; rfl
  | succ fuel ih =>
    intro start end_ p1 p2 k sf st
    by_cases hp : p1 = p2
    · rw [TestEdgeF, if_pos hp, TestEdgeF, if_pos hp]
      simp
    · rw [TestEdgeF, if_neg hp, TestEdgeF, if_neg hp]
      cases hfs : findSplit poe edge_verts p1 p2 start end_ k with
      | none => simp
      | some t =>
        obtain ⟨k', j, d⟩ := t
        simp only
        rw [ih start d p1 j (k' + 1) sf (st.1, st.2 + 1),
          ih start d p1 j (k' + 1) sf ((0 : Nat), (0 : Nat) + 1)]
        cases hb1 : TestEdgeF poe edge_verts fuel start d p1 j (k' + 1) sf
            ((0 : Nat), (0 : Nat)) with
        | none => simp
        | some r1 =>
          obtain ⟨sf1, d1⟩ := r1
          simp only [Option.map_some']
          rw [ih d end_ j p2 (k' + 1) sf1 (st.1 + d1.1, st.2 + 1 + d1.2),
            ih d end_ j p2 (k' + 1) sf1 ((0 : Nat) + d1.1, (0 : Nat) + 1 + d1.2)]
          cases hb2 : TestEdgeF poe edge_verts fuel d end_ j p2 (k' + 1) sf1
              ((0 : Nat), (0 : Nat)) with
          | none => simp
          | some r2 =>
            obtain ⟨sf2, d2⟩ := r2
            simp only [Option.map_some']
            refine congrArg some (Prod.ext rfl (Prod.ext ?_ ?_)) <;> simp <;> omega

/-- The frozen per-face inputs of `FixFaceEdges`: the face's
`original_vertices`, and — as oracles over the frozen BSP tree, vertex
table and options — per-edge data for `CreateSuperFace` (the `PointOnEdge`
float test, the `FindEdgeVerts_FaceBounds` candidate list, the edge
length), the `mwt_face` and `RetopologizeFace` results as functions of the
superface, and the `TriangleIsValid` test at threshold 0.01. -/
structure FaceParams where
  ov : List Nat
  poe : Nat → Nat → ℚ → ℚ → Option ℚ
  everts : Nat → List Nat
  elen : Nat → ℚ
  mwtO : List Nat → List (List Nat)
  retopoO : List Nat → List (List Nat)
  valid : Nat → Nat → Nat → Bool

/-- `CreateSuperFace` (tjunc.cc:244-273): for each edge `i` of the face,
run `TestEdge(0, len, v1, v2, 0, ...)` appending onto the growing
superface. -/
def CreateSuperFaceF (P : FaceParams) (fuel : Nat) :
    List Nat → List Nat → TEStats → Option (List Nat × TEStats)
  | [], sf, st => some (sf, st)
  | i :: rest, sf, st =>
    match TestEdgeF (P.poe i) (P.everts i) fuel 0 (P.elen i) (getI P.ov i)
        (getI P.ov ((i + 1) % P.ov.length)) 0 sf st with
    | some (sf', st') => CreateSuperFaceF P fuel rest sf' st'
    | none => none

def superFace (P : FaceParams) (fuel : Nat) (st : TEStats) :
    Option (List Nat × TEStats) :=
  CreateSuperFaceF P fuel (List.range P.ov.length) [] st

/-- The inner `x` loop of the rotation scan (tjunc.cc:749-757): rotation
base `i` works iff every fan triangle is valid. -/
def fanOK (valid : Nat → Nat → Nat → Bool) (sf : List Nat) (i : Nat) : Bool :=
  (List.range (sf.length - 2)).all fun x =>
    valid (getI sf i) (getI sf ((i + x + 1) % sf.length))
      (getI sf ((i + x + 2) % sf.length))

/-- The outer `i` loop (tjunc.cc:747-763): first working rotation base,
`sf.length` if none. -/
def findRot (valid : Nat → Nat → Nat → Bool) (sf : List Nat) : Nat :=
  match (List.range sf.length).find? (fanOK valid sf) with
  | some i => i
  | none => sf.length

/-- The two `std::copy` calls (tjunc.cc:786-790). -/
def rotated (sf : List Nat) (i : Nat) : List Nat := sf.drop i ++ sf.take i

/-- `tjunclevel_t` (a settings header, not in src/): the spec's order
`NONE < ROTATE < RETOPOLOGIZE < MWT` encoded as 0 < 1 < 2 < 3. -/
def LEVEL_ROTATE : Nat := 1
def LEVEL_RETOPOLOGIZE : Nat := 2
def LEVEL_MWT : Nat := 3

/-- The MWT attempt (tjunc.cc:733-739). -/
def mwtPhase (tjlevel : Nat) (P : FaceParams) (sf : List Nat)
    (st : TJStats) : List (List Nat) × TJStats :=
  if LEVEL_MWT ≤ tjlevel then
    let m := P.mwtO sf
    if m.length ≠ 0 then
      (m, { st with mwt := st.mwt + 1, facemwt := st.facemwt + (m.length - 1) })
    else ([], st)
  else ([], st)

/-- The rotation / retopology attempt (tjunc.cc:744-791), entered with an
empty `faces` list. -/
def rotatePhase (tjlevel : Nat) (P : FaceParams) (sf : List Nat)
    (st : TJStats) : List (List Nat) × TJStats :=
  let i := findRot P.valid sf
  if i = sf.length then
    let r := if LEVEL_RETOPOLOGIZE ≤ tjlevel then P.retopoO sf else []
    if 1 < r.length then
      (r, { st with
            retopology := st.retopology + 1
            faceretopology := st.faceretopology + (r.length - 1) })
    else ([], { st with norotates := st.norotates + 1 })
  else if i ≠ 0 then
    ([rotated sf i], { st with rotates := st.rotates + 1 })
  else ([], st)

/-- The `faceoverflows` increments of the maxedges loop (the count
returned by `fragLoop`). -/
def fragCount (maxedges : Nat) (faces : List (List Nat)) : Nat :=
  if maxedges = 0 then 0
  else
    match faces with
    | [] => 0
    | _ =>
      (fragLoop maxedges (faces.length + 1) (withIds 0 faces) 0 faces.length).2

/-- `FixFaceEdges` (tjunc.cc:706-822): the NONE shortcut, the superface,
the collapse and passthrough cases, the MWT / rotate / retopologize
cascade, the superface fallback, and the maxedges fragmentation, returning
the face's fragment list plus the updated shared counters (`none` only on
`TestEdge` fuel exhaustion, which cannot happen for adequate fuel by
`testEdge_total`). -/
def FixFaceEdgesF (tjlevel maxedges : Nat) (P : FaceParams) (fuel : Nat)
    (st : TJStats) : Option (List (List Nat) × TJStats) :=
  if tjlevel = 0 then some ([P.ov], st)
  else
    match superFace P fuel st.te with
    | none => none
    | some (sf, te') =>
      let st0 := { st with te := te' }
      if sf.length < 3 then
        some ([], { st0 with facecollapse := st0.facecollapse + 1 })
      else if sf.length = 3 then some ([P.ov], st0)
      else
        let r1 := mwtPhase tjlevel P sf st0
        let r2 :=
          if r1.1 = [] ∧ LEVEL_ROTATE ≤ tjlevel then
            rotatePhase tjlevel P sf r1.2
          else r1
        let faces := if r2.1 = [] then [sf] else r2.1
        some (fragPhase maxedges faces,
          { r2.2 with
            faceoverflows := r2.2.faceoverflows + fragCount maxedges faces })

/-- The fragment list of a face as a pure function of that face's frozen
inputs alone (counters started from zero). -/
def pureFrags (tjlevel maxedges fuel : Nat) (P : FaceParams) :
    Option (List (List Nat)) :=
  (FixFaceEdgesF tjlevel maxedges P fuel initTJStats).map Prod.fst

/-- `TJunc`'s loop over the faces (tjunc.cc:870-872) in the order the
scheduler happens to pick, threading the shared stats. -/
def TJuncRun (tjlevel maxedges fuel : Nat) :
    List FaceParams → TJStats → Option (List (List (List Nat)) × TJStats)
  | [], st => some ([], st)
  | P :: rest, st =>
    match FixFaceEdgesF tjlevel maxedges P fuel st with
    | none => none
    | some (fr, st') =>
      match TJuncRun tjlevel maxedges fuel rest st' with
      | none => none
      | some (rs, st'') => some (fr :: rs, st'')

lemma createSuperFaceF_indep (P : FaceParams) (fuel : Nat) :
    ∀ (l : List Nat) (sf : List Nat) (st st' : TEStats),
      Option.map Prod.fst (CreateSuperFaceF P fuel l sf st) =
      Option.map Prod.fst (CreateSuperFaceF P fuel l sf st') := by
  intro l
  induction l with
  | nil => intro sf st st'; rfl
  | cons i rest ih =>
    intro sf st st'
    rw [CreateSuperFaceF, CreateSuperFaceF,
      testEdgeF_shift (P.poe i) (P.everts i) fuel 0 (P.elen i) _ _ 0 sf st,
      testEdgeF_shift (P.poe i) (P.everts i) fuel 0 (P.elen i) _ _ 0 sf st']
    cases hb : TestEdgeF (P.poe i) (P.everts i) fuel 0 (P.elen i)
        (getI P.ov i) (getI P.ov ((i + 1) % P.ov.length)) 0 sf
        ((0 : Nat), (0 : Nat)) with
    | none => rfl
    | some r =>
      obtain ⟨sf1, d1⟩ := r
      simp only [Option.map_some']
      exact ih sf1 _ _

lemma mwtPhase_fst (tjlevel : Nat) (P : FaceParams) (sf : List Nat)
    (st st' : TJStats) :
    (mwtPhase tjlevel P sf st).1 = (mwtPhase tjlevel P sf st').1 := by
  unfold mwtPhase
  by_cases h3 : LEVEL_MWT ≤ tjlevel
  · simp only [if_pos h3]
    by_cases hm : (P.mwtO sf).length ≠ 0 <;> simp [hm]
  · simp [if_neg h3]

lemma rotatePhase_fst (tjlevel : Nat) (P : FaceParams) (sf : List Nat)
    (st st' : TJStats) :
    (rotatePhase tjlevel P sf st).1 = (rotatePhase tjlevel P sf st').1 := by
  unfold rotatePhase
  by_cases hi : findRot P.valid sf = sf.length
  · simp only [if_pos hi]
    by_cases hr : 1 <
        (if LEVEL_RETOPOLOGIZE ≤ tjlevel then P.retopoO sf else []).length <;>
      simp [hr]
  · simp only [if_neg hi]
    by_cases h0 : findRot P.valid sf ≠ 0 <;> simp [h0]

lemma fixFaceEdgesF_frags_indep (tjlevel maxedges : Nat) (P : FaceParams)
    (fuel : Nat) (st st' : TJStats) :
    Option.map Prod.fst (FixFaceEdgesF tjlevel maxedges P fuel st) =
    Option.map Prod.fst (FixFaceEdgesF tjlevel maxedges P fuel st') := by
  unfold FixFaceEdgesF
  by_cases h0 : tjlevel = 0
  · rw [if_pos h0, if_pos h0]
    rfl
  · rw [if_neg h0, if_neg h0]
    have hsf := createSuperFaceF_indep P fuel (List.range P.ov.length) []
      st.te st'.te
    cases ha : superFace P fuel st.te with
    | none =>
      cases hb : superFace P fuel st'.te with
      | none => simp only [ha, hb]
      | some rb =>
        rw [superFace] at ha hb
        rw [ha, hb] at hsf
        simp at hsf
    | some ra =>
      cases hb : superFace P fuel st'.te with
      | none =>
        rw [superFace] at ha hb
        rw [ha, hb] at hsf
        simp at hsf
      | some rb =>
        obtain ⟨sf, te1⟩ := ra
        obtain ⟨sf2, te2⟩ := rb
        have hsame : sf = sf2 := by
          rw [superFace] at ha hb
          rw [ha, hb] at hsf
          simpa using hsf
        subst hsame
        simp only [ha, hb]
        by_cases hlt : sf.length < 3
        · simp [if_pos hlt]
        · rw [if_neg hlt, if_neg hlt]
          by_cases he3 : sf.length = 3
          · simp [if_pos he3]
          · rw [if_neg he3, if_neg he3]
            have h1 := mwtPhase_fst tjlevel P sf
              { st with te := te1 } { st' with te := te2 }
            by_cases hc : (mwtPhase tjlevel P sf { st with te := te1 }).1 = [] ∧
                LEVEL_ROTATE ≤ tjlevel
            · have hc' : (mwtPhase tjlevel P sf { st' with te := te2 }).1 = [] ∧
                  LEVEL_ROTATE ≤ tjlevel := by rw [← h1]; exact hc
              rw [if_pos hc, if_pos hc']
              have h2 := rotatePhase_fst tjlevel P sf
                (mwtPhase tjlevel P sf { st with te := te1 }).2
                (mwtPhase tjlevel P sf { st' with te := te2 }).2
              rw [h2]
              rfl
            · have hc' : ¬((mwtPhase tjlevel P sf { st' with te := te2 }).1 = [] ∧
                  LEVEL_ROTATE ≤ tjlevel) := by rw [← h1]; exact hc
              rw [if_neg hc, if_neg hc', h1]
              rfl

lemma tjuncRun_pure (tjlevel maxedges fuel : Nat) :
    ∀ (faces : List FaceParams) (st : TJStats) (r : List (List (List Nat)))
      (st2 : TJStats),
      TJuncRun tjlevel maxedges fuel faces st = some (r, st2) →
      faces.mapM (pureFrags tjlevel maxedges fuel) = some r := by
  intro faces
  induction faces with
  | nil =>
    intro st r st2 h
    rw [TJuncRun] at h
    obtain ⟨h1, _⟩ := Prod.mk.injEq .. ▸ Option.some.inj h
    subst h1
    rfl
  | cons P rest ih =>
    intro st r st2 h
    rw [TJuncRun] at h
    cases hf : FixFaceEdgesF tjlevel maxedges P fuel st with
    | none => rw [hf] at h; exact absurd h (by simp)
    | some pr =>
      obtain ⟨fr, st1⟩ := pr
      rw [hf] at h
      simp only at h
      cases hrest : TJuncRun tjlevel maxedges fuel rest st1 with
      | none => rw [hrest] at h; exact absurd h (by simp)
      | some rr =>
        obtain ⟨rs, stf⟩ := rr
        rw [hrest] at h
        simp only at h
        obtain ⟨h1, h2⟩ := Prod.mk.injEq .. ▸ Option.some.inj h
        subst h1
        have hpure : pureFrags tjlevel maxedges fuel P = some fr := by
          unfold pureFrags
          rw [fixFaceEdgesF_frags_indep tjlevel maxedges P fuel initTJStats st,
            hf]
          rfl
        rw [List.mapM_cons, hpure, ih st1 rs stf hrest]
        rfl

/-- C7: the fragment list `FixFaceEdges` computes for a face is a pure
function of that face's frozen inputs (face data, BSP tree, vertex table,
options): the fragments are unchanged under any change of the shared
statistics counters, and a `TJunc` run over the faces in any scheduler
order, threading the shared counters through, assigns every face exactly
the fragment list of a standalone run of that face from zeroed counters. -/
theorem fixFaceEdges_deterministic (tjlevel maxedges fuel : Nat)
    (faces : List FaceParams) (st st' : TJStats)
    (r : List (List (List Nat))) (st2 : TJStats)
    (hrun : TJuncRun tjlevel maxedges fuel faces st = some (r, st2)) :
    (∀ P : FaceParams,
      Option.map Prod.fst (FixFaceEdgesF tjlevel maxedges P fuel st) =
      Option.map Prod.fst (FixFaceEdgesF tjlevel maxedges P fuel st')) ∧
    faces.mapM (pureFrags tjlevel maxedges fuel) = some r :=
  ⟨fun P => fixFaceEdgesF_frags_indep tjlevel maxedges P fuel st st',
    tjuncRun_pure tjlevel maxedges fuel faces st r st2 hrun⟩

/-- A face for the C7 witness: a quadrilateral with trivial oracle data. -/
def wFace : FaceParams :=
  ⟨[0, 1, 2, 3], fun _ _ _ _ => none, fun _ => [], fun _ => 0,
    fun _ => [], fun _ => [], fun _ _ _ => true⟩

/-- Witness for fixFaceEdges_deterministic: one face at tjunc level NONE,
two different incoming counter states. -/
theorem fixFaceEdges_deterministic_witness :
    (∀ P : FaceParams,
      Option.map Prod.fst (FixFaceEdgesF 0 0 P 0 initTJStats) =
      Option.map Prod.fst
        (FixFaceEdgesF 0 0 P 0 ⟨(5, 7), 1, 2, 3, 4, 5, 6, 7, 8⟩)) ∧
    [wFace].mapM (pureFrags 0 0 0) = some [[[0, 1, 2, 3]]] :=
  fixFaceEdges_deterministic 0 0 0 [wFace] initTJStats
    ⟨(5, 7), 1, 2, 3, 4, 5, 6, 7, 8⟩ [[[0, 1, 2, 3]]] initTJStats rfl
